import Mathlib

/-!
Verification of the vid-story-generator pipeline against its specification.

The development shallowly embeds the parts of the TypeScript source that the
claims concern:

* the punctuation-based prosody splitter (`src/common/utils/punctuation-splitter.ts`),
  including the exact backtracking semantics of the JavaScript regular
  expression it uses;
* the Ken Burns zoom/pan filter construction (`src/common/ffmpeg/ffmpeg.service.ts`,
  `getKenBurnsFilter`), with the floating-point constants represented exactly
  as rationals and the `zoompan` expressions given their per-frame denotation;
* `concatenateVideos` from the same service;
* the global TTS FIFO queue (`src/common/tts/tts-queue.service.ts`) as a
  labelled transition system whose interleavings model the single-threaded
  JavaScript event loop (synchronous sections are atomic steps, `await`
  points are step boundaries);
* the `generateFullStory` pipeline of `story.service.ts` (the current,
  queue-based revision) as a deterministic state transformer over a state
  holding the project row, the scene rows, the file system (as a set of
  paths, each path a list of segments as produced by `path.join`) and the
  append-only log, with the external AI / image / TTS collaborators given
  as oracle functions and every provider call counted.
-/

namespace VidStory

/-! ### Punctuation splitter (`punctuation-splitter.ts`)

`splitByPunctuation` runs the JavaScript regex
`/([^.!?;:…]+(?:\.\.+|…|[.!?;:]+(?:\s*[.!?;:]+)*))\s*/g` in an `exec` loop.
The embedding reproduces the regex engine's behaviour on this pattern:
greedy runs, ordered alternation (a run of two or more dots is preferred,
then an ellipsis character, then a general punctuation run optionally
continued across whitespace), the `\s*` tail that the match consumes but
the captured group omits, and `exec`'s scan that silently skips characters
at which no match can start.  Recursions that are not structural use an
explicit character-count fuel; the fuel supplied by the wrappers is an
upper bound on the number of iterations, so the fuelled functions agree
with the unbounded loop. -/

def isPunctC (c : Char) : Bool :=
  c == '.' || c == '!' || c == '?' || c == ';' || c == ':' || c == '…'

def isPunct2C (c : Char) : Bool :=
  c == '.' || c == '!' || c == '?' || c == ';' || c == ':'

/-- The character class of the JavaScript regex `\s` — which is also the
set `String.prototype.trim()` removes: ASCII whitespace, NBSP, the Ogham
space mark, the `U+2000`–`U+200A` spaces, the line and paragraph
separators, the narrow and medium mathematical spaces, the ideographic
space, and the zero-width no-break space. -/
def isWsC (c : Char) : Bool :=
  c == ' ' || c == '\t' || c == '\n' || c == '\r' || c == '\x0b' ||
    c == '\x0c' || c == '\u00A0' || c == '\u1680' ||
    (0x2000 ≤ c.toNat && c.toNat ≤ 0x200A) ||
    c == '\u2028' || c == '\u2029' || c == '\u202F' ||
    c == '\u205F' || c == '\u3000' || c == '\uFEFF'

def trimChars (l : List Char) : List Char :=
  ((l.dropWhile isWsC).reverse.dropWhile isWsC).reverse

/-- The `(?:\s*[.!?;:]+)*` continuation of the third alternative: repeatedly
consume optional whitespace followed by a further punctuation run, as long as
such a run exists.  Returns the consumed characters and the remainder. -/
def punctTailF : Nat → List Char → List Char × List Char
  | 0, l => ([], l)
  | Nat.succ f, l =>
    let w := l.takeWhile isWsC
    let r := l.dropWhile isWsC
    let run2 := r.takeWhile isPunct2C
    let r2 := r.dropWhile isPunct2C
    if run2 = [] then ([], l)
    else
      let p := punctTailF f r2
      (w ++ run2 ++ p.1, p.2)

def punctTail (l : List Char) : List Char × List Char :=
  punctTailF l.length l

/-- The ordered alternation `(?:\.\.+|…|[.!?;:]+(?:\s*[.!?;:]+)*)` applied at
the start of a punctuation-headed suffix: a run of two or more dots is
preferred, then a single ellipsis character, then a general punctuation run
optionally continued across whitespace.  Returns the consumed characters and
the remainder. -/
def punctPart : List Char → List Char × List Char
  | [] => ([], [])
  | c :: t =>
    if c = '.' ∧ t.head? = some '.' then
      ((c :: t).takeWhile (fun d => d == '.'), (c :: t).dropWhile (fun d => d == '.'))
    else if c = '…' then ([c], t)
    else
      let run2 := (c :: t).takeWhile isPunct2C
      let r2 := (c :: t).dropWhile isPunct2C
      let p := punctTail r2
      (run2 ++ p.1, p.2)

/-- Attempt to match the pattern at the start of `l`.  On success, returns the
captured group (text run plus punctuation run) and the remainder after the
trailing `\s*`. -/
def matchAt (l : List Char) : Option (List Char × List Char) :=
  let a := l.takeWhile (fun c => !(isPunctC c))
  let r1 := l.dropWhile (fun c => !(isPunctC c))
  if a = [] then none
  else
    match r1 with
    | [] => none
    | c :: t =>
      let pr := punctPart (c :: t)
      some (a ++ pr.1, pr.2.dropWhile isWsC)

/-- `exec`'s forward scan: try to match at each successive start position. -/
def findMatch : List Char → Option (List Char × List Char)
  | [] => none
  | c :: t =>
    match matchAt (c :: t) with
    | some r => some r
    | none => findMatch t

/-- The `while ((match = pattern.exec(text)) !== null)` loop: collect the
trimmed nonempty captures; the second component is the text after the last
match (`text.substring(lastIndex)`). -/
def splitCoreF : Nat → List Char → List (List Char) × List Char
  | 0, l => ([], l)
  | Nat.succ f, l =>
    match findMatch l with
    | none => ([], l)
    | some (g, rest) =>
      let p := splitCoreF f rest
      let s := trimChars g
      (if s = [] then p.1 else s :: p.1, p.2)

def splitCore (l : List Char) : List (List Char) × List Char :=
  splitCoreF l.length l

def splitByPunctuationL (l : List Char) : List (List Char) :=
  let p := splitCore l
  let remT := trimChars p.2
  let segs := p.1 ++ (if remT = [] then [] else [remT])
  if segs = [] ∧ trimChars l ≠ [] then [trimChars l] else segs

def splitByPunctuation (text : String) : List String :=
  (splitByPunctuationL text.data).map (fun l => String.mk l)

/-- Does the list contain `"!?"` or `"?!"` as adjacent characters
(the `/!\?|\?!/` test)? -/
def hasBangQ : List Char → Bool
  | a :: b :: t =>
    ((a == '!' && b == '?') || (a == '?' && b == '!')) || hasBangQ (b :: t)
  | _ => false

def getProsodyFromPunctuation (t : List Char) : String × String × String :=
  let tr := trimChars t
  let rv := tr.reverse
  if (match rv with | a :: b :: _ => a == '!' && b == '!' | _ => false)
      || hasBangQ tr then
    ("+15%", "+40%", "+15Hz")
  else if rv.head? = some '!' then
    ("+10%", "+30%", "+10Hz")
  else if rv.head? = some '?' then
    ("+5%", "+10%", "+15Hz")
  else if (match rv with | a :: b :: _ => a == '.' && b == '.' | _ => false)
      || rv.head? = some '…' then
    ("-15%", "-10%", "-5Hz")
  else if rv.head? = some ':' then
    ("-5%", "+5%", "+0Hz")
  else if rv.head? = some ';' then
    ("-5%", "+0%", "+0Hz")
  else
    ("+0%", "+0%", "+0Hz")

structure ProsodySegment where
  text : String
  rate : String
  volume : String
  pitch : String
deriving DecidableEq, Repr

def textToProsodySegments (narration : String) : List ProsodySegment :=
  (splitByPunctuation narration).map (fun t =>
    let p := getProsodyFromPunctuation t.data
    { text := t, rate := p.1, volume := p.2.1, pitch := p.2.2 })

/-! #### Lemmas about the splitter

The splitter can drop whitespace between segments, punctuation characters at
positions where the regular expression cannot start a match, and leading or
trailing whitespace of each segment.  What it can never drop, reorder or
invent is any character that is neither whitespace nor one of the six
punctuation marks; `keepC` selects those characters. -/

def keepC (c : Char) : Bool :=
  !(isWsC c) && !(isPunctC c)

theorem punctTailF_decomp (f : Nat) (l : List Char) :
    (punctTailF f l).1 ++ (punctTailF f l).2 = l ∧
      ∀ c ∈ (punctTailF f l).1, isPunct2C c = true ∨ isWsC c = true := by
  induction f generalizing l with
  | zero => simp [punctTailF]
  | succ f ih =>
    simp only [punctTailF]
    by_cases h : (l.dropWhile isWsC).takeWhile isPunct2C = []
    · simp [h]
    · simp only [if_neg h]
      obtain ⟨ihEq, ihMem⟩ := ih ((l.dropWhile isWsC).dropWhile isPunct2C)
      constructor
      · rw [List.append_assoc, List.append_assoc, ihEq,
          List.takeWhile_append_dropWhile, List.takeWhile_append_dropWhile]
      · intro c hc
        simp only [List.mem_append] at hc
        rcases hc with (hc | hc) | hc
        · exact Or.inr (List.mem_takeWhile_imp hc)
        · exact Or.inl (List.mem_takeWhile_imp hc)
        · exact ihMem c hc

theorem punctTail_decomp (l : List Char) :
    (punctTail l).1 ++ (punctTail l).2 = l ∧
      ∀ c ∈ (punctTail l).1, isPunct2C c = true ∨ isWsC c = true :=
  punctTailF_decomp l.length l

theorem filter_keep_of_forall_not (l : List Char)
    (h : ∀ c ∈ l, keepC c = false) : l.filter keepC = [] := by
  induction l with
  | nil => rfl
  | cons c t ih =>
    have hc := h c (by simp)
    simp [List.filter_cons, hc, ih (fun d hd => h d (by simp [hd]))]

theorem keepC_false_of_ws {c : Char} (h : isWsC c = true) : keepC c = false := by
  simp [keepC, h]

theorem keepC_false_of_punct {c : Char} (h : isPunctC c = true) : keepC c = false := by
  simp [keepC, h]

theorem keepC_false_of_punct2 {c : Char} (h : isPunct2C c = true) : keepC c = false := by
  apply keepC_false_of_punct
  simp only [isPunct2C, Bool.or_eq_true, beq_iff_eq] at h
  simp only [isPunctC, Bool.or_eq_true, beq_iff_eq]
  tauto

theorem filter_keep_dropWhile_ws (l : List Char) :
    (l.dropWhile isWsC).filter keepC = l.filter keepC := by
  induction l with
  | nil => rfl
  | cons c t ih =>
    by_cases h : isWsC c = true
    · simp [List.dropWhile_cons, h, ih, List.filter_cons, keepC_false_of_ws h]
    · simp [List.dropWhile_cons, h]

theorem filter_keep_trim (l : List Char) :
    (trimChars l).filter keepC = l.filter keepC := by
  unfold trimChars
  rw [List.filter_reverse, filter_keep_dropWhile_ws, List.filter_reverse,
    List.reverse_reverse, filter_keep_dropWhile_ws]

theorem isPunctC_of_isPunct2C {c : Char} (h : isPunct2C c = true) :
    isPunctC c = true := by
  simp only [isPunct2C, Bool.or_eq_true, beq_iff_eq] at h
  simp only [isPunctC, Bool.or_eq_true, beq_iff_eq]
  tauto

theorem punctPart_decomp (l : List Char) :
    (punctPart l).1 ++ (punctPart l).2 = l ∧
      ∀ c ∈ (punctPart l).1, isPunctC c = true ∨ isWsC c = true := by
  match l with
  | [] => simp [punctPart]
  | c :: t =>
    simp only [punctPart]
    by_cases h1 : c = '.' ∧ t.head? = some '.'
    · simp only [if_pos h1]
      refine ⟨List.takeWhile_append_dropWhile _ _, ?_⟩
      intro d hd
      have := List.mem_takeWhile_imp hd
      simp only [beq_iff_eq] at this
      subst this
      exact Or.inl (by simp [isPunctC])
    · simp only [if_neg h1]
      by_cases h2 : c = '…'
      · subst h2
        simp [isPunctC]
      · simp only [if_neg h2]
        obtain ⟨pEq, pMem⟩ := punctTail_decomp ((c :: t).dropWhile isPunct2C)
        constructor
        · rw [List.append_assoc, pEq, List.takeWhile_append_dropWhile]
        · intro d hd
          simp only [List.mem_append] at hd
          rcases hd with hd | hd
          · exact Or.inl (isPunctC_of_isPunct2C (List.mem_takeWhile_imp hd))
          · rcases pMem d hd with h | h
            · exact Or.inl (isPunctC_of_isPunct2C h)
            · exact Or.inr h

theorem matchAt_filter {l g rest : List Char} (h : matchAt l = some (g, rest)) :
    l.filter keepC = g.filter keepC ++ rest.filter keepC := by
  unfold matchAt at h
  by_cases ha : l.takeWhile (fun c => !(isPunctC c)) = []
  · rw [if_pos ha] at h
    exact Option.noConfusion h
  · rw [if_neg ha] at h
    rcases hr : l.dropWhile (fun c => !(isPunctC c)) with _ | ⟨c, t⟩
    · rw [hr] at h
      exact Option.noConfusion h
    · rw [hr] at h
      simp only [Option.some.injEq, Prod.mk.injEq] at h
      obtain ⟨hg, hrest⟩ := h
      obtain ⟨pEq, pMem⟩ := punctPart_decomp (c :: t)
      have hl : l.takeWhile (fun c => !(isPunctC c)) ++
          ((punctPart (c :: t)).1 ++
            ((punctPart (c :: t)).2.takeWhile isWsC ++
              (punctPart (c :: t)).2.dropWhile isWsC)) = l := by
        rw [List.takeWhile_append_dropWhile, pEq, ← hr,
          List.takeWhile_append_dropWhile]
      have hwsnil : ((punctPart (c :: t)).2.takeWhile isWsC).filter keepC = [] := by
        apply filter_keep_of_forall_not
        intro d hd
        exact keepC_false_of_ws (List.mem_takeWhile_imp hd)
      rw [← hl, ← hg, ← hrest]
      simp [List.filter_append, List.append_assoc, hwsnil, filter_keep_dropWhile_ws]

theorem matchAt_none (l : List Char) (h : matchAt l = none) :
    l.takeWhile (fun c => !(isPunctC c)) = [] ∨
      l.dropWhile (fun c => !(isPunctC c)) = [] := by
  unfold matchAt at h
  by_cases ha : l.takeWhile (fun c => !(isPunctC c)) = []
  · exact Or.inl ha
  · rw [if_neg ha] at h
    rcases hr : l.dropWhile (fun c => !(isPunctC c)) with _ | ⟨c, t⟩
    · exact Or.inr (by simp [hr])
    · rw [hr] at h
      exact Option.noConfusion h

theorem findMatch_none_of_no_punct (l : List Char)
    (h : ∀ c ∈ l, isPunctC c = false) : findMatch l = none := by
  induction l with
  | nil => rfl
  | cons c t ih =>
    have hm : matchAt (c :: t) = none := by
      unfold matchAt
      have : (c :: t).dropWhile (fun c => !(isPunctC c)) = [] := by
        rw [List.dropWhile_eq_nil_iff]
        intro d hd
        simp [h d hd]
      by_cases ha : (c :: t).takeWhile (fun c => !(isPunctC c)) = []
      · simp [ha]
      · simp only [if_neg ha]
        rw [this]
    simp only [findMatch, hm]
    exact ih (fun d hd => h d (by simp [hd]))

theorem findMatch_filter {l g rest : List Char}
    (h : findMatch l = some (g, rest)) :
    l.filter keepC = g.filter keepC ++ rest.filter keepC := by
  induction l with
  | nil => simp [findMatch] at h
  | cons c t ih =>
    simp only [findMatch] at h
    match hm : matchAt (c :: t) with
    | some r =>
      rw [hm] at h
      cases h
      exact matchAt_filter hm
    | none =>
      rw [hm] at h
      rcases matchAt_none _ hm with ha | hr
      · rw [List.takeWhile_cons] at ha
        have hc2 : isPunctC c = true := by
          by_contra hc
          rw [Bool.not_eq_true] at hc
          simp [hc] at ha
        rw [List.filter_cons]
        simp only [keepC_false_of_punct hc2, Bool.false_eq_true, if_false]
        exact ih h
      · exfalso
        have hall := List.dropWhile_eq_nil_iff.mp hr
        have hnone : findMatch t = none := by
          apply findMatch_none_of_no_punct
          intro d hd
          have h2 := hall d (List.mem_cons_of_mem _ hd)
          simpa using h2
        rw [hnone] at h
        exact Option.noConfusion h

theorem splitCoreF_filter (f : Nat) (l : List Char) :
    ((splitCoreF f l).1.map (fun s => s.filter keepC)).flatten ++
        (splitCoreF f l).2.filter keepC = l.filter keepC := by
  induction f generalizing l with
  | zero => simp [splitCoreF]
  | succ f ih =>
    simp only [splitCoreF]
    match hm : findMatch l with
    | none => simp
    | some (g, rest) =>
      have hfil := findMatch_filter hm
      by_cases hs : trimChars g = []
      · simp only [hs, if_pos rfl]
        have hg : g.filter keepC = [] := by
          rw [← filter_keep_trim, hs]
          rfl
        rw [hfil, hg]
        simpa using ih rest
      · simp only [if_neg hs]
        rw [hfil]
        have := ih rest
        simp only [List.map_cons, List.flatten_cons, List.append_assoc]
        rw [this, filter_keep_trim]

theorem splitAssemble_filter (segs : List (List Char)) (rem l : List Char)
    (hcore : (segs.map (fun s => s.filter keepC)).flatten ++ rem.filter keepC
      = l.filter keepC) :
    ((if (segs ++ (if trimChars rem = [] then [] else [trimChars rem])) = []
          ∧ trimChars l ≠ []
        then [trimChars l]
        else segs ++ (if trimChars rem = [] then [] else [trimChars rem])).map
        (fun s => s.filter keepC)).flatten = l.filter keepC := by
  by_cases hrem : trimChars rem = []
  · have h2 : rem.filter keepC = [] := by
      rw [← filter_keep_trim, hrem]; rfl
    rw [h2, List.append_nil] at hcore
    simp only [if_pos hrem, List.append_nil]
    by_cases hfall : segs = [] ∧ trimChars l ≠ []
    · rw [if_pos hfall]
      simp [filter_keep_trim]
    · rw [if_neg hfall]
      exact hcore
  · simp only [if_neg hrem]
    have hne : ¬(segs ++ [trimChars rem] = [] ∧ trimChars l ≠ []) := by simp
    rw [if_neg hne, List.map_append, List.flatten_append]
    simp only [List.map_cons, List.map_nil, List.flatten_cons, List.flatten_nil,
      List.append_nil]
    rw [filter_keep_trim]
    exact hcore

theorem splitByPunctuationL_filter (l : List Char) :
    ((splitByPunctuationL l).map (fun s => s.filter keepC)).flatten
      = l.filter keepC := by
  unfold splitByPunctuationL
  exact splitAssemble_filter (splitCore l).1 (splitCore l).2 l
    (splitCoreF_filter l.length l)

theorem string_join_mk_data (ls : List (List Char)) :
    (String.join (ls.map (fun l => String.mk l))).data = ls.flatten := by
  have hdata : ∀ a b : String, (a ++ b).data = a.data ++ b.data := by
    intro a b
    rfl
  have hfold : ∀ (ss : List String) (acc : String),
      (ss.foldl (fun a b => a ++ b) acc).data
        = acc.data ++ (ss.map String.data).flatten := by
    intro ss
    induction ss with
    | nil => intro acc; simp
    | cons s t ih =>
      intro acc
      simp only [List.foldl_cons, ih, List.map_cons, List.flatten_cons, hdata,
        List.append_assoc]
  unfold String.join
  rw [hfold]
  have hcomp : (String.data ∘ fun l : List Char => String.mk l) = id := rfl
  rw [List.map_map, hcomp, List.map_id]
  simp

/-- C8 counterexample: for the narration `"Hi...! Yo."` the splitter produces
the segments `"Hi..."` and `"Yo."`; their concatenation drops the space and
the stray `"!"`, so it does not reconstitute the narration. -/
theorem c8_prosody_roundtrip_counterexample :
    String.join ((textToProsodySegments ("Hi...! Yo.")).map (fun s => s.text))
        = "Hi...Yo." ∧
      String.join ((textToProsodySegments ("Hi...! Yo.")).map (fun s => s.text))
        ≠ "Hi...! Yo." := by
  constructor
  · decide
  · decide

/-- C8 (amended): concatenating the `text` fields of the `ProsodySegment`
list produced by `textToProsodySegments` reconstitutes the narration up to
the splitter's dropped whitespace and dropped punctuation: the subsequence
of characters that are neither whitespace nor one of the punctuation marks
`. ! ? ; : …` is preserved exactly, in order. -/
theorem c8_prosody_roundtrip_mod_ws_punct (n : String) :
    (String.join ((textToProsodySegments n).map (fun s => s.text))).data.filter keepC
      = n.data.filter keepC := by
  have hmap : (textToProsodySegments n).map (fun s => s.text) = splitByPunctuation n := by
    unfold textToProsodySegments
    rw [List.map_map]
    exact List.map_id _
  rw [hmap]
  unfold splitByPunctuation
  rw [string_join_mk_data]
  have hmain := splitByPunctuationL_filter n.data
  rw [← hmain]
  clear hmain
  induction splitByPunctuationL n.data with
  | nil => simp
  | cons s t ih => simp [List.filter_append, ih]

/-! ### Ken Burns filters (`ffmpeg.service.ts`, `getKenBurnsFilter`)

The service builds an ffmpeg `zoompan` filter string per "show" animation.
The embedding keeps the zoom and pan expressions of that string as a small
AST with the source's constants represented exactly as rationals (the
JavaScript doubles `0.02`, `1.04`, … denote these values up to the usual
binary rounding; all claims here are about the exact arithmetic of the
constructed expressions).  `zoomSeq` and `panFrac` give the per-frame
denotation that ffmpeg's `zoompan` assigns to those expressions: the
variable `zoom` is the previous frame's zoom (initially `1`) and `on` is the
output frame number; the pan fraction multiplies `(iw-iw/zoom)` resp.
`(ih-ih/zoom)`, and the centred coordinate `iw/2-(iw/zoom/2)` is the
fraction `1/2` of that same quantity.  The repository holds two revisions of
`getKenBurnsFilter`; both are embedded (`getKenBurnsFilter` is the earlier
one, `getKenBurnsFilterV2` the later one with smaller ranges and the
closed-form zoom-out). -/

inductive ZoomExpr where
  | const (c : ℚ)
  | minRec (delta zmax : ℚ)
  | maxRec (delta zmin : ℚ)
  | maxLin (z0 delta zmin : ℚ)
deriving DecidableEq, Repr

inductive CoordExpr where
  | center
  | panFwd (delta : ℚ)
  | panBack (delta : ℚ)
deriving DecidableEq, Repr

structure KenBurns where
  z : ZoomExpr
  x : CoordExpr
  y : CoordExpr
  frames : ℤ
deriving DecidableEq, Repr

def kbFrames (duration : ℚ) : ℤ :=
  Int.floor (duration * 24)

def getKenBurnsFilter (animation : String) (duration : ℚ) : KenBurns :=
  let frames := kbFrames duration
  let zoomSlowIncrement : ℚ := 0.04 / (frames : ℚ)
  let zoomInIncrement : ℚ := 0.08 / (frames : ℚ)
  let zoomOutDecrement : ℚ := 0.1 / (frames : ℚ)
  let panIncrement : ℚ := 1.0 / (frames : ℚ)
  if animation = "pan-left" then
    ⟨.const 1.05, .panBack panIncrement, .center, frames⟩
  else if animation = "pan-right" then
    ⟨.const 1.05, .panFwd panIncrement, .center, frames⟩
  else if animation = "pan-up" then
    ⟨.const 1.05, .center, .panBack panIncrement, frames⟩
  else if animation = "pan-down" then
    ⟨.const 1.05, .center, .panFwd panIncrement, frames⟩
  else if animation = "zoom-slow" then
    ⟨.minRec zoomSlowIncrement 1.04, .center, .center, frames⟩
  else if animation = "zoom-in" then
    ⟨.minRec zoomInIncrement 1.08, .center, .center, frames⟩
  else if animation = "zoom-out" then
    ⟨.maxRec zoomOutDecrement 1.0, .center, .center, frames⟩
  else
    ⟨.const 1, .center, .center, frames⟩

def getKenBurnsFilterV2 (animation : String) (duration : ℚ) : KenBurns :=
  let frames := kbFrames duration
  let zoomSlowIncrement : ℚ := 0.02 / (frames : ℚ)
  let zoomInIncrement : ℚ := 0.04 / (frames : ℚ)
  let zoomOutDecrement : ℚ := 0.05 / (frames : ℚ)
  let panIncrement : ℚ := 1.0 / (frames : ℚ)
  if animation = "pan-left" then
    ⟨.const 1.03, .panBack panIncrement, .center, frames⟩
  else if animation = "pan-right" then
    ⟨.const 1.03, .panFwd panIncrement, .center, frames⟩
  else if animation = "pan-up" then
    ⟨.const 1.03, .center, .panBack panIncrement, frames⟩
  else if animation = "pan-down" then
    ⟨.const 1.03, .center, .panFwd panIncrement, frames⟩
  else if animation = "zoom-slow" then
    ⟨.minRec zoomSlowIncrement 1.02, .center, .center, frames⟩
  else if animation = "zoom-in" then
    ⟨.minRec zoomInIncrement 1.04, .center, .center, frames⟩
  else if animation = "zoom-out" then
    ⟨.maxLin 1.05 zoomOutDecrement 1.0, .center, .center, frames⟩
  else
    ⟨.const 1, .center, .center, frames⟩

/-- Per-frame zoom value of the `zoompan` `z` expression at output frame `n`
(0-based).  `zoompan` evaluates the expression once per frame with `zoom`
bound to the previously computed value (initially `1`) and `on` bound to the
frame number. -/
def minRecSeq (d m : ℚ) : ℕ → ℚ
  | 0 => min (1 + d) m
  | n + 1 => min (minRecSeq d m n + d) m

def maxRecSeq (d m : ℚ) : ℕ → ℚ
  | 0 => max (1 - d) m
  | n + 1 => max (maxRecSeq d m n - d) m

def zoomSeq : ZoomExpr → ℕ → ℚ
  | .const c, _ => c
  | .minRec d m, n => minRecSeq d m n
  | .maxRec d m, n => maxRecSeq d m n
  | .maxLin z0 d m, n => max (z0 - d * n) m

/-- Pan position at output frame `n`, as the fraction of the available pan
range `iw-iw/zoom` (resp. `ih-ih/zoom`) used by the `x`/`y` expression. -/
def panFrac : CoordExpr → ℕ → ℚ
  | .center, _ => 1 / 2
  | .panFwd d, n => d * n
  | .panBack d, n => 1 - d * n

theorem minRec_closed (d m : ℚ) (hd : 0 ≤ d) (n : ℕ) :
    zoomSeq (.minRec d m) n = min (1 + (n + 1) * d) m := by
  induction n with
  | zero => simp [zoomSeq, minRecSeq]
  | succ n ih =>
    rw [show zoomSeq (.minRec d m) (n + 1)
        = min (zoomSeq (.minRec d m) n + d) m from rfl, ih]
    rcases le_or_lt (1 + (n + 1) * d) m with h | h
    · rw [min_eq_left h]
      have : 1 + ((n : ℚ) + 1) * d + d = 1 + ((n + 1 : ℕ) + 1) * d := by
        push_cast
        ring
      rw [this]
    · rw [min_eq_right h.le]
      have h2 : m ≤ 1 + ((n + 1 : ℕ) + 1) * d := by
        refine h.le.trans ?_
        push_cast
        nlinarith
      rw [min_eq_right h2, min_eq_right (by linarith)]

theorem minRec_delta (d m : ℚ) (f : ℤ) (hd : 0 < d) (hfm : 1 + (f : ℚ) * d = m)
    (n : ℕ) (h : zoomSeq (.minRec d m) n < m) :
    zoomSeq (.minRec d m) (n + 1) = zoomSeq (.minRec d m) n + d := by
  rw [minRec_closed d m hd.le] at h ⊢
  rw [minRec_closed d m hd.le]
  have hlt : 1 + ((n : ℚ) + 1) * d < m := by
    by_contra hc
    push_neg at hc
    rw [min_eq_right hc] at h
    exact lt_irrefl _ h
  have hn1f : ((n : ℚ) + 1) < (f : ℚ) := by
    rw [← hfm] at hlt
    have := lt_of_add_lt_add_left hlt
    exact lt_of_mul_lt_mul_right this hd.le
  have hn2f : ((n : ℚ) + 2) ≤ (f : ℚ) := by
    have : ((n : ℤ) + 1) < f := by exact_mod_cast hn1f
    have h2 : ((n : ℤ) + 2) ≤ f := by omega
    exact_mod_cast h2
  have hle : 1 + ((n + 1 : ℕ) + 1) * d ≤ m := by
    rw [← hfm]
    push_cast
    nlinarith
  rw [min_eq_left hle, min_eq_left hlt.le]
  push_cast
  ring

theorem maxRec_one (d : ℚ) (hd : 0 ≤ d) (n : ℕ) :
    zoomSeq (.maxRec d 1) n = 1 := by
  induction n with
  | zero =>
    show max (1 - d) 1 = 1
    rw [max_eq_right (by linarith)]
  | succ n ih =>
    rw [show zoomSeq (.maxRec d 1) (n + 1)
        = max (zoomSeq (.maxRec d 1) n - d) 1 from rfl, ih]
    rw [max_eq_right (by linarith)]

theorem maxLin_rec (z0 d m : ℚ) (hd : 0 ≤ d) (n : ℕ) :
    zoomSeq (.maxLin z0 d m) (n + 1)
      = max (zoomSeq (.maxLin z0 d m) n - d) m := by
  show max (z0 - d * (n + 1 : ℕ)) m = max (max (z0 - d * n) m - d) m
  rcases le_or_lt m (z0 - d * n) with h | h
  · rw [max_eq_left h]
    push_cast
    ring_nf
  · rw [max_eq_right h.le]
    have h1 : z0 - d * ((n : ℚ) + 1) ≤ m := by nlinarith
    have h2 : m - d ≤ m := by linarith
    rw [max_eq_right h2]
    push_cast
    rw [max_eq_right h1]

theorem maxLin_delta (z0 d m : ℚ) (f : ℤ) (hd : 0 < d)
    (hfm : z0 - (f : ℚ) * d = m) (n : ℕ)
    (h : m < zoomSeq (.maxLin z0 d m) n) :
    zoomSeq (.maxLin z0 d m) (n + 1) = zoomSeq (.maxLin z0 d m) n - d := by
  have hlt : m < z0 - d * n := by
    by_contra hc
    push_neg at hc
    rw [show zoomSeq (.maxLin z0 d m) n = max (z0 - d * n) m from rfl,
      max_eq_right hc] at h
    exact lt_irrefl _ h
  have hnf : (n : ℚ) < (f : ℚ) := by
    have h2 : d * (n : ℚ) < (f : ℚ) * d := by
      rw [← hfm] at hlt
      linarith
    rw [mul_comm] at h2
    exact lt_of_mul_lt_mul_right h2 hd.le
  have hn1f : ((n : ℚ) + 1) ≤ (f : ℚ) := by
    have : (n : ℤ) < f := by exact_mod_cast hnf
    have h2 : ((n : ℤ) + 1) ≤ f := by omega
    exact_mod_cast h2
  have hge : m ≤ z0 - d * ((n : ℚ) + 1) := by
    rw [← hfm]
    nlinarith
  show max (z0 - d * (n + 1 : ℕ)) m = max (z0 - d * n) m - d
  rw [max_eq_left hlt.le]
  push_cast
  rw [max_eq_left (by linarith)]
  ring

/-- The zoom expression is the clamped-increment recurrence with the given
per-frame delta and maximum, and the frame-to-frame delta is exactly the
constant `delta` until the clamp is reached. -/
def zoomRecLinear (e : ZoomExpr) (delta zmax : ℚ) : Prop :=
  e = .minRec delta zmax ∧
    (∀ n, zoomSeq e (n + 1) = min (zoomSeq e n + delta) zmax) ∧
    (∀ n, zoomSeq e n < zmax → zoomSeq e (n + 1) = zoomSeq e n + delta)

/-- The zoom-out expression obeys the symmetric clamped-decrement recurrence,
with constant frame-to-frame delta `-delta` until the clamp is reached. -/
def zoomOutLinear (e : ZoomExpr) (delta zmin : ℚ) : Prop :=
  (∀ n, zoomSeq e (n + 1) = max (zoomSeq e n - delta) zmin) ∧
    (∀ n, zmin < zoomSeq e n → zoomSeq e (n + 1) = zoomSeq e n - delta)

/-- The pan fraction advances by the constant per-frame step. -/
def panLinear (e : CoordExpr) (step : ℚ) : Prop :=
  ∀ n, panFrac e (n + 1) - panFrac e n = step

theorem panFwd_delta (d : ℚ) (n : ℕ) :
    panFrac (.panFwd d) (n + 1) - panFrac (.panFwd d) n = d := by
  show d * ((n : ℕ) + 1 : ℕ) - d * n = d
  push_cast
  ring

theorem panBack_delta (d : ℚ) (n : ℕ) :
    panFrac (.panBack d) (n + 1) - panFrac (.panBack d) n = -d := by
  show (1 - d * ((n : ℕ) + 1 : ℕ)) - (1 - d * n) = -d
  push_cast
  ring

theorem zoomRecLinear_minRec (d m : ℚ) (f : ℤ) (hd : 0 < d)
    (hfm : 1 + (f : ℚ) * d = m) :
    zoomRecLinear (.minRec d m) d m :=
  ⟨rfl, fun _ => rfl, minRec_delta d m f hd hfm⟩

theorem zoomOutLinear_maxRec_one (d : ℚ) (hd : 0 ≤ d) :
    zoomOutLinear (.maxRec d 1) d 1 := by
  refine ⟨fun _ => rfl, fun n h => ?_⟩
  rw [maxRec_one d hd n] at h
  exact absurd h (lt_irrefl 1)

theorem zoomOutLinear_maxLin (z0 d m : ℚ) (f : ℤ) (hd : 0 < d)
    (hfm : z0 - (f : ℚ) * d = m) :
    zoomOutLinear (.maxLin z0 d m) d m :=
  ⟨maxLin_rec z0 d m hd.le, maxLin_delta z0 d m f hd hfm⟩

/-- C6: for every "show" animation in the enumeration (`pan-left`,
`pan-right`, `pan-up`, `pan-down`, `zoom-slow`, `zoom-in`, `zoom-out`), in
both revisions of `getKenBurnsFilter`, the generated zoom/pan filter
advances by a constant per-frame delta: the zoom obeys the recurrence
`zoom(n+1) = min (zoom n + Δ) zoomMax` with `Δ = (zoomMax - 1) / frames`
(resp. the symmetric `max`/decrement recurrence for `zoom-out`, whose delta
is `(zoomStart - 1) / frames`), the pan fraction advances by exactly
`1 / frames` toward the target edge while the zoom stays constant, and the
frame-to-frame delta of the animated quantity is constant until the clamp
is reached. -/
theorem c6_show_animations_linear (d : ℚ) (hf : 1 ≤ kbFrames d) :
    (zoomRecLinear (getKenBurnsFilterV2 "zoom-slow" d).z
        ((1.02 - 1) / (kbFrames d : ℚ)) 1.02
      ∧ zoomRecLinear (getKenBurnsFilterV2 "zoom-in" d).z
        ((1.04 - 1) / (kbFrames d : ℚ)) 1.04
      ∧ zoomOutLinear (getKenBurnsFilterV2 "zoom-out" d).z
        ((1.05 - 1) / (kbFrames d : ℚ)) 1
      ∧ zoomSeq (getKenBurnsFilterV2 "zoom-out" d).z 0 = 1.05
      ∧ (getKenBurnsFilterV2 "pan-right" d).z = .const 1.03
      ∧ panLinear (getKenBurnsFilterV2 "pan-right" d).x (1 / (kbFrames d : ℚ))
      ∧ panLinear (getKenBurnsFilterV2 "pan-left" d).x (-(1 / (kbFrames d : ℚ)))
      ∧ panLinear (getKenBurnsFilterV2 "pan-down" d).y (1 / (kbFrames d : ℚ))
      ∧ panLinear (getKenBurnsFilterV2 "pan-up" d).y (-(1 / (kbFrames d : ℚ))))
    ∧ (zoomRecLinear (getKenBurnsFilter "zoom-slow" d).z
        ((1.04 - 1) / (kbFrames d : ℚ)) 1.04
      ∧ zoomRecLinear (getKenBurnsFilter "zoom-in" d).z
        ((1.08 - 1) / (kbFrames d : ℚ)) 1.08
      ∧ zoomOutLinear (getKenBurnsFilter "zoom-out" d).z
        ((1.1 - 1) / (kbFrames d : ℚ)) 1
      ∧ (getKenBurnsFilter "pan-right" d).z = .const 1.05
      ∧ panLinear (getKenBurnsFilter "pan-right" d).x (1 / (kbFrames d : ℚ))
      ∧ panLinear (getKenBurnsFilter "pan-left" d).x (-(1 / (kbFrames d : ℚ)))
      ∧ panLinear (getKenBurnsFilter "pan-down" d).y (1 / (kbFrames d : ℚ))
      ∧ panLinear (getKenBurnsFilter "pan-up" d).y (-(1 / (kbFrames d : ℚ)))) := by
  have hfQ : (0 : ℚ) < (kbFrames d : ℚ) := by
    exact_mod_cast lt_of_lt_of_le Int.zero_lt_one hf
  have hfne : (kbFrames d : ℚ) ≠ 0 := ne_of_gt hfQ
  have hone : (1.0 : ℚ) = 1 := by norm_num
  have hpan : ∀ e : CoordExpr, e = .panFwd ((1.0 : ℚ) / (kbFrames d : ℚ)) →
      panLinear e (1 / (kbFrames d : ℚ)) := by
    intro e he
    rw [he, hone]
    exact panFwd_delta _
  have hpanB : ∀ e : CoordExpr, e = .panBack ((1.0 : ℚ) / (kbFrames d : ℚ)) →
      panLinear e (-(1 / (kbFrames d : ℚ))) := by
    intro e he
    rw [he, hone]
    exact panBack_delta _
  refine ⟨⟨?_, ?_, ?_, ?_, ?_, ?_, ?_, ?_, ?_⟩, ?_, ?_, ?_, ?_, ?_, ?_, ?_, ?_⟩
  · have hz : (getKenBurnsFilterV2 "zoom-slow" d).z
        = .minRec (0.02 / (kbFrames d : ℚ)) 1.02 := rfl
    rw [hz, show ((1.02 - 1 : ℚ)) / (kbFrames d : ℚ)
        = 0.02 / (kbFrames d : ℚ) by norm_num]
    exact zoomRecLinear_minRec _ _ (kbFrames d) (by positivity)
      (by field_simp; norm_num)
  · have hz : (getKenBurnsFilterV2 "zoom-in" d).z
        = .minRec (0.04 / (kbFrames d : ℚ)) 1.04 := rfl
    rw [hz, show ((1.04 - 1 : ℚ)) / (kbFrames d : ℚ)
        = 0.04 / (kbFrames d : ℚ) by norm_num]
    exact zoomRecLinear_minRec _ _ (kbFrames d) (by positivity)
      (by field_simp; norm_num)
  · have hz : (getKenBurnsFilterV2 "zoom-out" d).z
        = .maxLin 1.05 (0.05 / (kbFrames d : ℚ)) 1.0 := rfl
    rw [hz, hone, show ((1.05 - 1 : ℚ)) / (kbFrames d : ℚ)
        = 0.05 / (kbFrames d : ℚ) by norm_num]
    exact zoomOutLinear_maxLin _ _ _ (kbFrames d) (by positivity)
      (by field_simp; norm_num)
  · have hz : (getKenBurnsFilterV2 "zoom-out" d).z
        = .maxLin 1.05 (0.05 / (kbFrames d : ℚ)) 1.0 := rfl
    rw [hz]
    show max ((1.05 : ℚ) - 0.05 / (kbFrames d : ℚ) * (0 : ℕ)) 1.0 = 1.05
    norm_num
  · rfl
  · exact hpan _ rfl
  · exact hpanB _ rfl
  · exact hpan _ rfl
  · exact hpanB _ rfl
  · have hz : (getKenBurnsFilter "zoom-slow" d).z
        = .minRec (0.04 / (kbFrames d : ℚ)) 1.04 := rfl
    rw [hz, show ((1.04 - 1 : ℚ)) / (kbFrames d : ℚ)
        = 0.04 / (kbFrames d : ℚ) by norm_num]
    exact zoomRecLinear_minRec _ _ (kbFrames d) (by positivity)
      (by field_simp; norm_num)
  · have hz : (getKenBurnsFilter "zoom-in" d).z
        = .minRec (0.08 / (kbFrames d : ℚ)) 1.08 := rfl
    rw [hz, show ((1.08 - 1 : ℚ)) / (kbFrames d : ℚ)
        = 0.08 / (kbFrames d : ℚ) by norm_num]
    exact zoomRecLinear_minRec _ _ (kbFrames d) (by positivity)
      (by field_simp; norm_num)
  · have hz : (getKenBurnsFilter "zoom-out" d).z
        = .maxRec (0.1 / (kbFrames d : ℚ)) 1.0 := rfl
    rw [hz, hone, show ((1.1 - 1 : ℚ)) / (kbFrames d : ℚ)
        = 0.1 / (kbFrames d : ℚ) by norm_num]
    exact zoomOutLinear_maxRec_one _ (by positivity)
  · rfl
  · exact hpan _ rfl
  · exact hpanB _ rfl
  · exact hpan _ rfl
  · exact hpanB _ rfl

/-- C6 witness: a two-second clip has 48 frames, and the linearity theorem
applies to it. -/
theorem c6_show_animations_linear_witness :
    1 ≤ kbFrames 2 ∧
      (zoomRecLinear (getKenBurnsFilterV2 "zoom-slow" 2).z
          ((1.02 - 1) / (kbFrames 2 : ℚ)) 1.02
        ∧ zoomRecLinear (getKenBurnsFilterV2 "zoom-in" 2).z
          ((1.04 - 1) / (kbFrames 2 : ℚ)) 1.04
        ∧ zoomOutLinear (getKenBurnsFilterV2 "zoom-out" 2).z
          ((1.05 - 1) / (kbFrames 2 : ℚ)) 1
        ∧ zoomSeq (getKenBurnsFilterV2 "zoom-out" 2).z 0 = 1.05
        ∧ (getKenBurnsFilterV2 "pan-right" 2).z = .const 1.03
        ∧ panLinear (getKenBurnsFilterV2 "pan-right" 2).x (1 / (kbFrames 2 : ℚ))
        ∧ panLinear (getKenBurnsFilterV2 "pan-left" 2).x (-(1 / (kbFrames 2 : ℚ)))
        ∧ panLinear (getKenBurnsFilterV2 "pan-down" 2).y (1 / (kbFrames 2 : ℚ))
        ∧ panLinear (getKenBurnsFilterV2 "pan-up" 2).y (-(1 / (kbFrames 2 : ℚ))))
      ∧ (zoomRecLinear (getKenBurnsFilter "zoom-slow" 2).z
          ((1.04 - 1) / (kbFrames 2 : ℚ)) 1.04
        ∧ zoomRecLinear (getKenBurnsFilter "zoom-in" 2).z
          ((1.08 - 1) / (kbFrames 2 : ℚ)) 1.08
        ∧ zoomOutLinear (getKenBurnsFilter "zoom-out" 2).z
          ((1.1 - 1) / (kbFrames 2 : ℚ)) 1
        ∧ (getKenBurnsFilter "pan-right" 2).z = .const 1.05
        ∧ panLinear (getKenBurnsFilter "pan-right" 2).x (1 / (kbFrames 2 : ℚ))
        ∧ panLinear (getKenBurnsFilter "pan-left" 2).x (-(1 / (kbFrames 2 : ℚ)))
        ∧ panLinear (getKenBurnsFilter "pan-down" 2).y (1 / (kbFrames 2 : ℚ))
        ∧ panLinear (getKenBurnsFilter "pan-up" 2).y (-(1 / (kbFrames 2 : ℚ)))) :=
  ⟨by norm_num [kbFrames], c6_show_animations_linear 2 (by norm_num [kbFrames])⟩

/-! ### Video concatenation (`ffmpeg.service.ts`, `concatenateVideos`)

`concatenateVideos(videoPaths, outputPath)` writes a concat list file with
one line per clip, in order, and invokes ffmpeg with `-f concat -safe 0`
and `-c copy` (stream copy, no re-encode).  It performs no filesystem check
of its own: a missing clip surfaces only as the error of the spawned ffmpeg
process.  `resolve` abstracts Node's `path.resolve`. -/

def squote : String :=
  String.mk [Char.ofNat 39]

structure ConcatCmd where
  listLines : List String
  inputOpts : List String
  outputOpts : List String
  outPath : String
deriving DecidableEq, Repr

def concatenateVideos (resolve : String → String) (videoPaths : List String)
    (outputPath : String) : ConcatCmd :=
  { listLines := videoPaths.map (fun p => "file " ++ squote ++ resolve p ++ squote)
  , inputOpts := ["-f concat", "-safe 0"]
  , outputOpts := ["-c copy"]
  , outPath := outputPath }

/-- The service-level behaviour of `concatenateVideos` as a function of the
file system: it builds and hands off the command unconditionally — there is
no code path in the service that inspects `fs` before running ffmpeg. -/
def concatenateVideosRun (resolve : String → String) (videoPaths : List String)
    (outputPath : String) (_fs : List String) : Except String ConcatCmd :=
  .ok (concatenateVideos resolve videoPaths outputPath)

/-- Modelled from the spec: §4.4 says `concatenate(orderedClipPaths)` "fails
loudly, naming the missing index, if any clip is absent".  No such check
exists in `concatenateVideos`; this definition follows the spec's words so
the embedded code can be compared against it. -/
def concatenateSpec (resolve : String → String) (videoPaths : List String)
    (outputPath : String) (fs : List String) : Except String ConcatCmd :=
  match videoPaths.findIdx? (fun p => !(fs.contains p)) with
  | some i => .error ("missing clip at index " ++ toString i)
  | none => .ok (concatenateVideos resolve videoPaths outputPath)

/-- C7 counterexample: with the clip at index 1 absent from the file system,
`concatenateVideos` does not fail at all (the service builds the ffmpeg
command unconditionally), while the behaviour the spec describes would
reject naming index 1.  The claim's "fails loudly, naming the missing
index" is therefore false of the code. -/
theorem c7_concat_missing_clip_counterexample :
    concatenateVideosRun (fun p => p) ["a.mp4", "b.mp4"] "out.mp4" ["a.mp4"]
        = .ok (concatenateVideos (fun p => p) ["a.mp4", "b.mp4"] "out.mp4") ∧
      concatenateSpec (fun p => p) ["a.mp4", "b.mp4"] "out.mp4" ["a.mp4"]
        = .error ("missing clip at index 1") ∧
      concatenateVideosRun (fun p => p) ["a.mp4", "b.mp4"] "out.mp4" ["a.mp4"]
        ≠ concatenateSpec (fun p => p) ["a.mp4", "b.mp4"] "out.mp4" ["a.mp4"] := by
  refine ⟨rfl, rfl, ?_⟩
  intro h
  rw [show concatenateVideosRun (fun p => p) ["a.mp4", "b.mp4"] "out.mp4" ["a.mp4"]
      = .ok (concatenateVideos (fun p => p) ["a.mp4", "b.mp4"] "out.mp4") from rfl,
    show concatenateSpec (fun p => p) ["a.mp4", "b.mp4"] "out.mp4" ["a.mp4"]
      = .error ("missing clip at index 1") from rfl] at h
  exact Except.noConfusion h

/-- C7 (amended): `concatenateVideos` performs a stream-copy concatenation
(`-c copy`, no re-encode) of the clips in the given order — the generated
list file holds exactly one entry per clip, in the order given, so no scene
is ever silently skipped — but the service itself performs no existence
check: for every file-system state it hands the command to ffmpeg, so a
missing clip surfaces only as the underlying ffmpeg error, without the
service naming the missing index. -/
theorem c7_concat_streamcopy_in_order (resolve : String → String)
    (videoPaths : List String) (outputPath : String) (i : ℕ) :
    (concatenateVideos resolve videoPaths outputPath).outputOpts = ["-c copy"]
      ∧ (concatenateVideos resolve videoPaths outputPath).inputOpts
        = ["-f concat", "-safe 0"]
      ∧ (concatenateVideos resolve videoPaths outputPath).listLines.length
        = videoPaths.length
      ∧ (concatenateVideos resolve videoPaths outputPath).listLines[i]?
        = (videoPaths[i]?).map (fun p => "file " ++ squote ++ resolve p ++ squote)
      ∧ ∀ fs, concatenateVideosRun resolve videoPaths outputPath fs
        = .ok (concatenateVideos resolve videoPaths outputPath) := by
  refine ⟨rfl, rfl, ?_, ?_, fun _ => rfl⟩
  · exact List.length_map _ _
  · exact List.getElem?_map _ videoPaths i

/-! ### The global TTS FIFO queue (`tts-queue.service.ts`)

`TtsQueueService` keeps `queue : Array<{id, task, resolve, reject}>` and a
boolean `isProcessing`.  `enqueue` pushes an item and calls `processQueue`,
which returns immediately when `isProcessing` is set; otherwise it sets the
flag and loops: `shift` the head item, `await item.task()`, resolve or (in
the `catch`) reject that item's own promise, and when the queue is empty
clear the flag.

The queue is modelled as a labelled transition system over the
single-threaded JavaScript event loop: a synchronous section (from an
`enqueue` call through `processQueue` up to the first `await`) is one atomic
step, and `await` points are the step boundaries at which other tasks'
steps may interleave.  A `QTask` stands for one project's whole audio batch
(`enqueue` is called once per project): `calls` is the number of
speech-synthesis calls the unit performs, `ok` whether the unit's body
returns or throws.  The trace records, in order: enqueue events, the start
and end of each synthesis call, and each unit's settlement
(resolve/reject). -/

structure QTask where
  id : ℕ
  calls : ℕ
  ok : Bool
deriving DecidableEq, Repr

inductive QEvent where
  | enq (id : ℕ)
  | callStart (id : ℕ) (k : ℕ)
  | callEnd (id : ℕ) (k : ℕ)
  | resolved (id : ℕ)
  | rejected (id : ℕ)
deriving DecidableEq, Repr

structure QConfig where
  arrivals : List QTask
  queue : List QTask
  current : Option (QTask × ℕ × Bool)
  processing : Bool
  trace : List QEvent
  finished : List QTask
deriving DecidableEq, Repr

def settleEvent (t : QTask) : QEvent :=
  if t.ok then .resolved t.id else .rejected t.id

/-- One step of the queue system.  `arriveIdle` is the synchronous section
`enqueue` + `processQueue` when the flag is clear: push the task, set the
flag, shift the head of the queue and begin running it.  `arriveBusy` is
`enqueue` while the flag is set: `processQueue` returns at its guard.
`startCall`/`endCall` bracket one `await` of the speech provider inside the
running unit.  `finishNext`/`finishIdle` are the synchronous section from a
unit's settlement through the loop's next iteration: either shift the next
item or, with the queue empty, clear `isProcessing`. -/
inductive QStep : QConfig → QConfig → Prop where
  | arriveIdle (c : QConfig) (t : QTask) (l1 l2 : List QTask)
      (ha : c.arrivals = l1 ++ t :: l2)
      (hp : c.processing = false) (u : QTask) (q' : List QTask)
      (hq : c.queue ++ [t] = u :: q') :
      QStep c { arrivals := l1 ++ l2,
                queue := q',
                current := some (u, 0, false),
                processing := true,
                trace := c.trace ++ [.enq t.id],
                finished := c.finished }
  | arriveBusy (c : QConfig) (t : QTask) (l1 l2 : List QTask)
      (ha : c.arrivals = l1 ++ t :: l2)
      (hp : c.processing = true) :
      QStep c { c with
                arrivals := l1 ++ l2,
                queue := c.queue ++ [t],
                trace := c.trace ++ [.enq t.id] }
  | startCall (c : QConfig) (t : QTask) (k : ℕ)
      (hc : c.current = some (t, k, false)) (hk : k < t.calls) :
      QStep c { c with
                current := some (t, k, true),
                trace := c.trace ++ [.callStart t.id k] }
  | endCall (c : QConfig) (t : QTask) (k : ℕ)
      (hc : c.current = some (t, k, true)) :
      QStep c { c with
                current := some (t, k + 1, false),
                trace := c.trace ++ [.callEnd t.id k] }
  | finishNext (c : QConfig) (t : QTask)
      (hc : c.current = some (t, t.calls, false)) (u : QTask) (q' : List QTask)
      (hq : c.queue = u :: q') :
      QStep c { c with
                current := some (u, 0, false),
                queue := q',
                trace := c.trace ++ [settleEvent t],
                finished := c.finished ++ [t] }
  | finishIdle (c : QConfig) (t : QTask)
      (hc : c.current = some (t, t.calls, false)) (hq : c.queue = []) :
      QStep c { c with
                current := none,
                processing := false,
                trace := c.trace ++ [settleEvent t],
                finished := c.finished ++ [t] }

def qInit (tasks : List QTask) : QConfig :=
  { arrivals := tasks, queue := [], current := none, processing := false
  , trace := [], finished := [] }

def QReach (tasks : List QTask) (c : QConfig) : Prop :=
  Relation.ReflTransGen QStep (qInit tasks) c

/-! #### Trace bookkeeping -/

def isCallEvent : QEvent → Bool
  | .callStart _ _ => true
  | .callEnd _ _ => true
  | _ => false

def isResEvent : QEvent → Bool
  | .resolved _ => true
  | .rejected _ => true
  | _ => false

def eventId : QEvent → ℕ
  | .enq i => i
  | .callStart i _ => i
  | .callEnd i _ => i
  | .resolved i => i
  | .rejected i => i

def callEvents (tr : List QEvent) : List QEvent :=
  tr.filter isCallEvent

def resEvents (tr : List QEvent) : List QEvent :=
  tr.filter isResEvent

def enqIds (tr : List QEvent) : List ℕ :=
  tr.filterMap (fun e => match e with | .enq i => some i | _ => none)

/-- The complete call-event sequence of one unit. -/
def fullSeq (t : QTask) : List QEvent :=
  (List.range t.calls).flatMap (fun k => [.callStart t.id k, .callEnd t.id k])

/-- The call events emitted so far by the running unit. -/
def partialSeq : Option (QTask × ℕ × Bool) → List QEvent
  | none => []
  | some (t, k, b) =>
    (List.range k).flatMap (fun j => [.callStart t.id j, .callEnd t.id j]) ++
      (if b then [.callStart t.id k] else [])

def currentList : Option (QTask × ℕ × Bool) → List QTask
  | none => []
  | some (t, _, _) => [t]

/-- Scan a trace keeping the currently open synthesis call; `none` as the
outer option means an overlap or mismatched bracketing was found. -/
def scanSt : Option (ℕ × ℕ) → List QEvent → Option (Option (ℕ × ℕ))
  | st, [] => some st
  | st, e :: tl =>
    match e, st with
    | .callStart i k, none => scanSt (some (i, k)) tl
    | .callStart _ _, some _ => none
    | .callEnd i k, some (j, m) =>
      if i = j ∧ k = m then scanSt none tl else none
    | .callEnd _ _, none => none
    | .enq _, st => scanSt st tl
    | .resolved _, st => scanSt st tl
    | .rejected _, st => scanSt st tl

/-- The trace's synthesis calls are properly bracketed and never overlap:
each `callStart` is closed by its own `callEnd` before any other
`callStart` occurs. -/
def serializedQ (tr : List QEvent) : Bool :=
  (scanSt none tr).isSome

def openInfo : Option (QTask × ℕ × Bool) → Option (ℕ × ℕ)
  | some (t, k, true) => some (t.id, k)
  | _ => none

/-- Reachability invariant of the queue system. -/
structure QInv (tasks : List QTask) (c : QConfig) : Prop where
  procIff : c.processing = c.current.isSome
  queueIdle : c.current = none → c.queue = []
  enqOrder : enqIds c.trace
    = (c.finished ++ currentList c.current ++ c.queue).map QTask.id
  callStruct : callEvents c.trace
    = c.finished.flatMap fullSeq ++ partialSeq c.current
  resStruct : resEvents c.trace = c.finished.map settleEvent
  scanOk : scanSt none c.trace = some (openInfo c.current)
  tasksSub : ∀ t ∈ c.arrivals ++ c.queue ++ currentList c.current ++ c.finished,
    t ∈ tasks
  idsNodup : ((c.arrivals ++ c.queue ++ currentList c.current ++ c.finished).map
    QTask.id).Nodup
  currentBound : ∀ t k b, c.current = some (t, k, b) →
    k ≤ t.calls ∧ (b = true → k < t.calls)

theorem enqIds_append (a b : List QEvent) :
    enqIds (a ++ b) = enqIds a ++ enqIds b :=
  List.filterMap_append _ _ _

theorem callEvents_append (a b : List QEvent) :
    callEvents (a ++ b) = callEvents a ++ callEvents b :=
  List.filter_append _ _

theorem resEvents_append (a b : List QEvent) :
    resEvents (a ++ b) = resEvents a ++ resEvents b :=
  List.filter_append _ _

theorem scanSt_append (st : Option (ℕ × ℕ)) (t1 t2 : List QEvent) :
    scanSt st (t1 ++ t2) = (scanSt st t1).bind (fun s2 => scanSt s2 t2) := by
  induction t1 generalizing st with
  | nil => simp [scanSt]
  | cons e tl ih =>
    cases e with
    | enq i => simp [scanSt, ih]
    | resolved i => simp [scanSt, ih]
    | rejected i => simp [scanSt, ih]
    | callStart i k =>
      cases st with
      | none => simp [scanSt, ih]
      | some p => simp [scanSt]
    | callEnd i k =>
      cases st with
      | none => simp [scanSt]
      | some p =>
        obtain ⟨j, m⟩ := p
        by_cases h : i = j ∧ k = m
        · simp [scanSt, h, ih]
        · simp [scanSt, h]

theorem pairSeq_succ (i k : ℕ) :
    (List.range (k + 1)).flatMap
        (fun j => [QEvent.callStart i j, QEvent.callEnd i j])
      = (List.range k).flatMap
          (fun j => [QEvent.callStart i j, QEvent.callEnd i j])
        ++ [QEvent.callStart i k, QEvent.callEnd i k] := by
  rw [List.range_succ, List.flatMap_append]
  simp

theorem partialSeq_done (t : QTask) :
    partialSeq (some (t, t.calls, false)) = fullSeq t := by
  simp [partialSeq, fullSeq]

/-- Every step preserves the queue invariant. -/
theorem qstep_inv {tasks : List QTask} {c c' : QConfig}
    (hstep : QStep c c') (hinv : QInv tasks c) : QInv tasks c' := by
  obtain ⟨procIff, queueIdle, enqOrder, callStruct, resStruct, scanOk,
    tasksSub, idsNodup, currentBound⟩ := hinv
  cases hstep with
  | arriveIdle t l1 l2 ha hp u q' hq =>
    have hcur : c.current = none := by
      cases hcc : c.current with
      | none => rfl
      | some x =>
        rw [hcc] at procIff
        rw [procIff] at hp
        simp at hp
    have hqe : c.queue = [] := queueIdle hcur
    rw [hqe, List.nil_append] at hq
    injection hq with h1 h2
    subst h1
    subst h2
    refine ⟨rfl, ?_, ?_, ?_, ?_, ?_, ?_, ?_, ?_⟩
    · intro h
      simp at h
    · show enqIds (c.trace ++ [QEvent.enq t.id]) = _
      rw [enqIds_append, enqOrder, hcur, hqe]
      simp [enqIds, currentList, List.filterMap]
    · show callEvents (c.trace ++ [QEvent.enq t.id]) = _
      rw [callEvents_append, callStruct, hcur]
      simp [callEvents, partialSeq, List.filter, isCallEvent]
    · show resEvents (c.trace ++ [QEvent.enq t.id]) = _
      rw [resEvents_append, resStruct]
      simp [resEvents, List.filter, isResEvent]
    · show scanSt none (c.trace ++ [QEvent.enq t.id]) = _
      rw [scanSt_append, scanOk, hcur]
      simp [scanSt, openInfo]
    · intro x hx
      apply tasksSub
      rw [ha, hcur, hqe]
      simp only [List.mem_append, List.mem_cons, currentList] at hx ⊢
      simp only [List.not_mem_nil, List.mem_singleton] at hx ⊢
      tauto
    · rw [ha, hcur, hqe] at idsNodup
      have hperm : List.Perm ((l1 ++ l2) ++ [] ++ [t] ++ c.finished)
          ((l1 ++ t :: l2) ++ [] ++ currentList none ++ c.finished) := by
        simp only [List.append_nil, currentList, List.cons_append,
          List.nil_append, List.append_assoc, List.singleton_append]
        exact List.Perm.append_left l1 List.perm_middle
      exact ((hperm.map QTask.id).nodup_iff).mpr idsNodup
    · intro t' k b h
      simp only [Option.some.injEq, Prod.mk.injEq] at h
      obtain ⟨h1, h2, h3⟩ := h
      subst h1
      subst h2
      refine ⟨Nat.zero_le _, ?_⟩
      intro hb
      rw [hb] at h3
      simp at h3
  | arriveBusy t l1 l2 ha hp =>
    have hcur : ∃ x, c.current = some x := by
      cases hcc : c.current with
      | none =>
        rw [hcc] at procIff
        rw [procIff] at hp
        simp at hp
      | some x => exact ⟨x, rfl⟩
    refine ⟨?_, ?_, ?_, ?_, ?_, ?_, ?_, ?_, ?_⟩
    · exact procIff
    · intro h
      obtain ⟨x, hx⟩ := hcur
      rw [hx] at h
      simp at h
    · show enqIds (c.trace ++ [QEvent.enq t.id]) = _
      rw [enqIds_append, enqOrder]
      simp [enqIds, List.filterMap, List.append_assoc]
    · show callEvents (c.trace ++ [QEvent.enq t.id]) = _
      rw [callEvents_append, callStruct]
      simp [callEvents, List.filter, isCallEvent]
    · show resEvents (c.trace ++ [QEvent.enq t.id]) = _
      rw [resEvents_append, resStruct]
      simp [resEvents, List.filter, isResEvent]
    · show scanSt none (c.trace ++ [QEvent.enq t.id]) = _
      rw [scanSt_append, scanOk]
      simp [scanSt]
    · intro x hx
      apply tasksSub
      rw [ha]
      simp only [List.mem_append, List.mem_cons] at hx ⊢
      tauto
    · rw [ha] at idsNodup
      have hperm : List.Perm
          ((l1 ++ l2) ++ (c.queue ++ [t]) ++ currentList c.current
            ++ c.finished)
          ((l1 ++ t :: l2) ++ c.queue ++ currentList c.current
            ++ c.finished) := by
        have h1 : List.Perm ((l1 ++ l2) ++ (c.queue ++ [t]))
            (t :: ((l1 ++ l2) ++ c.queue)) := by
          have he : (l1 ++ l2) ++ (c.queue ++ [t])
              = ((l1 ++ l2) ++ c.queue) ++ t :: [] := by
            simp [List.append_assoc]
          rw [he]
          exact List.perm_middle.trans (by simp)
        have h2 : List.Perm ((l1 ++ t :: l2) ++ c.queue)
            (t :: ((l1 ++ l2) ++ c.queue)) := by
          have he : (l1 ++ t :: l2) ++ c.queue = l1 ++ t :: (l2 ++ c.queue) := by
            simp
          rw [he]
          refine List.perm_middle.trans ?_
          rw [List.append_assoc]
        exact ((h1.trans h2.symm).append_right _).append_right _
      exact ((hperm.map QTask.id).nodup_iff).mpr idsNodup
    · exact currentBound
  | startCall t k hc hk =>
    refine ⟨?_, ?_, ?_, ?_, ?_, ?_, ?_, ?_, ?_⟩
    · rw [procIff, hc]
      rfl
    · intro h
      simp at h
    · show enqIds (c.trace ++ [QEvent.callStart t.id k]) = _
      rw [enqIds_append, enqOrder, hc]
      simp [enqIds, currentList, List.filterMap]
    · show callEvents (c.trace ++ [QEvent.callStart t.id k]) = _
      rw [callEvents_append, callStruct, hc]
      simp [callEvents, partialSeq, List.filter, isCallEvent]
    · show resEvents (c.trace ++ [QEvent.callStart t.id k]) = _
      rw [resEvents_append, resStruct]
      simp [resEvents, List.filter, isResEvent]
    · show scanSt none (c.trace ++ [QEvent.callStart t.id k]) = _
      rw [scanSt_append, scanOk, hc]
      simp [scanSt, openInfo]
    · intro x hx
      apply tasksSub
      rw [hc]
      simpa [currentList] using hx
    · rw [hc] at idsNodup
      simpa [currentList] using idsNodup
    · intro t' k' b h
      simp only [Option.some.injEq, Prod.mk.injEq] at h
      obtain ⟨h1, h2, h3⟩ := h
      subst h1
      subst h2
      exact ⟨hk.le, fun _ => hk⟩
  | endCall t k hc =>
    have hk : k < t.calls := (currentBound t k true hc).2 rfl
    refine ⟨?_, ?_, ?_, ?_, ?_, ?_, ?_, ?_, ?_⟩
    · rw [procIff, hc]
      rfl
    · intro h
      simp at h
    · show enqIds (c.trace ++ [QEvent.callEnd t.id k]) = _
      rw [enqIds_append, enqOrder, hc]
      simp [enqIds, currentList, List.filterMap]
    · show callEvents (c.trace ++ [QEvent.callEnd t.id k]) = _
      rw [callEvents_append, callStruct, hc]
      simp only [partialSeq, if_pos rfl, if_true]
      rw [pairSeq_succ]
      simp [callEvents, List.filter, isCallEvent, List.append_assoc]
    · show resEvents (c.trace ++ [QEvent.callEnd t.id k]) = _
      rw [resEvents_append, resStruct]
      simp [resEvents, List.filter, isResEvent]
    · show scanSt none (c.trace ++ [QEvent.callEnd t.id k]) = _
      rw [scanSt_append, scanOk, hc]
      simp [scanSt, openInfo]
    · intro x hx
      apply tasksSub
      rw [hc]
      simpa [currentList] using hx
    · rw [hc] at idsNodup
      simpa [currentList] using idsNodup
    · intro t' k' b h
      simp only [Option.some.injEq, Prod.mk.injEq] at h
      obtain ⟨h1, h2, h3⟩ := h
      subst h1
      subst h2
      exact ⟨hk, fun hb => by rw [hb] at h3; simp at h3⟩
  | finishNext t hc u q' hq =>
    refine ⟨?_, ?_, ?_, ?_, ?_, ?_, ?_, ?_, ?_⟩
    · rw [procIff, hc]
      rfl
    · intro h
      simp at h
    · show enqIds (c.trace ++ [settleEvent t]) = _
      rw [enqIds_append, enqOrder, hc, hq]
      simp [enqIds, currentList, settleEvent, List.filterMap]
      by_cases ht : t.ok <;> simp [ht, enqIds, List.filterMap]
    · show callEvents (c.trace ++ [settleEvent t]) = _
      rw [callEvents_append, callStruct, hc, partialSeq_done]
      have hce : callEvents [settleEvent t] = [] := by
        by_cases ht : t.ok <;> simp [ht, settleEvent, callEvents, List.filter,
          isCallEvent]
      rw [hce]
      simp [partialSeq, List.flatMap_append, fullSeq, List.append_assoc]
    · show resEvents (c.trace ++ [settleEvent t]) = _
      rw [resEvents_append, resStruct]
      have hre : resEvents [settleEvent t] = [settleEvent t] := by
        by_cases ht : t.ok <;> simp [ht, settleEvent, resEvents, List.filter,
          isResEvent]
      rw [hre]
      simp
    · show scanSt none (c.trace ++ [settleEvent t]) = _
      rw [scanSt_append, scanOk, hc]
      by_cases ht : t.ok <;> simp [ht, settleEvent, scanSt, openInfo]
    · intro x hx
      apply tasksSub
      rw [hc, hq]
      simp only [List.mem_append, List.mem_cons, currentList,
        List.mem_singleton, List.not_mem_nil] at hx ⊢
      tauto
    · rw [hc, hq] at idsNodup
      have hperm : List.Perm
          (c.arrivals ++ q' ++ currentList (some (u, 0, false))
            ++ (c.finished ++ [t]))
          (c.arrivals ++ (u :: q') ++ currentList (some (t, t.calls, false))
            ++ c.finished) := by
        simp only [currentList, List.append_assoc]
        refine List.Perm.append_left _ ?_
        have h1 : List.Perm (q' ++ ([u] ++ (c.finished ++ [t])))
            (u :: (q' ++ (c.finished ++ [t]))) := by
          have he : q' ++ ([u] ++ (c.finished ++ [t]))
              = q' ++ u :: (c.finished ++ [t]) := by simp
          rw [he]
          exact List.perm_middle
        have h2 : List.Perm (q' ++ (c.finished ++ [t]))
            (q' ++ (t :: c.finished)) := by
          refine List.Perm.append_left _ ?_
          have he : c.finished ++ [t] = c.finished ++ t :: [] := rfl
          rw [he]
          exact List.perm_middle.trans (by simp)
        have h3 : List.Perm (q' ++ (t :: c.finished))
            (t :: (q' ++ c.finished)) :=
          List.perm_middle
        have h4 : List.Perm (t :: (q' ++ c.finished))
            (q' ++ ([t] ++ c.finished)) := by
          have he : q' ++ ([t] ++ c.finished) = q' ++ t :: c.finished := by simp
          rw [he]
          exact List.perm_middle.symm
        exact h1.trans (List.Perm.cons u (((h2.trans h3)).trans h4))
      exact ((hperm.map QTask.id).nodup_iff).mpr idsNodup
    · intro t' k' b h
      simp only [Option.some.injEq, Prod.mk.injEq] at h
      obtain ⟨h1, h2, h3⟩ := h
      subst h1
      subst h2
      refine ⟨Nat.zero_le _, ?_⟩
      intro hb
      rw [hb] at h3
      simp at h3
  | finishIdle t hc hq =>
    refine ⟨?_, ?_, ?_, ?_, ?_, ?_, ?_, ?_, ?_⟩
    · rfl
    · intro _
      exact hq
    · show enqIds (c.trace ++ [settleEvent t]) = _
      rw [enqIds_append, enqOrder, hc, hq]
      have : enqIds [settleEvent t] = [] := by
        by_cases ht : t.ok <;> simp [ht, settleEvent, enqIds, List.filterMap]
      rw [this]
      simp [currentList]
    · show callEvents (c.trace ++ [settleEvent t]) = _
      rw [callEvents_append, callStruct, hc, partialSeq_done]
      have hce : callEvents [settleEvent t] = [] := by
        by_cases ht : t.ok <;> simp [ht, settleEvent, callEvents, List.filter,
          isCallEvent]
      rw [hce]
      simp [partialSeq, fullSeq, List.flatMap_append, List.append_assoc]
    · show resEvents (c.trace ++ [settleEvent t]) = _
      rw [resEvents_append, resStruct]
      have hre : resEvents [settleEvent t] = [settleEvent t] := by
        by_cases ht : t.ok <;> simp [ht, settleEvent, resEvents, List.filter,
          isResEvent]
      rw [hre]
      simp
    · show scanSt none (c.trace ++ [settleEvent t]) = _
      rw [scanSt_append, scanOk, hc]
      by_cases ht : t.ok <;> simp [ht, settleEvent, scanSt, openInfo]
    · intro x hx
      apply tasksSub
      simp only [hc, hq, List.mem_append, currentList, List.mem_singleton,
        List.not_mem_nil] at hx ⊢
      tauto
    · rw [hc, hq] at idsNodup
      have hperm : List.Perm
          (c.arrivals ++ c.queue ++ currentList none ++ (c.finished ++ [t]))
          (c.arrivals ++ [] ++ currentList (some (t, t.calls, false))
            ++ c.finished) := by
        simp only [hq, currentList, List.append_nil, List.append_assoc,
          List.nil_append]
        refine List.Perm.append_left _ ?_
        have : c.finished ++ [t] = c.finished ++ t :: [] := rfl
        rw [this]
        refine List.perm_middle.trans ?_
        simp
      exact ((hperm.map QTask.id).nodup_iff).mpr idsNodup
    · intro t' k' b h
      simp at h

theorem qinit_inv (tasks : List QTask) (hids : (tasks.map QTask.id).Nodup) :
    QInv tasks (qInit tasks) := by
  refine ⟨rfl, fun _ => rfl, rfl, rfl, rfl, rfl, ?_, ?_, ?_⟩
  · intro t ht
    simpa [qInit, currentList] using ht
  · simpa [qInit, currentList] using hids
  · intro t k b h
    simp [qInit] at h

theorem qreach_inv (tasks : List QTask) (hids : (tasks.map QTask.id).Nodup)
    {c : QConfig} (h : QReach tasks c) : QInv tasks c := by
  induction h with
  | refl => exact qinit_inv tasks hids
  | tail _ hstep ih => exact qstep_inv hstep ih

theorem enqIds_cons_enq (i : ℕ) (tr : List QEvent) :
    enqIds (QEvent.enq i :: tr) = i :: enqIds tr := by
  simp [enqIds, List.filterMap_cons]

theorem callEvents_cons_callStart (i k : ℕ) (tr : List QEvent) :
    callEvents (QEvent.callStart i k :: tr)
      = QEvent.callStart i k :: callEvents tr := by
  simp [callEvents, List.filter_cons, isCallEvent]

theorem eventId_of_mem_fullSeq {e : QEvent} {t : QTask} (h : e ∈ fullSeq t) :
    eventId e = t.id := by
  simp only [fullSeq, List.mem_flatMap, List.mem_range] at h
  obtain ⟨j, _, he⟩ := h
  simp only [List.mem_cons, List.mem_singleton, List.not_mem_nil] at he
  rcases he with rfl | he
  · rfl
  · rcases he with rfl | he
    · rfl
    · exact absurd he (by simp)

theorem callStart_mem_fullSeq (t : QTask) (j : ℕ) (hj : j < t.calls) :
    QEvent.callStart t.id j ∈ fullSeq t := by
  simp only [fullSeq, List.mem_flatMap, List.mem_range]
  exact ⟨j, hj, by simp⟩

theorem callEnd_mem_fullSeq (t : QTask) (j : ℕ) (hj : j < t.calls) :
    QEvent.callEnd t.id j ∈ fullSeq t := by
  simp only [fullSeq, List.mem_flatMap, List.mem_range]
  exact ⟨j, hj, by simp⟩

theorem eventId_of_mem_partialSeq {e : QEvent}
    {cur : Option (QTask × ℕ × Bool)} (h : e ∈ partialSeq cur) :
    ∃ t k b, cur = some (t, k, b) ∧ eventId e = t.id := by
  cases cur with
  | none => simp [partialSeq] at h
  | some x =>
    obtain ⟨t, k, b⟩ := x
    refine ⟨t, k, b, rfl, ?_⟩
    simp only [partialSeq, List.mem_append, List.mem_flatMap,
      List.mem_range] at h
    rcases h with ⟨j, _, he⟩ | he
    · simp only [List.mem_cons, List.mem_singleton, List.not_mem_nil] at he
      rcases he with rfl | he
      · rfl
      · rcases he with rfl | he
        · rfl
        · exact absurd he (by simp)
    · rcases hb : b with _ | _
      · rw [hb] at he
        simp at he
      · rw [hb] at he
        simp only [if_true] at he
        have : e = QEvent.callStart t.id k := by simpa using he
        rw [this]
        rfl

/-- Ordering extraction: if `L = P ++ Q` with `L` duplicate-free, `a` occurs
strictly before `b` in `L`, and `b ∈ P`, then `a ∈ P`. -/
theorem mem_left_of_before {α : Type} (L P Q : List α) (a b : α)
    (hL : L = P ++ Q) (hnd : L.Nodup)
    (hbefore : ∃ X Y Z, L = X ++ a :: (Y ++ b :: Z)) (hbP : b ∈ P) :
    a ∈ P := by
  obtain ⟨X, Y, Z, hXYZ⟩ := hbefore
  have h : P ++ Q = X ++ (a :: (Y ++ b :: Z)) := by rw [← hL, hXYZ]
  rcases List.append_eq_append_iff.mp h with ⟨w, hX, hQ⟩ | ⟨w, hP, hR⟩
  · exfalso
    have hndX : (X ++ (a :: (Y ++ b :: Z))).Nodup := by rw [← hXYZ] at *; exact hnd
    have hdisj := (List.nodup_append.mp hndX).2.2
    have hbX : b ∈ X := by
      rw [hX]
      exact List.mem_append.mpr (Or.inl hbP)
    exact hdisj hbX (by simp)
  · cases w with
    | nil =>
      exfalso
      simp only [List.append_nil] at hP
      have hndX : (X ++ (a :: (Y ++ b :: Z))).Nodup := by rw [← hXYZ] at *; exact hnd
      have hdisj := (List.nodup_append.mp hndX).2.2
      have hbX : b ∈ X := by rw [← hP]; exact hbP
      exact hdisj hbX (by simp)
    | cons c w2 =>
      have hc : c = a := by
        have := hR
        simp only [List.cons_append] at this
        exact ((List.cons.injEq a (Y ++ b :: Z) c (w2 ++ Q)).mp this).1.symm
      subst hc
      rw [hP]
      exact List.mem_append.mpr (Or.inr (by simp))

/-- Prefix extraction: if `PP ++ SS = u ++ e :: v` and `e ∉ PP`, then all of
`PP` lies inside `u`. -/
theorem mem_prefix_of_split {α : Type} (PP SS u v : List α) (e : α)
    (h : PP ++ SS = u ++ e :: v) (he : e ∉ PP) :
    ∀ x ∈ PP, x ∈ u := by
  rcases List.append_eq_append_iff.mp h with ⟨w, hu, _⟩ | ⟨w, hP, hR⟩
  · intro x hx
    rw [hu]
    exact List.mem_append.mpr (Or.inl hx)
  · cases w with
    | nil =>
      intro x hx
      simp only [List.append_nil] at hP
      rw [← hP]
      exact hx
    | cons c w2 =>
      exfalso
      have hc : c = e := by
        simp only [List.cons_append] at hR
        exact ((List.cons.injEq e v c (w2 ++ SS)).mp hR).1.symm
      subst hc
      exact he (by rw [hP]; exact List.mem_append.mpr (Or.inr (by simp)))

theorem task_eq_of_id (tasks : List QTask)
    (hids : (tasks.map QTask.id).Nodup) {a b : QTask}
    (ha : a ∈ tasks) (hb : b ∈ tasks) (hid : a.id = b.id) : a = b :=
  List.inj_on_of_nodup_map hids ha hb hid

theorem qinv_enq_nodup {tasks : List QTask} {c : QConfig} (hinv : QInv tasks c) :
    ((c.finished ++ currentList c.current ++ c.queue).map QTask.id).Nodup := by
  have h := hinv.idsNodup
  have hsub : ((c.queue ++ currentList c.current ++ c.finished).map
      QTask.id).Nodup := by
    have hsplit : c.arrivals ++ c.queue ++ currentList c.current ++ c.finished
        = c.arrivals ++ (c.queue ++ currentList c.current ++ c.finished) := by
      simp [List.append_assoc]
    rw [hsplit, List.map_append] at h
    exact (List.nodup_append.mp h).2.1
  have hperm : List.Perm (c.queue ++ currentList c.current ++ c.finished)
      (c.finished ++ currentList c.current ++ c.queue) := by
    refine List.Perm.trans List.perm_append_comm ?_
    rw [List.append_assoc]
    exact List.Perm.append_left _ List.perm_append_comm
  exact ((hperm.map QTask.id).nodup_iff).mp hsub

/-- C3: every reachable trace of the global TTS queue is serialized.  The
`serializedQ` conjunct states that the queue executes at most one synthesis
call at a time (no two `callStart`/`callEnd` spans ever overlap), and the
main conjunct states the FIFO guarantee: if unit `A` was enqueued before
unit `B` (and `A`'s batch is the task `tA`), then at any point of the trace
at which any synthesis call of `B`'s unit begins, every one of `tA`'s
synthesis calls has already both started and completed.  In particular two
concurrently enqueued projects' speech-synthesis calls never overlap in
time. -/
theorem c3_global_audio_serialization
    (tasks : List QTask) (hids : (tasks.map QTask.id).Nodup)
    (c : QConfig) (hreach : QReach tasks c)
    (A B : ℕ) (hAB : A ≠ B) (tA : QTask) (htA : tA ∈ tasks) (hidA : tA.id = A)
    (henq : ∃ p1 p2 p3,
      c.trace = p1 ++ QEvent.enq A :: (p2 ++ QEvent.enq B :: p3))
    (u : List QEvent) (k : ℕ) (v : List QEvent)
    (hsplit : c.trace = u ++ QEvent.callStart B k :: v) :
    serializedQ c.trace = true ∧
      ∀ j < tA.calls, QEvent.callStart A j ∈ u ∧ QEvent.callEnd A j ∈ u := by
  have hinv := qreach_inv tasks hids hreach
  have hser : serializedQ c.trace = true := by
    unfold serializedQ
    rw [hinv.scanOk]
    rfl
  refine ⟨hser, ?_⟩
  obtain ⟨p1, p2, p3, htr⟩ := henq
  have hE : ∃ X Y Z, enqIds c.trace = X ++ A :: (Y ++ B :: Z) := by
    refine ⟨enqIds p1, enqIds p2, enqIds p3, ?_⟩
    rw [htr, enqIds_append, enqIds_cons_enq, enqIds_append, enqIds_cons_enq]
  have hLnd : (enqIds c.trace).Nodup := by
    rw [hinv.enqOrder]
    exact qinv_enq_nodup hinv
  have hBmem : QEvent.callStart B k ∈ callEvents c.trace := by
    rw [hsplit, callEvents_append, callEvents_cons_callStart]
    simp
  rw [hinv.callStruct] at hBmem
  have hcanon : callEvents u ++ QEvent.callStart B k :: callEvents v
      = c.finished.flatMap fullSeq ++ partialSeq c.current := by
    rw [← hinv.callStruct, hsplit, callEvents_append, callEvents_cons_callStart]
  rcases List.mem_append.mp hBmem with hBfin | hBpart
  · obtain ⟨tB, htBfin, htBseq⟩ := List.mem_flatMap.mp hBfin
    have hBid : tB.id = B := by
      have h1 := eventId_of_mem_fullSeq htBseq
      simp only [eventId] at h1
      exact h1.symm
    obtain ⟨f1, f2, hfin⟩ := List.append_of_mem htBfin
    have hL : enqIds c.trace = (f1.map QTask.id ++ [B])
        ++ (f2.map QTask.id ++ (currentList c.current).map QTask.id
          ++ c.queue.map QTask.id) := by
      rw [hinv.enqOrder, hfin]
      simp [hBid, List.append_assoc]
    have hAP : A ∈ f1.map QTask.id ++ [B] :=
      mem_left_of_before (enqIds c.trace) _ _ A B hL hLnd hE (by simp)
    have hAf1 : A ∈ f1.map QTask.id := by
      rcases List.mem_append.mp hAP with h | h
      · exact h
      · exact absurd (by simpa using h) hAB
    obtain ⟨tA', htA'f1, htA'id⟩ := List.mem_map.mp hAf1
    have htA'tasks : tA' ∈ tasks := by
      apply hinv.tasksSub
      have hmemf : tA' ∈ c.finished := by
        rw [hfin]
        simp [htA'f1]
      simp [List.mem_append, hmemf]
    have htAeq : tA' = tA :=
      task_eq_of_id tasks hids htA'tasks htA (by rw [htA'id, hidA])
    have hPPeq : c.finished.flatMap fullSeq ++ partialSeq c.current
        = f1.flatMap fullSeq
          ++ (fullSeq tB ++ (f2.flatMap fullSeq ++ partialSeq c.current)) := by
      rw [hfin]
      simp [List.flatMap_append, List.append_assoc]
    have hfnd : (c.finished.map QTask.id).Nodup := by
      have h2 := qinv_enq_nodup hinv
      rw [List.map_append, List.map_append] at h2
      exact (List.nodup_append.mp (List.nodup_append.mp h2).1).1
    have hnotin : QEvent.callStart B k ∉ f1.flatMap fullSeq := by
      intro hmem
      obtain ⟨t', ht'f1, ht'seq⟩ := List.mem_flatMap.mp hmem
      have ht'id : t'.id = B := by
        have h1 := eventId_of_mem_fullSeq ht'seq
        simp only [eventId] at h1
        exact h1.symm
      rw [hfin, List.map_append, List.map_cons] at hfnd
      have hdisj := (List.nodup_append.mp hfnd).2.2
      exact hdisj (List.mem_map.mpr ⟨t', ht'f1, ht'id⟩) (by simp [hBid])
    have hPPsub := mem_prefix_of_split (f1.flatMap fullSeq)
      (fullSeq tB ++ (f2.flatMap fullSeq ++ partialSeq c.current))
      (callEvents u) (callEvents v) (QEvent.callStart B k)
      (by rw [← hPPeq, ← hcanon]) hnotin
    intro j hj
    have hjA : j < tA'.calls := by rw [htAeq]; exact hj
    constructor
    · have hm : QEvent.callStart A j ∈ f1.flatMap fullSeq := by
        refine List.mem_flatMap.mpr ⟨tA', htA'f1, ?_⟩
        rw [← htA'id]
        exact callStart_mem_fullSeq tA' j hjA
      exact (List.mem_filter.mp (hPPsub _ hm)).1
    · have hm : QEvent.callEnd A j ∈ f1.flatMap fullSeq := by
        refine List.mem_flatMap.mpr ⟨tA', htA'f1, ?_⟩
        rw [← htA'id]
        exact callEnd_mem_fullSeq tA' j hjA
      exact (List.mem_filter.mp (hPPsub _ hm)).1
  · obtain ⟨tB, k', b, hcur, hBid'⟩ := eventId_of_mem_partialSeq hBpart
    have hBid : tB.id = B := by
      simp only [eventId] at hBid'
      exact hBid'.symm
    have hL : enqIds c.trace = (c.finished.map QTask.id ++ [B])
        ++ c.queue.map QTask.id := by
      rw [hinv.enqOrder, hcur]
      simp [currentList, hBid, List.append_assoc]
    have hAP : A ∈ c.finished.map QTask.id ++ [B] :=
      mem_left_of_before (enqIds c.trace) _ _ A B hL hLnd hE (by simp)
    have hAfin : A ∈ c.finished.map QTask.id := by
      rcases List.mem_append.mp hAP with h | h
      · exact h
      · exact absurd (by simpa using h) hAB
    obtain ⟨tA', htA'fin, htA'id⟩ := List.mem_map.mp hAfin
    have htA'tasks : tA' ∈ tasks := by
      apply hinv.tasksSub
      simp [List.mem_append, htA'fin]
    have htAeq : tA' = tA :=
      task_eq_of_id tasks hids htA'tasks htA (by rw [htA'id, hidA])
    have hnotin : QEvent.callStart B k ∉ c.finished.flatMap fullSeq := by
      intro hmem
      obtain ⟨t', ht'fin, ht'seq⟩ := List.mem_flatMap.mp hmem
      have ht'id : t'.id = B := by
        have h1 := eventId_of_mem_fullSeq ht'seq
        simp only [eventId] at h1
        exact h1.symm
      have h2 := qinv_enq_nodup hinv
      rw [hcur, List.map_append, List.map_append] at h2
      have hdisj := (List.nodup_append.mp (List.nodup_append.mp h2).1).2.2
      exact hdisj (List.mem_map.mpr ⟨t', ht'fin, ht'id⟩)
        (by simp [currentList, hBid])
    have hPPsub := mem_prefix_of_split (c.finished.flatMap fullSeq)
      (partialSeq c.current) (callEvents u) (callEvents v)
      (QEvent.callStart B k) (by rw [← hcanon]) hnotin
    intro j hj
    have hjA : j < tA'.calls := by rw [htAeq]; exact hj
    constructor
    · have hm : QEvent.callStart A j ∈ c.finished.flatMap fullSeq := by
        refine List.mem_flatMap.mpr ⟨tA', htA'fin, ?_⟩
        rw [← htA'id]
        exact callStart_mem_fullSeq tA' j hjA
      exact (List.mem_filter.mp (hPPsub _ hm)).1
    · have hm : QEvent.callEnd A j ∈ c.finished.flatMap fullSeq := by
        refine List.mem_flatMap.mpr ⟨tA', htA'fin, ?_⟩
        rw [← htA'id]
        exact callEnd_mem_fullSeq tA' j hjA
      exact (List.mem_filter.mp (hPPsub _ hm)).1

/-- A concrete two-project run: both audio batches (one synthesis call each)
are enqueued while the first is still running. -/
def tasksDemo : List QTask := [⟨0, 1, true⟩, ⟨1, 1, true⟩]

/-- The final configuration of the demo run: both units processed in FIFO
order, queue drained back to idle. -/
def qcDemo : QConfig :=
  { arrivals := [], queue := [], current := none, processing := false,
    trace := [.enq 0, .enq 1, .callStart 0 0, .callEnd 0 0, .resolved 0,
      .callStart 1 0, .callEnd 1 0, .resolved 1],
    finished := [⟨0, 1, true⟩, ⟨1, 1, true⟩] }

theorem qreach_demo : QReach tasksDemo qcDemo := by
  refine Relation.ReflTransGen.head
      (QStep.arriveIdle (qInit tasksDemo) ⟨0, 1, true⟩ [] [⟨1, 1, true⟩]
        rfl rfl ⟨0, 1, true⟩ [] rfl) ?_
  refine Relation.ReflTransGen.head
      (QStep.arriveBusy _ ⟨1, 1, true⟩ [] [] rfl rfl) ?_
  refine Relation.ReflTransGen.head
      (QStep.startCall _ ⟨0, 1, true⟩ 0 rfl (by decide)) ?_
  refine Relation.ReflTransGen.head (QStep.endCall _ ⟨0, 1, true⟩ 0 rfl) ?_
  refine Relation.ReflTransGen.head
      (QStep.finishNext _ ⟨0, 1, true⟩ rfl ⟨1, 1, true⟩ [] rfl) ?_
  refine Relation.ReflTransGen.head
      (QStep.startCall _ ⟨1, 1, true⟩ 0 rfl (by decide)) ?_
  refine Relation.ReflTransGen.head (QStep.endCall _ ⟨1, 1, true⟩ 0 rfl) ?_
  exact Relation.ReflTransGen.head
      (QStep.finishIdle _ ⟨1, 1, true⟩ rfl rfl) Relation.ReflTransGen.refl

theorem c3_global_audio_serialization_witness :
    serializedQ qcDemo.trace = true ∧
      ∀ j < (⟨0, 1, true⟩ : QTask).calls,
        QEvent.callStart 0 j ∈
            ([.enq 0, .enq 1, .callStart 0 0, .callEnd 0 0, .resolved 0] :
              List QEvent) ∧
          QEvent.callEnd 0 j ∈
            ([.enq 0, .enq 1, .callStart 0 0, .callEnd 0 0, .resolved 0] :
              List QEvent) :=
  c3_global_audio_serialization tasksDemo (by decide) qcDemo qreach_demo
    0 1 (by decide) ⟨0, 1, true⟩ (by decide) rfl
    ⟨[], [], [.callStart 0 0, .callEnd 0 0, .resolved 0, .callStart 1 0,
      .callEnd 1 0, .resolved 1], rfl⟩
    [.enq 0, .enq 1, .callStart 0 0, .callEnd 0 0, .resolved 0] 0
    [.callEnd 1 0, .resolved 1] rfl

/-! #### Draining the queue

`processQueue`'s loop keeps shifting items regardless of whether the
previous item's body threw (the `catch` only rejects that item's promise),
so from any reachable configuration the queue can always run to the idle
state, finishing the current unit and every queued unit in FIFO order.  The
termination measure counts the synchronous/await steps remaining. -/

def curCost : Option (QTask × ℕ × Bool) → ℕ
  | none => 0
  | some (t, k, b) => 2 * (t.calls - k) + (if b then 0 else 1)

def qMeasure (c : QConfig) : ℕ :=
  (c.queue.map (fun t => 2 * t.calls + 2)).sum + curCost c.current

theorem qdrain_aux (tasks : List QTask) (hids : (tasks.map QTask.id).Nodup) :
    ∀ n, ∀ c : QConfig, QReach tasks c → qMeasure c ≤ n →
      ∃ c' : QConfig, Relation.ReflTransGen QStep c c' ∧
        c'.queue = [] ∧ c'.current = none ∧ c'.processing = false ∧
        c'.finished = c.finished ++ currentList c.current ++ c.queue ∧
        c'.arrivals = c.arrivals ∧ ∃ tr', c'.trace = c.trace ++ tr' := by
  intro n
  induction n with
  | zero =>
    intro c hreach hm
    have hinv := qreach_inv tasks hids hreach
    rcases hc : c.current with _ | ⟨t, k, b⟩
    · have hq := hinv.queueIdle hc
      have hp : c.processing = false := by rw [hinv.procIff, hc]; rfl
      exact ⟨c, Relation.ReflTransGen.refl, hq, hc, hp,
        by simp [hc, hq, currentList], rfl, [], by simp⟩
    · exfalso
      have hb := hinv.currentBound t k b hc
      have h1 : 1 ≤ curCost (some (t, k, b)) := by
        cases b
        · simp [curCost]
        · have hlt := hb.2 rfl
          simp only [curCost, if_pos]
          omega
      rw [qMeasure, hc] at hm
      omega
  | succ n ih =>
    intro c hreach hm
    have hinv := qreach_inv tasks hids hreach
    rcases hc : c.current with _ | ⟨t, k, b⟩
    · have hq := hinv.queueIdle hc
      have hp : c.processing = false := by rw [hinv.procIff, hc]; rfl
      exact ⟨c, Relation.ReflTransGen.refl, hq, hc, hp,
        by simp [hc, hq, currentList], rfl, [], by simp⟩
    · cases b with
      | true =>
        have hlt := (hinv.currentBound t k true hc).2 rfl
        have hstep : QStep c
            { c with current := some (t, k + 1, false),
                     trace := c.trace ++ [QEvent.callEnd t.id k] } :=
          QStep.endCall c t k hc
        have hm1 : qMeasure
            { c with current := some (t, k + 1, false),
                     trace := c.trace ++ [QEvent.callEnd t.id k] } ≤ n := by
          simp [qMeasure, curCost, hc] at hm ⊢
          omega
        obtain ⟨c', hsteps, hq', hcur', hp', hfin', harr', tr', htr'⟩ :=
          ih _ (hreach.tail hstep) hm1
        refine ⟨c', Relation.ReflTransGen.head hstep hsteps, hq', hcur', hp',
          ?_, harr', [QEvent.callEnd t.id k] ++ tr', ?_⟩
        · rw [hfin']
          simp [currentList, hc]
        · rw [htr']
          simp
      | false =>
        rcases Nat.lt_or_ge k t.calls with hlt | hge
        · have hstep : QStep c
              { c with current := some (t, k, true),
                       trace := c.trace ++ [QEvent.callStart t.id k] } :=
            QStep.startCall c t k hc hlt
          have hm1 : qMeasure
              { c with current := some (t, k, true),
                       trace := c.trace ++ [QEvent.callStart t.id k] } ≤ n := by
            simp [qMeasure, curCost, hc] at hm ⊢
            omega
          obtain ⟨c', hsteps, hq', hcur', hp', hfin', harr', tr', htr'⟩ :=
            ih _ (hreach.tail hstep) hm1
          refine ⟨c', Relation.ReflTransGen.head hstep hsteps, hq', hcur', hp',
            ?_, harr', [QEvent.callStart t.id k] ++ tr', ?_⟩
          · rw [hfin']
            simp [currentList, hc]
          · rw [htr']
            simp
        · have hk : k = t.calls :=
            le_antisymm (hinv.currentBound t k false hc).1 hge
          subst hk
          rcases hqe : c.queue with _ | ⟨u, q'⟩
          · have hstep : QStep c
                { c with current := none,
                         processing := false,
                         trace := c.trace ++ [settleEvent t],
                         finished := c.finished ++ [t] } :=
              QStep.finishIdle c t hc hqe
            refine ⟨_, Relation.ReflTransGen.head hstep
              Relation.ReflTransGen.refl, ?_, rfl, rfl, ?_, rfl,
              [settleEvent t], rfl⟩
            · simpa using hqe
            · simp [currentList, hqe]
          · have hstep : QStep c
                { c with current := some (u, 0, false),
                         queue := q',
                         trace := c.trace ++ [settleEvent t],
                         finished := c.finished ++ [t] } :=
              QStep.finishNext c t hc u q' hqe
            have hm1 : qMeasure
                { c with current := some (u, 0, false),
                         queue := q',
                         trace := c.trace ++ [settleEvent t],
                         finished := c.finished ++ [t] } ≤ n := by
              simp [qMeasure, curCost, hc, hqe] at hm ⊢
              omega
            obtain ⟨c', hsteps, hq', hcur', hp', hfin', harr', tr', htr'⟩ :=
              ih _ (hreach.tail hstep) hm1
            refine ⟨c', Relation.ReflTransGen.head hstep hsteps, hq', hcur',
              hp', ?_, harr', [settleEvent t] ++ tr', ?_⟩
            · rw [hfin']
              simp [currentList, hqe]
            · rw [htr']
              simp

/-- C10: failure isolation of the global TTS FIFO queue.  First conjunct: a
`rejected` settlement in the trace belongs only to a unit whose body threw
(`ok = false`) — a throwing task rejects only its own promise.  Second
conjunct: every finished unit settles exactly its own promise (resolve or
reject according to its own outcome).  Third conjunct: from any reachable
configuration the queue can always continue to an idle configuration —
queue empty, no current unit, `isProcessing` cleared — having finished the
running unit and every queued unit in FIFO order, so one task's failure
never prevents later-enqueued tasks from running. -/
theorem c10_queue_failure_isolation
    (tasks : List QTask) (hids : (tasks.map QTask.id).Nodup)
    (c : QConfig) (hreach : QReach tasks c) :
    (∀ i, QEvent.rejected i ∈ c.trace →
        ∃ t ∈ c.finished, t.id = i ∧ t.ok = false) ∧
      (∀ t ∈ c.finished, settleEvent t ∈ c.trace) ∧
      ∃ c' : QConfig, Relation.ReflTransGen QStep c c' ∧
        c'.finished = c.finished ++ currentList c.current ++ c.queue ∧
        c'.queue = [] ∧ c'.current = none ∧ c'.processing = false := by
  have hinv := qreach_inv tasks hids hreach
  refine ⟨?_, ?_, ?_⟩
  · intro i hmem
    have hres : QEvent.rejected i ∈ resEvents c.trace :=
      List.mem_filter.mpr ⟨hmem, rfl⟩
    rw [hinv.resStruct] at hres
    obtain ⟨t, htfin, hte⟩ := List.mem_map.mp hres
    refine ⟨t, htfin, ?_⟩
    rw [settleEvent] at hte
    by_cases hok : t.ok
    · rw [if_pos hok] at hte
      exact absurd hte (by simp)
    · rw [if_neg hok] at hte
      injection hte with h1
      exact ⟨h1, by simpa using hok⟩
  · intro t htfin
    have : settleEvent t ∈ resEvents c.trace := by
      rw [hinv.resStruct]
      exact List.mem_map.mpr ⟨t, htfin, rfl⟩
    exact List.mem_of_mem_filter this
  · obtain ⟨c', hsteps, hq', hcur', hp', hfin', _, _⟩ :=
      qdrain_aux tasks hids (qMeasure c) c hreach le_rfl
    exact ⟨c', hsteps, hfin', hq', hcur', hp'⟩

/-- A run in which the first unit's body throws (zero synthesis calls,
`ok = false`) while the second unit waits in the queue: the first unit has
just been rejected and the queue has moved on to the second unit. -/
def tasksDemo2 : List QTask := [⟨0, 0, false⟩, ⟨1, 1, true⟩]

def qcDemo2 : QConfig :=
  { arrivals := [], queue := [], current := some (⟨1, 1, true⟩, 0, false),
    processing := true, trace := [.enq 0, .enq 1, .rejected 0],
    finished := [⟨0, 0, false⟩] }

theorem qreach_demo2 : QReach tasksDemo2 qcDemo2 := by
  refine Relation.ReflTransGen.head
      (QStep.arriveIdle (qInit tasksDemo2) ⟨0, 0, false⟩ [] [⟨1, 1, true⟩]
        rfl rfl ⟨0, 0, false⟩ [] rfl) ?_
  refine Relation.ReflTransGen.head
      (QStep.arriveBusy _ ⟨1, 1, true⟩ [] [] rfl rfl) ?_
  exact Relation.ReflTransGen.head
      (QStep.finishNext _ ⟨0, 0, false⟩ rfl ⟨1, 1, true⟩ [] rfl)
      Relation.ReflTransGen.refl

theorem c10_queue_failure_isolation_witness :
    (∀ i, QEvent.rejected i ∈ qcDemo2.trace →
        ∃ t ∈ qcDemo2.finished, t.id = i ∧ t.ok = false) ∧
      (∀ t ∈ qcDemo2.finished, settleEvent t ∈ qcDemo2.trace) ∧
      ∃ c' : QConfig, Relation.ReflTransGen QStep qcDemo2 c' ∧
        c'.finished
          = qcDemo2.finished ++ currentList qcDemo2.current ++ qcDemo2.queue ∧
        c'.queue = [] ∧ c'.current = none ∧ c'.processing = false :=
  c10_queue_failure_isolation tasksDemo2 (by decide) qcDemo2 qreach_demo2

/-! ### The story pipeline: `StoryService.generateFullStory`

Shallow embedding of `generateFullStory` (src/unnamed/part_003, lines
166–840).  The database (one `storyProject` row and its `storyScene` rows),
the filesystem and the log table form the state; the external collaborators
(`aiService`, `imageService`, `ttsService`) are an oracle `Env`; the number
of calls made to each collaborator in one invocation is returned alongside
the final state.  Prisma's `findMany({orderBy: {order: 'asc'}})` is a
stable ascending sort by `order` (`sortScenes`), and `update({where: {id}})`
is a keyed field update (`updScene`).  Paths are segment lists so distinct
directories yield provably distinct paths; `fs` is the list of existing
files (directory creation, which the code guards with `existsSync`/
`mkdirSync`, has no observable effect on the claims and is elided).
JavaScript truthiness of the string columns is `truthy`; nullable columns
are `Option`.  Fields that gate no control flow (descriptionGenerated,
hashtagsGenerated, the topic refresh, genre, language, provider, speaker,
orientation, concurrency) are elided; the metadata branches (topic /
prompt / narrations mode) all make exactly one metadata call and are
collapsed to one oracle call, and `generateSpeechWithProsody` vs
`generateSpeech` are collapsed into the one `tts` oracle. -/

inductive StoryStatus where
  | PENDING
  | STORY_PROMPT_READY
  | GENERATING_SCENES
  | GENERATING_IMAGES
  | GENERATING_TTS
  | RENDERING_VIDEO
  | COMPLETED
  | FAILED
deriving DecidableEq, Repr

/-- A path as its segments; `./storage/images` etc. stay single segments. -/
abbrev Path := List String

structure Scene where
  sid : ℕ
  order : ℕ
  narration : String
  imagePrompt : String
  prosodyData : Option (List ProsodySegment)
  animationIn : String
  animationShow : String
  animationOut : String
  imagePath : Option Path
  audioPath : Option Path
  startTimeMs : Option ℤ
  endTimeMs : Option ℤ
deriving DecidableEq, Repr

structure Project where
  pid : String
  projectSlug : String
  status : StoryStatus
  titleGenerated : String
  characterDescriptions : String
  contentType : String
  topic : String
  videoPath : Option Path
  srtPath : Option Path
deriving DecidableEq, Repr

structure LogEntry where
  level : String
  code : String
  message : String
deriving DecidableEq, Repr

structure SubtitleWordBoundary where
  text : String
  offset : ℤ
  duration : ℤ
deriving DecidableEq, Repr

structure TtsResult where
  durationMs : ℤ
  wordBoundaries : List SubtitleWordBoundary
deriving DecidableEq, Repr

structure AudioResult where
  sceneId : ℕ
  audioPath : Path
  durationMs : ℤ
  wordBoundaries : List SubtitleWordBoundary
deriving DecidableEq, Repr

/-- One SRT cue of the per-scene fallback. -/
structure Cue where
  index : ℕ
  startT : Option ℤ
  endT : Option ℤ
  text : String
deriving DecidableEq, Repr

/-- The subtitle file's content: word-timed or one cue per scene. -/
inductive SrtChoice where
  | words (l : List SubtitleWordBoundary)
  | perScene (l : List Cue)
deriving DecidableEq, Repr

structure PState where
  project : Project
  scenes : List Scene
  fs : List Path
  logs : List LogEntry
  srt : Option SrtChoice
  nextId : ℕ
deriving DecidableEq, Repr

/-- The external collaborators.  `tts o a` is the outcome of attempt `a`
(1-based) of synthesising scene `o`'s audio; `.error` models a throw. -/
structure Env where
  metaTitle : String
  narrations : List (ℕ × String)
  characters : String
  imagePromptsBatch : List (ℕ × String) → List (ℕ × String)
  animationsFor : String → String × String × String
  tts : ℕ → ℕ → Except String TtsResult

/-- Provider calls made during one invocation, by collaborator. -/
structure Calls where
  meta : ℕ
  narr : ℕ
  chars : ℕ
  prompts : ℕ
  animations : ℕ
  images : ℕ
  tts : ℕ
  enq : ℕ
deriving DecidableEq, Repr

def zeroCalls (c : Calls) : Prop :=
  c.meta = 0 ∧ c.narr = 0 ∧ c.chars = 0 ∧ c.prompts = 0 ∧
    c.animations = 0 ∧ c.images = 0 ∧ c.tts = 0 ∧ c.enq = 0

/-- JavaScript truthiness of a string column (`null` is modelled as `""`;
both are falsy). -/
def truthy (s : String) : Bool := !(s == "")

/-- `String.prototype.trim`. -/
def jsTrim (s : String) : String := ⟨trimChars s.data⟩

/-- `updatedProject?.projectSlug || projectId` (source: `filePrefix`). -/
def fileSlug (p : Project) : String :=
  if truthy p.projectSlug then p.projectSlug else p.pid

def imagePathFor (slug : String) (o : ℕ) : Path :=
  ["./storage/images", slug, "scene_" ++ toString o ++ ".jpg"]

def audioPathFor (slug : String) (o : ℕ) : Path :=
  ["./storage/audio", slug, "scene_" ++ toString o ++ ".mp3"]

def sceneVideoPathFor (slug : String) (o : ℕ) : Path :=
  ["./storage/tmp", slug, "scene_" ++ toString o ++ ".mp4"]

def finalVideoPathFor (slug : String) : Path :=
  ["./storage/videos", slug, "video.mp4"]

def srtPathFor (slug : String) : Path :=
  ["./storage/subtitles", slug, "subtitle.srt"]

def existsSync (fs : List Path) (p : Path) : Bool := fs.contains p

/-- `!scene.imagePath || !fs.existsSync(scene.imagePath)`. -/
def needsImage (fs : List Path) (s : Scene) : Bool :=
  match s.imagePath with
  | none => true
  | some p => !(existsSync fs p)

/-- `!scene.audioPath || !fs.existsSync(scene.audioPath)`. -/
def needsAudio (fs : List Path) (s : Scene) : Bool :=
  match s.audioPath with
  | none => true
  | some p => !(existsSync fs p)

/-- `findMany({orderBy: {order: 'asc'}})` / `.sort((a,b) => a.order - b.order)`:
stable ascending sort by `order`. -/
def sortScenes (l : List Scene) : List Scene :=
  List.insertionSort (fun a b => a.order ≤ b.order) l

/-- `prisma.storyScene.update({where: {id}, data})`. -/
def updScene (i : ℕ) (f : Scene → Scene) (l : List Scene) : List Scene :=
  l.map (fun s => if s.sid == i then f s else s)

/-- `this.logMessage(projectId, level, code, message)`. -/
def logMessage (level code message : String) (st : PState) : PState :=
  { st with logs := st.logs ++ [⟨level, code, message⟩] }

/-- Step 1: `if (project.status === StoryStatus.PENDING ||
!project.titleGenerated)` generate metadata and store it with status
`STORY_PROMPT_READY`; otherwise skip.  Returns the metadata-call count. -/
def stageMetadata (env : Env) (st : PState) : PState × ℕ :=
  if st.project.status == .PENDING || !truthy st.project.titleGenerated then
    let st := logMessage "INFO" "GENERATING_METADATA"
      "Generating story metadata..." st
    ({ st with project := { st.project with
        titleGenerated := env.metaTitle,
        status := .STORY_PROMPT_READY } }, 1)
  else (st, 0)

/-- A freshly created scene row: `storyScene.create({projectId, order,
narration})` — every other column starts null. -/
def mkScene (i o : ℕ) (n : String) : Scene :=
  { sid := i, order := o, narration := n, imagePrompt := "",
    prosodyData := none, animationIn := "", animationShow := "",
    animationOut := "", imagePath := none, audioPath := none,
    startTimeMs := none, endTimeMs := none }

/-- The body of Step 2's regeneration branch: log, set status
`GENERATING_SCENES`, and create one scene row per generated narration. -/
def createScenes (env : Env) (st : PState) : PState :=
  let st := logMessage "INFO" "GENERATING_NARRATIONS"
    "Generating scene narrations..." st
  let st := { st with project :=
    { st.project with status := .GENERATING_SCENES } }
  { st with
    scenes := st.scenes ++ (env.narrations.enum.map
      (fun p => mkScene (st.nextId + p.1) p.2.1 p.2.2)),
    nextId := st.nextId + env.narrations.length }

/-- Step 2: `if (existingScenes.length === 0 || !existingScenes[0].narration)`
regenerate the narrations (one narration-batch call); otherwise skip. -/
def stageNarrations (env : Env) (st : PState) : PState × ℕ :=
  match sortScenes st.scenes with
  | [] => (createScenes env st, 1)
  | sc :: _ =>
    if !truthy sc.narration then (createScenes env st, 1) else (st, 0)

/-- `const contentType = project.contentType || 'story'`. -/
def contentTypeOf (p : Project) : String :=
  if truthy p.contentType then p.contentType else "story"

/-- Step 2.5: `if (!characterDescriptions && contentType === 'story')`
generate and persist character descriptions; otherwise skip. -/
def stageCharacters (env : Env) (st : PState) : PState × ℕ :=
  if !truthy st.project.characterDescriptions
      && contentTypeOf st.project == "story" then
    let st := logMessage "INFO" "GENERATING_CHARACTERS"
      "Generating character descriptions for consistent imagery..." st
    ({ st with project :=
      { st.project with characterDescriptions := env.characters } }, 1)
  else (st, 0)

/-- The update loop after the image-prompt batch: for each result, find the
scene of that `order` among the snapshot of scenes lacking a prompt and set
its `imagePrompt` to the trimmed result. -/
def applyPromptResults (missing : List Scene) (batch : List (ℕ × String))
    (scenes : List Scene) : List Scene :=
  batch.foldl (fun acc r =>
    match missing.find? (fun s => s.order == r.1) with
    | some sc => updScene sc.sid
        (fun s => { s with imagePrompt := jsTrim r.2 }) acc
    | none => acc) scenes

/-- Step 3: batch-generate image prompts for the scenes lacking one (one
batch call when any is missing). -/
def stagePrompts (env : Env) (st : PState) : PState × ℕ :=
  let dbScenes := sortScenes st.scenes
  let missing := dbScenes.filter (fun s => !truthy s.imagePrompt)
  if missing.length != 0 then
    let st := logMessage "INFO" "GENERATING_IMAGE_PROMPTS"
      ("Generating image prompts in batches (" ++ toString missing.length
        ++ " remaining)...") st
    let batch := env.imagePromptsBatch
      (missing.map (fun s => (s.order, s.narration)))
    ({ st with scenes := applyPromptResults missing batch st.scenes }, 1)
  else (st, 0)

/-- Step 4: for each scene lacking `prosodyData`, store the
punctuation-based prosody segments and the generated animations (one
animation call per such scene). -/
def stageProsody (env : Env) (st : PState) : PState × ℕ :=
  let missing := (sortScenes st.scenes).filter (fun s => s.prosodyData.isNone)
  if missing.length != 0 then
    let st := logMessage "INFO" "GENERATING_PROSODY_ANIMATIONS"
      ("Generating prosody segments and animations ("
        ++ toString missing.length ++ " remaining)...") st
    ({ st with scenes := missing.foldl (fun l sc =>
        let a := env.animationsFor sc.narration
        updScene sc.sid (fun s =>
          { s with prosodyData := some (textToProsodySegments sc.narration),
                   animationIn := a.1, animationShow := a.2.1,
                   animationOut := a.2.2 }) l) st.scenes },
     missing.length)
  else (st, 0)

/-- Steps 1–4 composed, with the per-collaborator call counts. -/
def preMedia (env : Env) (st : PState) : PState × Calls :=
  let m := stageMetadata env st
  let n := stageNarrations env m.1
  let ch := stageCharacters env n.1
  let pb := stagePrompts env ch.1
  let an := stageProsody env pb.1
  (an.1, { meta := m.2, narr := n.2, chars := ch.2, prompts := pb.2,
           animations := an.2, images := 0, tts := 0, enq := 0 })

/-- Step 5 (image half): for each scene needing an image, generate the
file at the project image path and persist `imagePath`. -/
def imagesPart (slug : String) (needImgs : List Scene) (st : PState) :
    PState × ℕ :=
  let st := if needImgs.length != 0 then
      logMessage "INFO" "GENERATING_IMAGES"
        ("Generating " ++ toString needImgs.length ++ " images...") st
    else st
  ({ st with
     fs := st.fs ++ needImgs.map (fun sc => imagePathFor slug sc.order),
     scenes := needImgs.foldl (fun l sc =>
       updScene sc.sid (fun s =>
         { s with imagePath := some (imagePathFor slug sc.order) }) l)
       st.scenes },
   needImgs.length)

/-- The retry loop around one scene's synthesis: up to `maxRetries = 3`
attempts, sleeping `2000 * attempt` ms after each failed non-final attempt.
Returns the final outcome, the attempts used, and the delays slept. -/
def ttsRetry (env : Env) (o : ℕ) : Except String TtsResult × ℕ × List ℤ :=
  match env.tts o 1 with
  | .ok r => (.ok r, 1, [])
  | .error _ =>
    match env.tts o 2 with
    | .ok r => (.ok r, 2, [2000 * 1])
    | .error _ =>
      match env.tts o 3 with
      | .ok r => (.ok r, 3, [2000 * 1, 2000 * 2])
      | .error e => (.error e, 3, [2000 * 1, 2000 * 2])

/-- The enqueued unit's body: synthesise each scene in order.  A scene whose
retries are exhausted throws `(order, last error)`; files written for the
scenes already synthesised remain (second component), and the attempt count
is returned (third). -/
def audioBatch (env : Env) (slug : String) :
    List Scene → Except (ℕ × String) (List AudioResult) × List Path × ℕ
  | [] => (.ok [], [], 0)
  | sc :: rest =>
    let r := ttsRetry env sc.order
    match r.1 with
    | .error e => (.error (sc.order, e), [], r.2.1)
    | .ok res =>
      let p := audioPathFor slug sc.order
      let rec1 := audioBatch env slug rest
      (match rec1.1 with
       | .error oe => .error oe
       | .ok results => .ok
           ({ sceneId := sc.sid, audioPath := p,
              durationMs := res.durationMs,
              wordBoundaries := res.wordBoundaries } :: results),
       p :: rec1.2.1, r.2.1 + rec1.2.2)

/-- Step 5 (audio half): `if (scenesNeedingAudio.length === 0) return []`;
otherwise set status `GENERATING_TTS`, log, and run the enqueued unit (one
`ttsQueueService.enqueue` per project — the single-unit submission of C3).
The files the unit wrote before any throw stay on disk. -/
def mediaAudio (env : Env) (slug : String) (needAud : List Scene)
    (st : PState) : PState × Except (ℕ × String) (List AudioResult) × ℕ × ℕ :=
  if needAud.isEmpty then (st, .ok [], 0, 0)
  else
    let st := { st with project :=
      { st.project with status := .GENERATING_TTS } }
    let st := logMessage "INFO" "GENERATING_TTS"
      ("Generating audio for " ++ toString needAud.length
        ++ " scenes (queued)...") st
    let ab := audioBatch env slug needAud
    ({ st with fs := st.fs ++ ab.2.1 }, ab.1, ab.2.2, 1)

/-- `boundary.offset + Math.round(sceneStartMs * HNS_PER_MS)` (exact:
`sceneStartMs` is an integer, so the rounding is the identity). -/
def shiftWB (startHns : ℤ) (w : SubtitleWordBoundary) : SubtitleWordBoundary :=
  { w with offset := w.offset + startHns }

/-- The sequential timing walk over the ordered media snapshot (source lines
662–702): a scene that already carries both `startTimeMs` and `endTimeMs`
keeps its row, moves the cursor to its `endTimeMs` and clears the
completeness flag; otherwise, if the audio results hold this scene, its
`audioPath`/timing are assigned contiguously from the cursor and its word
boundaries are appended shifted to global time (an empty boundary list
clears the flag); a scene with neither is left unchanged.  Returns the
updated snapshot, the cursor, the flag and the global boundary list.
`timed` is the walk's skip test `scene.startTimeMs !== null &&
scene.endTimeMs !== null`: the scene already carries timing from a prior
partial run. -/
def timed (sc : Scene) : Bool :=
  sc.startTimeMs.isSome && sc.endTimeMs.isSome

def walkTiming (results : List AudioResult) :
    List Scene → ℤ → Bool → List SubtitleWordBoundary →
      List Scene × ℤ × Bool × List SubtitleWordBoundary
  | [], ct, hwb, gwb => ([], ct, hwb, gwb)
  | sc :: rest, ct, hwb, gwb =>
    if timed sc then
      let w := walkTiming results rest (sc.endTimeMs.getD 0) false gwb
      (sc :: w.1, w.2)
    else
      match results.find? (fun r => r.sceneId == sc.sid) with
      | some r =>
        let sc' := { sc with audioPath := some r.audioPath,
                             startTimeMs := some ct,
                             endTimeMs := some (ct + r.durationMs) }
        let gwb' := if r.wordBoundaries.length != 0 then
            gwb ++ r.wordBoundaries.map (shiftWB (ct * 10000)) else gwb
        let hwb' := if r.wordBoundaries.length != 0 then hwb else false
        let w := walkTiming results rest (ct + r.durationMs) hwb' gwb'
        (sc' :: w.1, w.2)
      | none =>
        let w := walkTiming results rest ct hwb gwb
        (sc :: w.1, w.2)

/-- Persist the walk's updates: for each snapshot scene, copy exactly the
three columns the walk's `update` writes (`audioPath`, `startTimeMs`,
`endTimeMs`).  For a scene the walk did not update these equal the stored
values (nothing else writes them), so the copy is the identity there. -/
def applyWalk (walked : List Scene) (scenes : List Scene) : List Scene :=
  walked.foldl (fun acc w => updScene w.sid (fun s =>
    { s with audioPath := w.audioPath, startTimeMs := w.startTimeMs,
             endTimeMs := w.endTimeMs }) acc) scenes

/-- Step 7: render each scene video into the project tmp directory,
concatenate into the final video, and unlink the scene videos.  Returns the
re-read ordered scenes (`updatedScenes`). -/
def renderStage (slug : String) (st : PState) : PState × List Scene :=
  let st := logMessage "INFO" "RENDERING_VIDEO"
    "Rendering video with animations..." st
  let st := { st with project :=
    { st.project with status := .RENDERING_VIDEO } }
  let updatedScenes := sortScenes st.scenes
  let sceneVideos := updatedScenes.map (fun sc => sceneVideoPathFor slug sc.order)
  let st := { st with fs := st.fs ++ sceneVideos ++ [finalVideoPathFor slug] }
  let st := { st with fs := sceneVideos.foldl (fun f p => f.erase p) st.fs }
  (st, updatedScenes)

/-- The per-scene fallback cues: `updatedScenes.map((scene, index) =>
({index: index + 1, startTime: …, endTime: …, text: scene.narration}))`. -/
def mkSceneCues (scenes : List Scene) : List Cue :=
  scenes.enum.map (fun p =>
    { index := p.1 + 1, startT := p.2.startTimeMs,
      endT := p.2.endTimeMs, text := p.2.narration })

/-- Step 8's mode decision: `if (hasCompleteWordBoundaries &&
globalWordBoundaries.length > 0)` emit the word-timed cues sorted by
offset, else exactly one cue per scene. -/
def chooseSrt (hwb : Bool) (gwb : List SubtitleWordBoundary)
    (scenes : List Scene) : SrtChoice :=
  if hwb && gwb.length != 0 then
    .words (List.insertionSort (fun a b => a.offset ≤ b.offset) gwb)
  else
    .perScene (mkSceneCues scenes)

/-- The state at the top of Step 5, after Steps 1–4, the
`GENERATING_MEDIA` log and the `GENERATING_IMAGES` status update. -/
def st6Of (env : Env) (s0 : PState) : PState :=
  let st6 := logMessage "INFO" "GENERATING_MEDIA"
    "Generating images and audio concurrently..." (preMedia env s0).1
  { st6 with project := { st6.project with status := .GENERATING_IMAGES } }

/-- `scenesForMedia`: the ordered scene snapshot taken at Step 5. -/
def scenesForMediaOf (env : Env) (s0 : PState) : List Scene :=
  sortScenes (st6Of env s0).scenes

/-- `scenesNeedingImages` of the run. -/
def needImgsOf (env : Env) (s0 : PState) : List Scene :=
  (scenesForMediaOf env s0).filter (needsImage (st6Of env s0).fs)

/-- `scenesNeedingAudio` of the run. -/
def needAudOf (env : Env) (s0 : PState) : List Scene :=
  (scenesForMediaOf env s0).filter (needsAudio (st6Of env s0).fs)

/-- The image half of Step 5, applied to the run's own snapshot. -/
def ipOf (env : Env) (s0 : PState) : PState × ℕ :=
  imagesPart (fileSlug (st6Of env s0).project) (needImgsOf env s0)
    (st6Of env s0)

/-- The audio half of Step 5, applied after the image half. -/
def maOf (env : Env) (s0 : PState) :
    PState × Except (ℕ × String) (List AudioResult) × ℕ × ℕ :=
  mediaAudio env (fileSlug (st6Of env s0).project) (needAudOf env s0)
    (ipOf env s0).1

/-- The run's per-collaborator call counts. -/
def callsOf (env : Env) (s0 : PState) : Calls :=
  { (preMedia env s0).2 with
      images := (ipOf env s0).2,
      tts := (maOf env s0).2.2.1,
      enq := (maOf env s0).2.2.2 }

/-- The `catch` (source lines 827–839): append the `ERROR` /
`GENERATION_FAILED` log entry carrying the thrown message and set status
`FAILED`; nothing else of the state at the throw point changes. -/
def errorState (env : Env) (s0 : PState) (oe : ℕ × String) : PState :=
  let msg := "TTS generation failed for scene " ++ toString oe.1
    ++ ": " ++ oe.2
  let stE := logMessage "ERROR" "GENERATION_FAILED" msg (maOf env s0).1
  { stE with project := { stE.project with status := .FAILED } }

/-- The run's timing walk (Step 6). -/
def wtOf (env : Env) (s0 : PState) (results : List AudioResult) :
    List Scene × ℤ × Bool × List SubtitleWordBoundary :=
  walkTiming results (scenesForMediaOf env s0) 0 true []

/-- The state after the walk's updates are persisted. -/
def st10Of (env : Env) (s0 : PState) (results : List AudioResult) : PState :=
  { (maOf env s0).1 with
      scenes := applyWalk (wtOf env s0 results).1 (maOf env s0).1.scenes }

/-- `updatedScenes`: the ordered re-read before the render. -/
def updatedScenesOf (env : Env) (s0 : PState) (results : List AudioResult) :
    List Scene :=
  (renderStage (fileSlug (st6Of env s0).project) (st10Of env s0 results)).2

/-- Steps 6–8 on the successful path: the timing walk persisted to the
scene rows, the render, the subtitle choice, the final project update and
the `COMPLETED` log. -/
def successState (env : Env) (s0 : PState) (results : List AudioResult) :
    PState :=
  let slug := fileSlug (st6Of env s0).project
  let wt := wtOf env s0 results
  let rs := renderStage slug (st10Of env s0 results)
  let srtChoice := chooseSrt wt.2.2.1 wt.2.2.2 rs.2
  let st12 := { rs.1 with fs := rs.1.fs ++ [srtPathFor slug],
                          srt := some srtChoice }
  let st13 := { st12 with project := { st12.project with
      videoPath := some (finalVideoPathFor slug),
      srtPath := some (srtPathFor slug),
      status := .COMPLETED } }
  logMessage "INFO" "COMPLETED" "Video generation completed!" st13

/-- `generateFullStory` (source lines 166–840): Steps 1–4 (`preMedia`,
inside `st6Of`), the concurrent media step (images `ipOf`, then the queued
audio unit `maOf` — the interleaving of the two independent halves is
immaterial to the state), then on success the timing walk, render, subtitle
choice and final update (`successState`), and on a throw the `catch`
(`errorState`). -/
def generateFullStory (env : Env) (s0 : PState) : PState × Calls :=
  match (maOf env s0).2.1 with
  | .error oe => (errorState env s0 oe, callsOf env s0)
  | .ok results => (successState env s0 results, callsOf env s0)

/-! #### Lemmas about the timing walk -/

theorem walkTiming_cons_pre (results : List AudioResult) (sc : Scene)
    (rest : List Scene) (ct : ℤ) (hwb : Bool)
    (gwb : List SubtitleWordBoundary) (h : timed sc = true) :
    walkTiming results (sc :: rest) ct hwb gwb
      = (sc :: (walkTiming results rest (sc.endTimeMs.getD 0) false gwb).1,
         (walkTiming results rest (sc.endTimeMs.getD 0) false gwb).2) := by
  simp [walkTiming, h]

theorem walkTiming_cons_found (results : List AudioResult) (sc : Scene)
    (rest : List Scene) (ct : ℤ) (hwb : Bool)
    (gwb : List SubtitleWordBoundary) (r : AudioResult)
    (h : timed sc = false)
    (hf : results.find? (fun x => x.sceneId == sc.sid) = some r) :
    walkTiming results (sc :: rest) ct hwb gwb
      = ({ sc with audioPath := some r.audioPath, startTimeMs := some ct,
                   endTimeMs := some (ct + r.durationMs) }
           :: (walkTiming results rest (ct + r.durationMs)
                (if r.wordBoundaries.length != 0 then hwb else false)
                (if r.wordBoundaries.length != 0 then
                  gwb ++ r.wordBoundaries.map (shiftWB (ct * 10000))
                 else gwb)).1,
         (walkTiming results rest (ct + r.durationMs)
            (if r.wordBoundaries.length != 0 then hwb else false)
            (if r.wordBoundaries.length != 0 then
              gwb ++ r.wordBoundaries.map (shiftWB (ct * 10000))
             else gwb)).2) := by
  simp [walkTiming, h, hf]

theorem walkTiming_cons_miss (results : List AudioResult) (sc : Scene)
    (rest : List Scene) (ct : ℤ) (hwb : Bool)
    (gwb : List SubtitleWordBoundary) (h : timed sc = false)
    (hf : results.find? (fun x => x.sceneId == sc.sid) = none) :
    walkTiming results (sc :: rest) ct hwb gwb
      = (sc :: (walkTiming results rest ct hwb gwb).1,
         (walkTiming results rest ct hwb gwb).2) := by
  simp [walkTiming, h, hf]

theorem walkTiming_length (results : List AudioResult) (l : List Scene) :
    ∀ ct hwb gwb, (walkTiming results l ct hwb gwb).1.length = l.length := by
  induction l with
  | nil => intro ct hwb gwb; rfl
  | cons sc rest ih =>
    intro ct hwb gwb
    by_cases h : timed sc = true
    · rw [walkTiming_cons_pre results sc rest ct hwb gwb h]
      simp [ih]
    · have h' : timed sc = false := by simpa using h
      cases hf : results.find? (fun x => x.sceneId == sc.sid) with
      | some r =>
        rw [walkTiming_cons_found results sc rest ct hwb gwb r h' hf]
        simp [ih]
      | none =>
        rw [walkTiming_cons_miss results sc rest ct hwb gwb h' hf]
        simp [ih]

theorem walkTiming_keep_timed (results : List AudioResult) (l : List Scene) :
    ∀ (ct : ℤ) (hwb : Bool) (gwb : List SubtitleWordBoundary) (i : ℕ)
      (sc : Scene), l[i]? = some sc → timed sc = true →
      (walkTiming results l ct hwb gwb).1[i]? = some sc := by
  induction l with
  | nil => intro ct hwb gwb i sc hget _; simp at hget
  | cons hd rest ih =>
    intro ct hwb gwb i sc hget htm
    by_cases h : timed hd = true
    · rw [walkTiming_cons_pre results hd rest ct hwb gwb h]
      cases i with
      | zero => simpa using hget
      | succ i =>
        simp only [List.getElem?_cons_succ] at hget ⊢
        exact ih _ _ _ i sc hget htm
    · have h' : timed hd = false := by simpa using h
      cases i with
      | zero =>
        exfalso
        have : hd = sc := by simpa using hget
        rw [this, htm] at h'
        exact Bool.true_eq_false.mp h'
      | succ i =>
        cases hf : results.find? (fun x => x.sceneId == hd.sid) with
        | some r =>
          rw [walkTiming_cons_found results hd rest ct hwb gwb r h' hf]
          simp only [List.getElem?_cons_succ] at hget ⊢
          exact ih _ _ _ i sc hget htm
        | none =>
          rw [walkTiming_cons_miss results hd rest ct hwb gwb h' hf]
          simp only [List.getElem?_cons_succ] at hget ⊢
          exact ih _ _ _ i sc hget htm

theorem walkTiming_head_found (results : List AudioResult) (b : Scene)
    (rest : List Scene) (ct : ℤ) (hwb : Bool)
    (gwb : List SubtitleWordBoundary) (r : AudioResult)
    (htb : timed b = false)
    (hf : results.find? (fun x => x.sceneId == b.sid) = some r) :
    (walkTiming results (b :: rest) ct hwb gwb).1[0]?
      = some { b with audioPath := some r.audioPath, startTimeMs := some ct,
                      endTimeMs := some (ct + r.durationMs) } := by
  rw [walkTiming_cons_found results b rest ct hwb gwb r htb hf]
  simp

theorem walkTiming_fresh_timing (results : List AudioResult) (l : List Scene) :
    ∀ (ct : ℤ) (hwb : Bool) (gwb : List SubtitleWordBoundary) (i : ℕ)
      (sc : Scene) (r : AudioResult), l[i]? = some sc → timed sc = false →
      results.find? (fun x => x.sceneId == sc.sid) = some r →
      ∃ s, (walkTiming results l ct hwb gwb).1[i]?
        = some { sc with audioPath := some r.audioPath,
                         startTimeMs := some s,
                         endTimeMs := some (s + r.durationMs) } := by
  induction l with
  | nil => intro ct hwb gwb i sc r hget _ _; simp at hget
  | cons hd rest ih =>
    intro ct hwb gwb i sc r hget htm hf
    by_cases h : timed hd = true
    · rw [walkTiming_cons_pre results hd rest ct hwb gwb h]
      cases i with
      | zero =>
        exfalso
        have : hd = sc := by simpa using hget
        rw [this, htm] at h
        exact Bool.false_eq_true.mp h
      | succ i =>
        simp only [List.getElem?_cons_succ] at hget ⊢
        exact ih _ _ _ i sc r hget htm hf
    · have h' : timed hd = false := by simpa using h
      cases i with
      | zero =>
        have he : hd = sc := by simpa using hget
        subst he
        refine ⟨ct, ?_⟩
        exact walkTiming_head_found results hd rest ct hwb gwb r htm hf
      | succ i =>
        cases hf2 : results.find? (fun x => x.sceneId == hd.sid) with
        | some r2 =>
          rw [walkTiming_cons_found results hd rest ct hwb gwb r2 h' hf2]
          simp only [List.getElem?_cons_succ] at hget ⊢
          exact ih _ _ _ i sc r hget htm hf
        | none =>
          rw [walkTiming_cons_miss results hd rest ct hwb gwb h' hf2]
          simp only [List.getElem?_cons_succ] at hget ⊢
          exact ih _ _ _ i sc r hget htm hf

theorem walkTiming_adjacent (results : List AudioResult) (l : List Scene) :
    ∀ (ct : ℤ) (hwb : Bool) (gwb : List SubtitleWordBoundary) (i : ℕ)
      (a b : Scene), l[i]? = some a → l[i + 1]? = some b →
      (timed a = true ∨
        (results.find? (fun x => x.sceneId == a.sid)).isSome = true) →
      timed b = false →
      (results.find? (fun x => x.sceneId == b.sid)).isSome = true →
      ∃ oa ob, (walkTiming results l ct hwb gwb).1[i]? = some oa ∧
        (walkTiming results l ct hwb gwb).1[i + 1]? = some ob ∧
        ob.startTimeMs = oa.endTimeMs := by
  induction l with
  | nil => intro ct hwb gwb i a b hga _ _ _ _; simp at hga
  | cons hd rest ih =>
    intro ct hwb gwb i a b hga hgb hadv htb hfb
    obtain ⟨rb, hrb⟩ := Option.isSome_iff_exists.mp hfb
    cases i with
    | zero =>
      have hea : hd = a := by simpa using hga
      subst hea
      simp only [List.getElem?_cons_succ] at hgb
      rcases rest with _ | ⟨b', rest'⟩
      · simp at hgb
      · have heb : b' = b := by simpa using hgb
        subst heb
        by_cases h : timed hd = true
        · rw [walkTiming_cons_pre results hd (b' :: rest') ct hwb gwb h]
          have h2 : hd.endTimeMs.isSome = true := by
            have h3 := h
            simp only [timed, Bool.and_eq_true] at h3
            exact h3.2
          obtain ⟨e, he⟩ := Option.isSome_iff_exists.mp h2
          have hob := walkTiming_head_found results b' rest'
            (hd.endTimeMs.getD 0) false gwb rb htb hrb
          exact ⟨hd,
            { b' with audioPath := some rb.audioPath,
                      startTimeMs := some (hd.endTimeMs.getD 0),
                      endTimeMs := some (hd.endTimeMs.getD 0 + rb.durationMs) },
            by simp,
            by
              simp only [List.getElem?_cons_succ]
              exact hob,
            by simp [he]⟩
        · have h' : timed hd = false := by simpa using h
          rcases hadv with hadv | hadv
          · rw [hadv] at h'
            exact absurd h' (by simp)
          · obtain ⟨ra, hra⟩ := Option.isSome_iff_exists.mp hadv
            rw [walkTiming_cons_found results hd (b' :: rest') ct hwb gwb
              ra h' hra]
            have hob := walkTiming_head_found results b' rest'
              (ct + ra.durationMs)
              (if ra.wordBoundaries.length != 0 then hwb else false)
              (if ra.wordBoundaries.length != 0 then
                gwb ++ ra.wordBoundaries.map (shiftWB (ct * 10000))
               else gwb) rb htb hrb
            exact ⟨{ hd with audioPath := some ra.audioPath,
                             startTimeMs := some ct,
                             endTimeMs := some (ct + ra.durationMs) },
              { b' with audioPath := some rb.audioPath,
                        startTimeMs := some (ct + ra.durationMs),
                        endTimeMs :=
                          some (ct + ra.durationMs + rb.durationMs) },
              by simp,
              by
                simp only [List.getElem?_cons_succ]
                exact hob,
              by simp⟩
    | succ i =>
      simp only [List.getElem?_cons_succ] at hga hgb
      by_cases h : timed hd = true
      · rw [walkTiming_cons_pre results hd rest ct hwb gwb h]
        obtain ⟨oa, ob, h1, h2, h3⟩ :=
          ih (hd.endTimeMs.getD 0) false gwb i a b hga hgb hadv htb hfb
        exact ⟨oa, ob, by simpa using h1, by simpa using h2, h3⟩
      · have h' : timed hd = false := by simpa using h
        cases hf2 : results.find? (fun x => x.sceneId == hd.sid) with
        | some r2 =>
          rw [walkTiming_cons_found results hd rest ct hwb gwb r2 h' hf2]
          obtain ⟨oa, ob, h1, h2, h3⟩ := ih (ct + r2.durationMs)
            (if r2.wordBoundaries.length != 0 then hwb else false)
            (if r2.wordBoundaries.length != 0 then
              gwb ++ r2.wordBoundaries.map (shiftWB (ct * 10000))
             else gwb) i a b hga hgb hadv htb hfb
          exact ⟨oa, ob, by simpa using h1, by simpa using h2, h3⟩
        | none =>
          rw [walkTiming_cons_miss results hd rest ct hwb gwb h' hf2]
          obtain ⟨oa, ob, h1, h2, h3⟩ :=
            ih ct hwb gwb i a b hga hgb hadv htb hfb
          exact ⟨oa, ob, by simpa using h1, by simpa using h2, h3⟩

/-- A fresh scene (no timing yet) whose audio result has duration 1000 ms. -/
def c2SceneA : Scene :=
  { sid := 1, order := 1, narration := "a", imagePrompt := "",
    prosodyData := none, animationIn := "", animationShow := "",
    animationOut := "", imagePath := none, audioPath := none,
    startTimeMs := none, endTimeMs := none }

/-- A scene pre-timed 5000–6000 ms by a prior partial run. -/
def c2SceneB : Scene :=
  { sid := 2, order := 2, narration := "b", imagePrompt := "",
    prosodyData := none, animationIn := "", animationShow := "",
    animationOut := "", imagePath := none,
    audioPath := some ["b.mp3"], startTimeMs := some 5000,
    endTimeMs := some 6000 }

def c2Results : List AudioResult :=
  [{ sceneId := 1, audioPath := ["a.mp3"], durationMs := 1000,
     wordBoundaries := [] }]

/-- C2: the unconditional contiguity `scene[i+1].startTimeMs ==
scene[i].endTimeMs` is refuted by a pre-timed scene following a freshly
timed one: the walk assigns scene 0 the span 0–1000 from its synthesized
duration, while scene 1 keeps its prior timing 5000–6000, so scene 1's
start differs from scene 0's end. -/
theorem c2_timing_contiguity_counterexample :
    (walkTiming c2Results [c2SceneA, c2SceneB] 0 true []).1.map
        Scene.startTimeMs = [some 0, some 5000] ∧
      (walkTiming c2Results [c2SceneA, c2SceneB] 0 true []).1.map
        Scene.endTimeMs = [some 1000, some 6000] ∧
      ¬ ((walkTiming c2Results [c2SceneA, c2SceneB] 0 true []).1.map
          Scene.startTimeMs)[1]?
        = ((walkTiming c2Results [c2SceneA, c2SceneB] 0 true []).1.map
          Scene.endTimeMs)[0]? := by
  decide

/-- C2 (amended): after the timing walk, (1) the output has one row per
scene; (2) a scene that already carries timing keeps its row unchanged (and
the walk advances the cursor to its `endTimeMs`, visible in (4)); (3) a
freshly timed scene `i` satisfies `endTimeMs = startTimeMs + durationMs` of
its audio result; (4) contiguity `scene[i+1].startTimeMs =
scene[i].endTimeMs` holds whenever scene `i+1` is freshly timed and scene
`i` either was pre-timed or received a result — but, per the
counterexample, not for a pre-timed scene following a fresh one, so the
spec's unconditional contiguity is corrected to this conditional form. -/
theorem c2_timing_contiguity (results : List AudioResult) (l : List Scene) :
    (walkTiming results l 0 true []).1.length = l.length ∧
      (∀ (i : ℕ) (sc : Scene), l[i]? = some sc → timed sc = true →
        (walkTiming results l 0 true []).1[i]? = some sc) ∧
      (∀ (i : ℕ) (sc : Scene) (r : AudioResult), l[i]? = some sc →
        timed sc = false →
        results.find? (fun x => x.sceneId == sc.sid) = some r →
        ∃ s, (walkTiming results l 0 true []).1[i]?
          = some { sc with audioPath := some r.audioPath,
                           startTimeMs := some s,
                           endTimeMs := some (s + r.durationMs) }) ∧
      (∀ (i : ℕ) (a b : Scene), l[i]? = some a → l[i + 1]? = some b →
        (timed a = true ∨
          (results.find? (fun x => x.sceneId == a.sid)).isSome = true) →
        timed b = false →
        (results.find? (fun x => x.sceneId == b.sid)).isSome = true →
        ∃ oa ob, (walkTiming results l 0 true []).1[i]? = some oa ∧
          (walkTiming results l 0 true []).1[i + 1]? = some ob ∧
          ob.startTimeMs = oa.endTimeMs) :=
  ⟨walkTiming_length results l 0 true [],
   fun i sc h1 h2 => walkTiming_keep_timed results l 0 true [] i sc h1 h2,
   fun i sc r h1 h2 h3 =>
     walkTiming_fresh_timing results l 0 true [] i sc r h1 h2 h3,
   fun i a b h1 h2 h3 h4 h5 =>
     walkTiming_adjacent results l 0 true [] i a b h1 h2 h3 h4 h5⟩

theorem c2_timing_contiguity_witness :
    (∃ s, (walkTiming c2Results [c2SceneA, c2SceneB] 0 true []).1[0]?
        = some { c2SceneA with audioPath := some ["a.mp3"],
                               startTimeMs := some s,
                               endTimeMs := some (s + 1000) }) ∧
      (walkTiming c2Results [c2SceneA, c2SceneB] 0 true []).1[1]?
        = some c2SceneB :=
  ⟨(c2_timing_contiguity c2Results [c2SceneA, c2SceneB]).2.2.1 0 c2SceneA
      ⟨1, ["a.mp3"], 1000, []⟩ (by decide) (by decide) (by decide),
   (c2_timing_contiguity c2Results [c2SceneA, c2SceneB]).2.1 1 c2SceneB
      (by decide) (by decide)⟩

/-- Whether one scene keeps the completeness flag alive in the walk: a
pre-timed scene clears it, a freshly synthesized scene clears it iff its
boundary list is empty, a scene with neither leaves it. -/
def wbOk (results : List AudioResult) (sc : Scene) : Bool :=
  if timed sc then false
  else
    match results.find? (fun r => r.sceneId == sc.sid) with
    | some r => r.wordBoundaries.length != 0
    | none => true

theorem walkTiming_hwb (results : List AudioResult) (l : List Scene) :
    ∀ (ct : ℤ) (hwb : Bool) (gwb : List SubtitleWordBoundary),
      (walkTiming results l ct hwb gwb).2.2.1
        = (hwb && l.all (wbOk results)) := by
  induction l with
  | nil => intro ct hwb gwb; simp [walkTiming]
  | cons sc rest ih =>
    intro ct hwb gwb
    by_cases h : timed sc = true
    · rw [walkTiming_cons_pre results sc rest ct hwb gwb h]
      simp [ih, wbOk, h]
    · have h' : timed sc = false := by simpa using h
      cases hf : results.find? (fun x => x.sceneId == sc.sid) with
      | some r =>
        rw [walkTiming_cons_found results sc rest ct hwb gwb r h' hf]
        cases hb : r.wordBoundaries.length != 0 with
        | true => simp [ih, wbOk, h', hf, hb]
        | false => simp [ih, wbOk, h', hf, hb]
      | none =>
        rw [walkTiming_cons_miss results sc rest ct hwb gwb h' hf]
        simp [ih, wbOk, h', hf]

theorem mkSceneCues_length (scenes : List Scene) :
    (mkSceneCues scenes).length = scenes.length := by
  simp [mkSceneCues]

theorem mkSceneCues_get (scenes : List Scene) (i : ℕ) (sc : Scene)
    (h : scenes[i]? = some sc) :
    (mkSceneCues scenes)[i]?
      = some ⟨i + 1, sc.startTimeMs, sc.endTimeMs, sc.narration⟩ := by
  simp [mkSceneCues, List.getElem?_enum, h]

theorem generateFullStory_error_eq (env : Env) (s0 : PState) (oe : ℕ × String)
    (hma : (maOf env s0).2.1 = .error oe) :
    generateFullStory env s0 = (errorState env s0 oe, callsOf env s0) := by
  unfold generateFullStory
  rw [hma]

theorem generateFullStory_ok_eq (env : Env) (s0 : PState)
    (results : List AudioResult)
    (hma : (maOf env s0).2.1 = .ok results) :
    generateFullStory env s0
      = (successState env s0 results, callsOf env s0) := by
  unfold generateFullStory
  rw [hma]

theorem errorState_status (env : Env) (s0 : PState) (oe : ℕ × String) :
    (errorState env s0 oe).project.status = .FAILED := rfl

theorem successState_srt (env : Env) (s0 : PState)
    (results : List AudioResult) :
    (successState env s0 results).srt
      = some (chooseSrt (wtOf env s0 results).2.2.1
          (wtOf env s0 results).2.2.2 (updatedScenesOf env s0 results)) := by
  simp [successState, logMessage, updatedScenesOf]

/-- C4: the subtitle mode is decided once per project.  If some scene's
synthesis produced no WordBoundary, the completeness flag ends `false`, the
mode decision takes the per-scene fallback, the emitted file has exactly
one cue per scene (N cues for N scenes), and cue `i` spans scene `i`'s
`startTimeMs`–`endTimeMs` with text the scene's narration.  Conversely
(last conjunct), whenever the decision emits word-timed cues, every scene
of the walk kept the flag alive — so a file never mixes word-level cues
for some scenes with scene-level cues for others (`SrtChoice` is one or
the other for the whole project). -/
theorem c4_subtitle_mode_exclusivity (results : List AudioResult)
    (l updatedScenes : List Scene) (sc : Scene) (r : AudioResult)
    (hmem : sc ∈ l)
    (hf : results.find? (fun x => x.sceneId == sc.sid) = some r)
    (hempty : r.wordBoundaries = []) :
    (walkTiming results l 0 true []).2.2.1 = false ∧
      chooseSrt (walkTiming results l 0 true []).2.2.1
        (walkTiming results l 0 true []).2.2.2 updatedScenes
        = .perScene (mkSceneCues updatedScenes) ∧
      (mkSceneCues updatedScenes).length = updatedScenes.length ∧
      (∀ (i : ℕ) (x : Scene), updatedScenes[i]? = some x →
        (mkSceneCues updatedScenes)[i]?
          = some ⟨i + 1, x.startTimeMs, x.endTimeMs, x.narration⟩) ∧
      (∀ (l' u : List Scene) (w : List SubtitleWordBoundary),
        chooseSrt (walkTiming results l' 0 true []).2.2.1
          (walkTiming results l' 0 true []).2.2.2 u = .words w →
        l'.all (wbOk results) = true) := by
  have hone : wbOk results sc = false := by
    rw [wbOk]
    by_cases h : timed sc = true
    · simp [h]
    · have h' : timed sc = false := by simpa using h
      simp [h', hf, hempty]
  have hfalse : (walkTiming results l 0 true []).2.2.1 = false := by
    rw [walkTiming_hwb]
    simp only [Bool.true_and]
    exact List.all_eq_false.mpr ⟨sc, hmem, by simp [hone]⟩
  refine ⟨hfalse, ?_, mkSceneCues_length updatedScenes,
    fun i x hx => mkSceneCues_get updatedScenes i x hx, ?_⟩
  · rw [hfalse]
    simp [chooseSrt]
  · intro l' u w hch
    rw [chooseSrt] at hch
    by_cases hc : ((walkTiming results l' 0 true []).2.2.1
        && (walkTiming results l' 0 true []).2.2.2.length != 0) = true
    · have := hc
      rw [Bool.and_eq_true] at this
      have hw : (walkTiming results l' 0 true []).2.2.1 = true := this.1
      rw [walkTiming_hwb] at hw
      simpa using hw
    · rw [if_neg hc] at hch
      exact absurd hch (by simp)

theorem c4_subtitle_mode_exclusivity_witness :
    (walkTiming c2Results [c2SceneA] 0 true []).2.2.1 = false ∧
      chooseSrt (walkTiming c2Results [c2SceneA] 0 true []).2.2.1
        (walkTiming c2Results [c2SceneA] 0 true []).2.2.2 [c2SceneA]
        = .perScene (mkSceneCues [c2SceneA]) ∧
      (mkSceneCues [c2SceneA]).length = [c2SceneA].length ∧
      (∀ (i : ℕ) (x : Scene), [c2SceneA][i]? = some x →
        (mkSceneCues [c2SceneA])[i]?
          = some ⟨i + 1, x.startTimeMs, x.endTimeMs, x.narration⟩) ∧
      (∀ (l' u : List Scene) (w : List SubtitleWordBoundary),
        chooseSrt (walkTiming c2Results l' 0 true []).2.2.1
          (walkTiming c2Results l' 0 true []).2.2.2 u = .words w →
        l'.all (wbOk c2Results) = true) :=
  c4_subtitle_mode_exclusivity c2Results [c2SceneA] [c2SceneA] c2SceneA
    ⟨1, ["a.mp3"], 1000, []⟩ (by decide) (by decide) (by decide)

/-- C9 (implicit): resumption forces scene-timed subtitles.  If a run of
`generateFullStory` completes and its media snapshot holds a scene that
already carries `startTimeMs`/`endTimeMs` from a prior run (the walk skips
such a scene; in program-reachable states these are exactly the scenes
whose audio already exists, since `audioPath` and the timing columns are
written by the same update), then the walk's completeness flag is cleared
for the whole project and the emitted subtitle file is the per-scene
fallback — even when every synthesis of this run produced word
boundaries. -/
theorem c9_resumption_forces_scene_cues (env : Env) (s0 : PState)
    (sc : Scene) (hmem : sc ∈ scenesForMediaOf env s0)
    (htm : timed sc = true)
    (hsucc : (generateFullStory env s0).1.project.status = .COMPLETED) :
    ∃ results, (maOf env s0).2.1 = .ok results ∧
      (generateFullStory env s0).1.srt
        = some (SrtChoice.perScene
            (mkSceneCues (updatedScenesOf env s0 results))) := by
  cases hma : (maOf env s0).2.1 with
  | error oe =>
    exfalso
    rw [generateFullStory_error_eq env s0 oe hma] at hsucc
    rw [errorState_status] at hsucc
    exact StoryStatus.noConfusion hsucc
  | ok results =>
    refine ⟨results, rfl, ?_⟩
    rw [generateFullStory_ok_eq env s0 results hma]
    rw [successState_srt]
    have hfalse : (wtOf env s0 results).2.2.1 = false := by
      rw [wtOf, walkTiming_hwb]
      simp only [Bool.true_and]
      exact List.all_eq_false.mpr ⟨sc, hmem, by simp [wbOk, htm]⟩
    rw [hfalse]
    simp [chooseSrt]

/-- An oracle whose collaborators are never needed by the resumed run. -/
def env9 : Env :=
  { metaTitle := "t", narrations := [], characters := "c",
    imagePromptsBatch := fun _ => [],
    animationsFor := fun _ => ("", "", ""),
    tts := fun _ _ => .error "x" }

/-- A scene fully produced by a prior run: prompt, prosody, media files on
disk and timing all present. -/
def sc9 : Scene :=
  { sid := 1, order := 1, narration := "a", imagePrompt := "x",
    prosodyData := some [], animationIn := "", animationShow := "",
    animationOut := "",
    imagePath := some ["./storage/images", "s", "scene_1.jpg"],
    audioPath := some ["./storage/audio", "s", "scene_1.mp3"],
    startTimeMs := some 0, endTimeMs := some 1000 }

def proj9 : Project :=
  { pid := "p", projectSlug := "s", status := .COMPLETED,
    titleGenerated := "t", characterDescriptions := "c",
    contentType := "story", topic := "", videoPath := none,
    srtPath := none }

def s9 : PState :=
  { project := proj9,
    scenes := [sc9],
    fs := [["./storage/images", "s", "scene_1.jpg"],
           ["./storage/audio", "s", "scene_1.mp3"]],
    logs := [], srt := none, nextId := 0 }

theorem c9_resumption_forces_scene_cues_witness :
    ∃ results, (maOf env9 s9).2.1 = .ok results ∧
      (generateFullStory env9 s9).1.srt
        = some (SrtChoice.perScene
            (mkSceneCues (updatedScenesOf env9 s9 results))) :=
  c9_resumption_forces_scene_cues env9 s9 sc9 (by decide) (by decide)
    (by decide)

/-! #### The failure path (C5) -/

theorem ttsRetry_exhausted (env : Env) (o : ℕ) (e1 e2 e3 : String)
    (h1 : env.tts o 1 = .error e1) (h2 : env.tts o 2 = .error e2)
    (h3 : env.tts o 3 = .error e3) :
    ttsRetry env o = (.error e3, 3, [2000 * 1, 2000 * 2]) := by
  rw [ttsRetry, h1, h2, h3]

theorem audioBatch_error (env : Env) (slug : String) (pre : List Scene)
    (sk : Scene) (post : List Scene) (e : String)
    (hpre : ∀ sc ∈ pre, ∃ r, (ttsRetry env sc.order).1 = .ok r)
    (hsk : (ttsRetry env sk.order).1 = .error e) :
    (audioBatch env slug (pre ++ sk :: post)).1 = .error (sk.order, e) ∧
      (audioBatch env slug (pre ++ sk :: post)).2.1
        = pre.map (fun sc => audioPathFor slug sc.order) := by
  induction pre with
  | nil =>
    constructor
    · simp only [List.nil_append]
      rw [audioBatch]
      simp [hsk]
    · simp only [List.nil_append]
      rw [audioBatch]
      simp [hsk]
  | cons p pre' ih =>
    obtain ⟨rp, hrp⟩ := hpre p (by simp)
    have ih' := ih (fun sc hsc => hpre sc (by simp [hsc]))
    constructor
    · simp only [List.cons_append]
      rw [audioBatch]
      simp [hrp, ih'.1]
    · simp only [List.cons_append]
      rw [audioBatch]
      simp [hrp, ih'.1, ih'.2]

theorem stageMetadata_fs (env : Env) (st : PState) :
    (stageMetadata env st).1.fs = st.fs := by
  rw [stageMetadata]
  split
  · simp [logMessage]
  · rfl

theorem createScenes_fs (env : Env) (st : PState) :
    (createScenes env st).fs = st.fs := by
  simp [createScenes, logMessage]

theorem stageNarrations_fs (env : Env) (st : PState) :
    (stageNarrations env st).1.fs = st.fs := by
  rw [stageNarrations]
  split
  · exact createScenes_fs env st
  · split
    · exact createScenes_fs env st
    · rfl

theorem stageCharacters_fs (env : Env) (st : PState) :
    (stageCharacters env st).1.fs = st.fs := by
  rw [stageCharacters]
  split
  all_goals rfl

theorem stagePrompts_fs (env : Env) (st : PState) :
    (stagePrompts env st).1.fs = st.fs := by
  rw [stagePrompts]
  split
  · simp [logMessage]
  · rfl

theorem stageProsody_fs (env : Env) (st : PState) :
    (stageProsody env st).1.fs = st.fs := by
  rw [stageProsody]
  split
  · simp [logMessage]
  · rfl

theorem preMedia_fs (env : Env) (s0 : PState) :
    (preMedia env s0).1.fs = s0.fs := by
  rw [preMedia]
  simp only [stageProsody_fs, stagePrompts_fs, stageCharacters_fs,
    stageNarrations_fs, stageMetadata_fs]

theorem st6Of_fs (env : Env) (s0 : PState) :
    (st6Of env s0).fs = s0.fs := by
  simp [st6Of, logMessage, preMedia_fs]

theorem ipOf_fs (env : Env) (s0 : PState) :
    (ipOf env s0).1.fs = s0.fs ++ (needImgsOf env s0).map
      (fun sc => imagePathFor (fileSlug (st6Of env s0).project) sc.order) := by
  rw [ipOf, imagesPart]
  split
  · simp [logMessage, st6Of_fs]
  · simp [st6Of_fs]

theorem maOf_parts (env : Env) (s0 : PState)
    (hne : (needAudOf env s0).isEmpty = false) :
    (maOf env s0).2.1 = (audioBatch env (fileSlug (st6Of env s0).project)
        (needAudOf env s0)).1 ∧
      (maOf env s0).1.fs = (ipOf env s0).1.fs
        ++ (audioBatch env (fileSlug (st6Of env s0).project)
            (needAudOf env s0)).2.1 ∧
      (maOf env s0).1.scenes = (ipOf env s0).1.scenes := by
  rw [maOf, mediaAudio, if_neg (by simp [hne])]
  refine ⟨?_, ?_, ?_⟩
  all_goals simp [logMessage]

theorem errorState_parts (env : Env) (s0 : PState) (oe : ℕ × String) :
    (errorState env s0 oe).logs = (maOf env s0).1.logs
        ++ [⟨"ERROR", "GENERATION_FAILED",
            "TTS generation failed for scene " ++ toString oe.1
              ++ ": " ++ oe.2⟩] ∧
      (errorState env s0 oe).fs = (maOf env s0).1.fs ∧
      (errorState env s0 oe).scenes = (maOf env s0).1.scenes := by
  refine ⟨?_, ?_, ?_⟩
  all_goals simp [errorState, logMessage]

/-- C5: bounded retry then atomic failure.  A scene whose synthesis fails
on all 3 attempts is retried exactly `maxRetries = 3` times with the
growing delays `2000·1` and `2000·2` ms between attempts; the enqueued unit
then throws an error naming that scene, the run ends with the project in
`FAILED` status and an `ERROR`/`GENERATION_FAILED` log entry carrying the
scene's order, while every file present before the run — in particular an
earlier scene's audio file — is still present afterwards, the audio files
written for the scenes synthesized before the failing one are on disk, and
the scene rows are exactly as the last succeeded stage left them (the
`catch` deletes and modifies nothing). -/
theorem c5_bounded_retry_atomic_failure (env : Env) (s0 : PState)
    (pre : List Scene) (sk : Scene) (post : List Scene) (e1 e2 e3 : String)
    (hsplit : needAudOf env s0 = pre ++ sk :: post)
    (hpre : ∀ sc ∈ pre, ∃ r, (ttsRetry env sc.order).1 = .ok r)
    (h1 : env.tts sk.order 1 = .error e1)
    (h2 : env.tts sk.order 2 = .error e2)
    (h3 : env.tts sk.order 3 = .error e3) :
    ttsRetry env sk.order = (.error e3, 3, [2000 * 1, 2000 * 2]) ∧
      (generateFullStory env s0).1.project.status = .FAILED ∧
      (⟨"ERROR", "GENERATION_FAILED",
        "TTS generation failed for scene " ++ toString sk.order
          ++ ": " ++ e3⟩ : LogEntry) ∈ (generateFullStory env s0).1.logs ∧
      (∀ p ∈ s0.fs, p ∈ (generateFullStory env s0).1.fs) ∧
      (∀ sc ∈ pre, audioPathFor (fileSlug (st6Of env s0).project) sc.order
        ∈ (generateFullStory env s0).1.fs) ∧
      (generateFullStory env s0).1.scenes = (ipOf env s0).1.scenes := by
  have hretry := ttsRetry_exhausted env sk.order e1 e2 e3 h1 h2 h3
  have hsk : (ttsRetry env sk.order).1 = .error e3 := by rw [hretry]
  have hne : (needAudOf env s0).isEmpty = false := by
    rw [hsplit]
    simp
  obtain ⟨hmares, hmafs, hmasc⟩ := maOf_parts env s0 hne
  have hab := audioBatch_error env (fileSlug (st6Of env s0).project)
    pre sk post e3 hpre hsk
  have hma : (maOf env s0).2.1 = .error (sk.order, e3) := by
    rw [hmares, hsplit, hab.1]
  have hrun := generateFullStory_error_eq env s0 (sk.order, e3) hma
  obtain ⟨helogs, hefs, hesc⟩ := errorState_parts env s0 (sk.order, e3)
  refine ⟨hretry, ?_, ?_, ?_, ?_, ?_⟩
  · rw [hrun]
    exact errorState_status env s0 (sk.order, e3)
  · rw [hrun]
    simp only [helogs]
    simp
  · intro p hp
    rw [hrun]
    simp only [hefs, hmafs, ipOf_fs]
    simp [hp]
  · intro sc hsc
    rw [hrun]
    simp only [hefs, hmafs, ipOf_fs, hsplit, hab.2]
    refine List.mem_append.mpr (Or.inr ?_)
    exact List.mem_map.mpr ⟨sc, hsc, rfl⟩
  · rw [hrun]
    simp only [hesc, hmasc]

/-- An oracle for which scene 1's synthesis succeeds and scene 2's throws
on every attempt. -/
def env5 : Env :=
  { metaTitle := "t", narrations := [], characters := "c",
    imagePromptsBatch := fun _ => [],
    animationsFor := fun _ => ("", "", ""),
    tts := fun o _ => if o == 1 then .ok ⟨1000, []⟩ else .error "boom" }

def sc5a : Scene :=
  { sid := 1, order := 1, narration := "a", imagePrompt := "x",
    prosodyData := some [], animationIn := "", animationShow := "",
    animationOut := "",
    imagePath := some ["./storage/images", "s", "scene_1.jpg"],
    audioPath := none, startTimeMs := none, endTimeMs := none }

def sc5b : Scene :=
  { sid := 2, order := 2, narration := "b", imagePrompt := "x",
    prosodyData := some [], animationIn := "", animationShow := "",
    animationOut := "",
    imagePath := some ["./storage/images", "s", "scene_2.jpg"],
    audioPath := none, startTimeMs := none, endTimeMs := none }

def s5 : PState :=
  { project := proj9,
    scenes := [sc5a, sc5b],
    fs := [["./storage/images", "s", "scene_1.jpg"],
           ["./storage/images", "s", "scene_2.jpg"]],
    logs := [], srt := none, nextId := 0 }

theorem c5_bounded_retry_atomic_failure_witness :
    ttsRetry env5 sc5b.order = (.error "boom", 3, [2000 * 1, 2000 * 2]) ∧
      (generateFullStory env5 s5).1.project.status = .FAILED ∧
      (⟨"ERROR", "GENERATION_FAILED",
        "TTS generation failed for scene " ++ toString sc5b.order
          ++ ": " ++ "boom"⟩ : LogEntry)
        ∈ (generateFullStory env5 s5).1.logs ∧
      (∀ p ∈ s5.fs, p ∈ (generateFullStory env5 s5).1.fs) ∧
      (∀ sc ∈ [sc5a],
        audioPathFor (fileSlug (st6Of env5 s5).project) sc.order
          ∈ (generateFullStory env5 s5).1.fs) ∧
      (generateFullStory env5 s5).1.scenes = (ipOf env5 s5).1.scenes :=
  c5_bounded_retry_atomic_failure env5 s5 [sc5a] sc5b [] "boom" "boom" "boom"
    (by decide)
    (fun sc hsc => by
      have h : sc = sc5a := by simpa using hsc
      subst h
      exact ⟨⟨1000, []⟩, rfl⟩)
    rfl rfl rfl

/-! #### Idempotent resumption (C1)

The scene table only ever evolves by keyed field updates (`updScene`, a
`map`) and one append (scene creation), so per-scene properties are
transported by map lemmas; the establishment of a property by one of the
update loops is the generic `foldl_upd_estab`. -/

theorem map_mem_pres {P : Scene → Prop} (F : Scene → Scene) (l : List Scene)
    (h0 : ∀ y ∈ l, P y) (hF : ∀ s, P s → P (F s)) :
    ∀ x ∈ l.map F, P x := by
  intro x hx
  obtain ⟨y, hy, hyx⟩ := List.mem_map.mp hx
  rw [← hyx]
  exact hF y (h0 y hy)

theorem foldl_upd_estab {β : Type} (steps : List β) (k : β → Option Scene)
    (g : β → Scene → Scene) (Q : Scene → Prop)
    (hQg : ∀ b ∈ steps, ∀ s, Q (g b s)) :
    ∀ l0 : List Scene,
      (∀ s ∈ l0, ¬ Q s → ∃ b ∈ steps, ∃ t, k b = some t ∧ t.sid = s.sid) →
      ∀ x ∈ steps.foldl (fun l b =>
          match k b with
          | some t => updScene t.sid (g b) l
          | none => l) l0, Q x := by
  induction steps with
  | nil =>
    intro l0 hcover x hx
    simp only [List.foldl_nil] at hx
    by_contra hq
    obtain ⟨b, hb, _⟩ := hcover x hx hq
    exact absurd hb (List.not_mem_nil b)
  | cons b bs ih =>
    intro l0 hcover x hx
    simp only [List.foldl_cons] at hx
    refine ih (fun b' hb' s => hQg b' (by simp [hb']) s) _ ?_ x hx
    intro s hs hq
    cases hk : k b with
    | none =>
      rw [hk] at hs
      obtain ⟨b', hb', hkb'⟩ := hcover s hs hq
      rcases List.mem_cons.mp hb' with rfl | hb'
      · rw [hk] at hkb'
        obtain ⟨t, ht, _⟩ := hkb'
        exact absurd ht (by simp)
      · exact ⟨b', hb', hkb'⟩
    | some t =>
      rw [hk] at hs
      simp only [updScene] at hs
      obtain ⟨y, hy, hyeq⟩ := List.mem_map.mp hs
      by_cases hsid : (y.sid == t.sid) = true
      · rw [if_pos hsid] at hyeq
        exact absurd (hyeq ▸ hQg b (by simp) y) hq
      · rw [if_neg hsid] at hyeq
        rw [← hyeq] at hq ⊢
        obtain ⟨b', hb', hkb'⟩ := hcover y hy hq
        rcases List.mem_cons.mp hb' with rfl | hb'
        · obtain ⟨t', ht', htsid⟩ := hkb'
          rw [hk] at ht'
          injection ht' with htt
          rw [← htt] at htsid
          exact absurd (by simp [htsid]) hsid
        · exact ⟨b', hb', hkb'⟩

theorem foldl_upd_pres {β : Type} (steps : List β) (k : β → Option Scene)
    (g : β → Scene → Scene) (P : Scene → Prop)
    (hg : ∀ b ∈ steps, ∀ s, P s → P (g b s)) :
    ∀ l0 : List Scene, (∀ s ∈ l0, P s) →
      ∀ x ∈ steps.foldl (fun l b =>
          match k b with
          | some t => updScene t.sid (g b) l
          | none => l) l0, P x := by
  induction steps with
  | nil =>
    intro l0 h0 x hx
    simp only [List.foldl_nil] at hx
    exact h0 x hx
  | cons b bs ih =>
    intro l0 h0 x hx
    simp only [List.foldl_cons] at hx
    refine ih (fun b' hb' s hs => hg b' (by simp [hb']) s hs) _ ?_ x hx
    intro s hs
    cases hk : k b with
    | none =>
      rw [hk] at hs
      exact h0 s hs
    | some t =>
      rw [hk] at hs
      simp only [updScene] at hs
      obtain ⟨y, hy, hyeq⟩ := List.mem_map.mp hs
      rw [← hyeq]
      by_cases hsid : (y.sid == t.sid) = true
      · rw [if_pos hsid]
        exact hg b (by simp) y (h0 y hy)
      · rw [if_neg hsid]
        exact h0 y hy

theorem updScene_map_field {γ : Type} (f : Scene → γ) (i : ℕ)
    (u : Scene → Scene) (l : List Scene) (hu : ∀ s, f (u s) = f s) :
    (updScene i u l).map f = l.map f := by
  simp only [updScene, List.map_map]
  refine List.map_congr_left (fun s _ => ?_)
  by_cases h : (s.sid == i) = true
  · simp only [Function.comp_apply, if_pos h]
    exact hu s
  · simp only [Function.comp_apply, if_neg h]

theorem foldl_upd_map_field {β γ : Type} (f : Scene → γ) (steps : List β)
    (k : β → Option Scene) (g : β → Scene → Scene)
    (hg : ∀ b ∈ steps, ∀ s, f (g b s) = f s) :
    ∀ l0 : List Scene,
      (steps.foldl (fun l b =>
          match k b with
          | some t => updScene t.sid (g b) l
          | none => l) l0).map f = l0.map f := by
  induction steps with
  | nil => intro l0; rfl
  | cons b bs ih =>
    intro l0
    simp only [List.foldl_cons]
    rw [ih (fun b' hb' s => hg b' (by simp [hb']) s)]
    cases hk : k b with
    | none => rfl
    | some t => exact updScene_map_field f t.sid (g b) l0 (hg b (by simp))

theorem foldl_upd_length {β : Type} (steps : List β) (k : β → Option Scene)
    (g : β → Scene → Scene) :
    ∀ l0 : List Scene,
      (steps.foldl (fun l b =>
          match k b with
          | some t => updScene t.sid (g b) l
          | none => l) l0).length = l0.length := by
  induction steps with
  | nil => intro l0; rfl
  | cons b bs ih =>
    intro l0
    simp only [List.foldl_cons]
    rw [ih]
    cases hk : k b with
    | none => rfl
    | some t => simp [updScene]

theorem forall₂_mem_left {α β : Type} {R : α → β → Prop} :
    ∀ {l₁ : List α} {l₂ : List β}, List.Forall₂ R l₁ l₂ →
      ∀ a ∈ l₁, ∃ b ∈ l₂, R a b := by
  intro l₁ l₂ h
  induction h with
  | nil => intro a ha; simp at ha
  | cons hR _ ih =>
    intro a ha
    rcases List.mem_cons.mp ha with rfl | ha
    · exact ⟨_, by simp, hR⟩
    · obtain ⟨b, hb, hRb⟩ := ih a ha
      exact ⟨b, by simp [hb], hRb⟩

theorem forall₂_mem_right {α β : Type} {R : α → β → Prop} :
    ∀ {l₁ : List α} {l₂ : List β}, List.Forall₂ R l₁ l₂ →
      ∀ b ∈ l₂, ∃ a ∈ l₁, R a b := by
  intro l₁ l₂ h
  induction h with
  | nil => intro b hb; simp at hb
  | cons hR _ ih =>
    intro b hb
    rcases List.mem_cons.mp hb with rfl | hb
    · exact ⟨_, by simp, hR⟩
    · obtain ⟨a, ha, hRa⟩ := ih b hb
      exact ⟨a, by simp [ha], hRa⟩

theorem foldl_erase_mem (rem : List Path) :
    ∀ fs : List Path, ∀ p ∈ fs, (∀ q ∈ rem, p ≠ q) →
      p ∈ rem.foldl (fun f q => f.erase q) fs := by
  induction rem with
  | nil => intro fs p hp _; simpa using hp
  | cons q rem' ih =>
    intro fs p hp hne
    simp only [List.foldl_cons]
    refine ih _ p ?_ (fun q' hq' => hne q' (by simp [hq']))
    exact (List.mem_erase_of_ne (hne q (by simp))).mpr hp

theorem audioBatch_ok_spec (env : Env) (slug : String) :
    ∀ (l : List Scene) (results : List AudioResult),
      (audioBatch env slug l).1 = .ok results →
      (audioBatch env slug l).2.1
          = l.map (fun sc => audioPathFor slug sc.order) ∧
        List.Forall₂ (fun (sc : Scene) (r : AudioResult) =>
          r.sceneId = sc.sid ∧ r.audioPath = audioPathFor slug sc.order)
          l results := by
  intro l
  induction l with
  | nil =>
    intro results h
    rw [audioBatch] at h
    simp only [Except.ok.injEq] at h
    rw [← h]
    exact ⟨rfl, List.Forall₂.nil⟩
  | cons sc rest ih =>
    intro results h
    cases hr : (ttsRetry env sc.order).1 with
    | error e =>
      rw [audioBatch] at h
      simp [hr] at h
    | ok res =>
      cases hrec : (audioBatch env slug rest).1 with
      | error oe =>
        rw [audioBatch] at h
        simp [hr, hrec] at h
      | ok results' =>
        rw [audioBatch] at h
        simp only [hr, hrec, Except.ok.injEq] at h
        obtain ⟨ih1, ih2⟩ := ih results' hrec
        constructor
        · rw [audioBatch]
          simp [hr, ih1]
        · rw [← h]
          exact List.Forall₂.cons ⟨rfl, rfl⟩ ih2

theorem walkTiming_sid (results : List AudioResult) (l : List Scene) :
    ∀ ct hwb gwb,
      List.Forall₂ (fun (a x : Scene) => x.sid = a.sid ∧ x.order = a.order)
        l (walkTiming results l ct hwb gwb).1 := by
  induction l with
  | nil => intro ct hwb gwb; exact List.Forall₂.nil
  | cons sc rest ih =>
    intro ct hwb gwb
    by_cases h : timed sc = true
    · rw [walkTiming_cons_pre results sc rest ct hwb gwb h]
      exact List.Forall₂.cons ⟨rfl, rfl⟩ (ih _ _ _)
    · have h' : timed sc = false := by simpa using h
      cases hf : results.find? (fun x => x.sceneId == sc.sid) with
      | some r =>
        rw [walkTiming_cons_found results sc rest ct hwb gwb r h' hf]
        exact List.Forall₂.cons ⟨rfl, rfl⟩ (ih _ _ _)
      | none =>
        rw [walkTiming_cons_miss results sc rest ct hwb gwb h' hf]
        exact List.Forall₂.cons ⟨rfl, rfl⟩ (ih _ _ _)

theorem walkTiming_out_mem (results : List AudioResult) (l : List Scene) :
    ∀ ct hwb gwb x, x ∈ (walkTiming results l ct hwb gwb).1 →
      (x ∈ l ∧ (timed x = true ∨
        results.find? (fun r => r.sceneId == x.sid) = none)) ∨
      (∃ sc ∈ l, ∃ r, results.find? (fun r' => r'.sceneId == sc.sid) = some r
        ∧ x.audioPath = some r.audioPath) := by
  induction l with
  | nil => intro ct hwb gwb x hx; simp [walkTiming] at hx
  | cons sc rest ih =>
    intro ct hwb gwb x hx
    by_cases h : timed sc = true
    · rw [walkTiming_cons_pre results sc rest ct hwb gwb h] at hx
      rcases List.mem_cons.mp hx with rfl | hx
      · exact Or.inl ⟨by simp, Or.inl h⟩
      · rcases ih _ _ _ x hx with ⟨hm, hc⟩ | ⟨sc', hsc', r, hr, hap⟩
        · exact Or.inl ⟨by simp [hm], hc⟩
        · exact Or.inr ⟨sc', by simp [hsc'], r, hr, hap⟩
    · have h' : timed sc = false := by simpa using h
      cases hf : results.find? (fun r => r.sceneId == sc.sid) with
      | some r =>
        rw [walkTiming_cons_found results sc rest ct hwb gwb r h' hf] at hx
        rcases List.mem_cons.mp hx with rfl | hx
        · exact Or.inr ⟨sc, by simp, r, hf, rfl⟩
        · rcases ih _ _ _ x hx with ⟨hm, hc⟩ | ⟨sc', hsc', r2, hr2, hap⟩
          · exact Or.inl ⟨by simp [hm], hc⟩
          · exact Or.inr ⟨sc', by simp [hsc'], r2, hr2, hap⟩
      | none =>
        rw [walkTiming_cons_miss results sc rest ct hwb gwb h' hf] at hx
        rcases List.mem_cons.mp hx with rfl | hx
        · exact Or.inl ⟨by simp, Or.inr hf⟩
        · rcases ih _ _ _ x hx with ⟨hm, hc⟩ | ⟨sc', hsc', r2, hr2, hap⟩
          · exact Or.inl ⟨by simp [hm], hc⟩
          · exact Or.inr ⟨sc', by simp [hsc'], r2, hr2, hap⟩

theorem sortScenes_perm (l : List Scene) : List.Perm (sortScenes l) l :=
  List.perm_insertionSort _ l

theorem mem_sortScenes {sc : Scene} {l : List Scene} :
    sc ∈ sortScenes l ↔ sc ∈ l :=
  (sortScenes_perm l).mem_iff

theorem sortScenes_ne_nil {l : List Scene} (h : l ≠ []) :
    sortScenes l ≠ [] := by
  intro he
  have hp := sortScenes_perm l
  rw [he] at hp
  exact h hp.symm.eq_nil

theorem existsSync_true {fs : List Path} {p : Path} (h : p ∈ fs) :
    existsSync fs p = true := by
  simpa [existsSync] using h

/-- Oracle assumptions under which a run's outputs satisfy the resume
guards: generated titles, narrations, character descriptions and trimmed
image prompts are nonempty (truthy), the narration batch is nonempty with
distinct orders, and the image-prompt batch returns a result for every
requested order. -/
def EnvOK (env : Env) : Prop :=
  truthy env.metaTitle = true ∧
    env.narrations ≠ [] ∧
    (∀ p ∈ env.narrations, truthy p.2 = true) ∧
    (env.narrations.map Prod.fst).Nodup ∧
    truthy env.characters = true ∧
    (∀ q r, r ∈ env.imagePromptsBatch q → truthy (jsTrim r.2) = true) ∧
    (∀ q p, p ∈ q → ∃ r ∈ env.imagePromptsBatch q, r.1 = p.1)

/-- Programme-reachable well-formedness of the stored state: scene orders
are distinct, narrations are truthy (scene rows are only created from
generated narrations), media paths are the canonical per-order paths the
pipeline itself writes, and a scene carrying timing carries its audio path
(both are written by the same update). -/
def WFState (st : PState) : Prop :=
  (st.scenes.map Scene.order).Nodup ∧
    (∀ sc ∈ st.scenes, truthy sc.narration = true) ∧
    (∀ sc ∈ st.scenes, ∀ q, sc.audioPath = some q →
      q = audioPathFor (fileSlug st.project) sc.order) ∧
    (∀ sc ∈ st.scenes, timed sc = true → sc.audioPath.isSome = true) ∧
    (∀ sc ∈ st.scenes, ∀ p, sc.imagePath = some p →
      p = imagePathFor (fileSlug st.project) sc.order)

/-- The scene columns that no update loop of Steps 3–5 writes. -/
structure SceneObs where
  sid : ℕ
  order : ℕ
  narration : String
  imagePath : Option Path
  audioPath : Option Path
  startTimeMs : Option ℤ
  endTimeMs : Option ℤ

def obs0 (s : Scene) : SceneObs :=
  ⟨s.sid, s.order, s.narration, s.imagePath, s.audioPath, s.startTimeMs,
   s.endTimeMs⟩

theorem map_eq_mem {γ : Type} (f : Scene → γ) {l l' : List Scene}
    (he : l'.map f = l.map f) : ∀ x ∈ l', ∃ y ∈ l, f x = f y := by
  intro x hx
  have hm : f x ∈ l'.map f := List.mem_map_of_mem f hx
  rw [he] at hm
  obtain ⟨y, hy, hee⟩ := List.mem_map.mp hm
  exact ⟨y, hy, hee.symm⟩

theorem stageMetadata_state (env : Env) (st : PState)
    (henvT : truthy env.metaTitle = true) :
    (stageMetadata env st).1.scenes = st.scenes ∧
      (stageMetadata env st).1.nextId = st.nextId ∧
      (stageMetadata env st).1.project.projectSlug = st.project.projectSlug ∧
      (stageMetadata env st).1.project.pid = st.project.pid ∧
      (stageMetadata env st).1.project.characterDescriptions
        = st.project.characterDescriptions ∧
      (stageMetadata env st).1.project.contentType = st.project.contentType ∧
      truthy (stageMetadata env st).1.project.titleGenerated = true := by
  rw [stageMetadata]
  split
  · exact ⟨rfl, rfl, rfl, rfl, rfl, rfl, henvT⟩
  · rename_i h
    refine ⟨rfl, rfl, rfl, rfl, rfl, rfl, ?_⟩
    simp only [Bool.or_eq_true, Bool.not_eq_true', not_or] at h
    simpa using h.2

theorem createScenes_state (env : Env) (st : PState) :
    (createScenes env st).scenes
        = st.scenes ++ env.narrations.enum.map
            (fun p => mkScene (st.nextId + p.1) p.2.1 p.2.2) ∧
      (createScenes env st).project.projectSlug = st.project.projectSlug ∧
      (createScenes env st).project.pid = st.project.pid ∧
      (createScenes env st).project.characterDescriptions
        = st.project.characterDescriptions ∧
      (createScenes env st).project.contentType = st.project.contentType ∧
      (createScenes env st).project.titleGenerated
        = st.project.titleGenerated :=
  ⟨rfl, rfl, rfl, rfl, rfl, rfl⟩

theorem stageNarrations_state (env : Env) (st : PState)
    (hn : ∀ sc ∈ st.scenes, truthy sc.narration = true) :
    (stageNarrations env st = (st, 0) ∧ st.scenes ≠ []) ∨
      (st.scenes = [] ∧ (stageNarrations env st).1 = createScenes env st) := by
  cases hs : sortScenes st.scenes with
  | nil =>
    right
    have hnil : st.scenes = [] := by
      have hp := sortScenes_perm st.scenes
      rw [hs] at hp
      exact hp.symm.eq_nil
    refine ⟨hnil, ?_⟩
    rw [stageNarrations, hs]
  | cons sc rest =>
    left
    have hmem : sc ∈ st.scenes := mem_sortScenes.mp (by rw [hs]; simp)
    constructor
    · rw [stageNarrations, hs]
      simp [hn sc hmem]
    · intro he
      rw [he] at hs
      exact absurd hs (by simp [sortScenes])

theorem stageCharacters_state (env : Env) (st : PState)
    (henvC : truthy env.characters = true) :
    (stageCharacters env st).1.scenes = st.scenes ∧
      (stageCharacters env st).1.nextId = st.nextId ∧
      (stageCharacters env st).1.project.projectSlug
        = st.project.projectSlug ∧
      (stageCharacters env st).1.project.pid = st.project.pid ∧
      (stageCharacters env st).1.project.titleGenerated
        = st.project.titleGenerated ∧
      (stageCharacters env st).1.project.contentType
        = st.project.contentType ∧
      (truthy (stageCharacters env st).1.project.characterDescriptions = true
        ∨ contentTypeOf (stageCharacters env st).1.project ≠ "story") := by
  rw [stageCharacters]
  split
  · exact ⟨rfl, rfl, rfl, rfl, rfl, rfl, Or.inl henvC⟩
  · rename_i h
    refine ⟨rfl, rfl, rfl, rfl, rfl, rfl, ?_⟩
    by_cases ht : truthy st.project.characterDescriptions = true
    · exact Or.inl ht
    · right
      have ht' : truthy st.project.characterDescriptions = false := by
        simpa using ht
      simp only [ht', Bool.not_false, Bool.true_and] at h
      simpa using h

theorem applyPromptResults_obs (missing : List Scene)
    (batch : List (ℕ × String)) (scenes : List Scene) :
    (applyPromptResults missing batch scenes).map
        (fun s => (obs0 s, s.prosodyData))
      = scenes.map (fun s => (obs0 s, s.prosodyData)) :=
  foldl_upd_map_field (fun s => (obs0 s, s.prosodyData)) batch
    (fun r => missing.find? (fun s => s.order == r.1))
    (fun r s => { s with imagePrompt := jsTrim r.2 })
    (fun _ _ _ => rfl) scenes

theorem stagePrompts_spec (env : Env) (st : PState)
    (henvB1 : ∀ q r, r ∈ env.imagePromptsBatch q →
      truthy (jsTrim r.2) = true)
    (henvB2 : ∀ q p, p ∈ q → ∃ r ∈ env.imagePromptsBatch q, r.1 = p.1)
    (hord : (st.scenes.map Scene.order).Nodup) :
    (stagePrompts env st).1.scenes.map (fun s => (obs0 s, s.prosodyData))
        = st.scenes.map (fun s => (obs0 s, s.prosodyData)) ∧
      (stagePrompts env st).1.project = st.project ∧
      (stagePrompts env st).1.nextId = st.nextId ∧
      (∀ x ∈ (stagePrompts env st).1.scenes,
        truthy x.imagePrompt = true) := by
  rw [stagePrompts]
  split
  · refine ⟨applyPromptResults_obs _ _ _, rfl, rfl, ?_⟩
    intro x hx
    have hx' : x ∈ (env.imagePromptsBatch
        (((sortScenes st.scenes).filter (fun u => !truthy u.imagePrompt)).map
          (fun u => (u.order, u.narration)))).foldl
        (fun l r =>
          match ((sortScenes st.scenes).filter
              (fun u => !truthy u.imagePrompt)).find?
              (fun s => s.order == r.1) with
          | some t => updScene t.sid
              (fun s => { s with imagePrompt := jsTrim r.2 }) l
          | none => l) st.scenes := hx
    refine foldl_upd_estab
      (env.imagePromptsBatch
        (((sortScenes st.scenes).filter (fun u => !truthy u.imagePrompt)).map
          (fun u => (u.order, u.narration))))
      (fun r => ((sortScenes st.scenes).filter
        (fun u => !truthy u.imagePrompt)).find? (fun s => s.order == r.1))
      (fun r s => { s with imagePrompt := jsTrim r.2 })
      (fun s => truthy s.imagePrompt = true)
      (fun r hr s => henvB1 _ r hr) st.scenes ?_ x hx'
    intro s hs hq
    have hsmem : s ∈ sortScenes st.scenes := mem_sortScenes.mpr hs
    have hq' : (!truthy s.imagePrompt) = true := by simpa using hq
    have hsmiss : s ∈ (sortScenes st.scenes).filter
        (fun u => !truthy u.imagePrompt) :=
      List.mem_filter.mpr ⟨hsmem, hq'⟩
    obtain ⟨r, hr, hr1⟩ := henvB2
      (((sortScenes st.scenes).filter (fun u => !truthy u.imagePrompt)).map
        (fun u => (u.order, u.narration)))
      (s.order, s.narration) (List.mem_map.mpr ⟨s, hsmiss, rfl⟩)
    have hpred : (fun u => u.order == r.1) s = true := by simp [hr1]
    have hfindSome : (((sortScenes st.scenes).filter
        (fun u => !truthy u.imagePrompt)).find?
        (fun u => u.order == r.1)).isSome = true :=
      List.find?_isSome.mpr ⟨s, hsmiss, hpred⟩
    obtain ⟨t, hft⟩ := Option.isSome_iff_exists.mp hfindSome
    have htmem := List.mem_of_find?_eq_some hft
    have htpred := List.find?_some hft
    have hr1' : r.1 = s.order := hr1
    have htorder : t.order = s.order := by
      simp only [beq_iff_eq] at htpred
      rw [htpred, hr1']
    have hsorted : ((sortScenes st.scenes).map Scene.order).Nodup :=
      ((sortScenes_perm st.scenes).map Scene.order).nodup_iff.mpr hord
    have hordm : (((sortScenes st.scenes).filter
        (fun u => !truthy u.imagePrompt)).map Scene.order).Nodup :=
      List.Nodup.sublist
        (List.Sublist.map Scene.order (List.filter_sublist _)) hsorted
    have hts : t = s := List.inj_on_of_nodup_map hordm htmem hsmiss htorder
    exact ⟨r, hr, t, hft, by rw [hts]⟩
  · rename_i h
    refine ⟨rfl, rfl, rfl, ?_⟩
    intro x hx
    have hlen : ((sortScenes st.scenes).filter
        (fun u => !truthy u.imagePrompt)).length = 0 := by
      simpa using h
    have hf : (sortScenes st.scenes).filter
        (fun u => !truthy u.imagePrompt) = [] :=
      List.length_eq_zero.mp hlen
    have h2 := List.filter_eq_nil_iff.mp hf x (mem_sortScenes.mpr hx)
    simpa using h2

theorem stageProsody_spec (env : Env) (st : PState) :
    (stageProsody env st).1.scenes.map (fun s => (obs0 s, s.imagePrompt))
        = st.scenes.map (fun s => (obs0 s, s.imagePrompt)) ∧
      (stageProsody env st).1.project = st.project ∧
      (stageProsody env st).1.nextId = st.nextId ∧
      (∀ x ∈ (stageProsody env st).1.scenes,
        x.prosodyData.isSome = true) := by
  rw [stageProsody]
  split
  · refine ⟨?_, rfl, rfl, ?_⟩
    · exact foldl_upd_map_field (fun s => (obs0 s, s.imagePrompt))
        ((sortScenes st.scenes).filter (fun u => u.prosodyData.isNone))
        (fun sc => some sc)
        (fun sc s =>
          { s with
            prosodyData := some (textToProsodySegments sc.narration),
            animationIn := (env.animationsFor sc.narration).1,
            animationShow := (env.animationsFor sc.narration).2.1,
            animationOut := (env.animationsFor sc.narration).2.2 })
        (fun _ _ _ => rfl) st.scenes
    · intro x hx
      have hx' : x ∈ ((sortScenes st.scenes).filter
          (fun u => u.prosodyData.isNone)).foldl
          (fun l sc =>
            match some sc with
            | some t => updScene t.sid
                (fun s =>
                  { s with
                    prosodyData := some (textToProsodySegments sc.narration),
                    animationIn := (env.animationsFor sc.narration).1,
                    animationShow := (env.animationsFor sc.narration).2.1,
                    animationOut := (env.animationsFor sc.narration).2.2 }) l
            | none => l) st.scenes := hx
      refine foldl_upd_estab
        ((sortScenes st.scenes).filter (fun u => u.prosodyData.isNone))
        (fun sc => some sc)
        (fun sc s =>
          { s with
            prosodyData := some (textToProsodySegments sc.narration),
            animationIn := (env.animationsFor sc.narration).1,
            animationShow := (env.animationsFor sc.narration).2.1,
            animationOut := (env.animationsFor sc.narration).2.2 })
        (fun s => s.prosodyData.isSome = true)
        (fun _ _ _ => rfl) st.scenes ?_ x hx'
      intro s hs hq
      have hnone : s.prosodyData = none :=
        Option.not_isSome_iff_eq_none.mp (by simpa using hq)
      have hsmiss : s ∈ (sortScenes st.scenes).filter
          (fun u => u.prosodyData.isNone) :=
        List.mem_filter.mpr ⟨mem_sortScenes.mpr hs, by simp [hnone]⟩
      exact ⟨s, hsmiss, s, rfl, rfl⟩
  · rename_i h
    refine ⟨rfl, rfl, rfl, ?_⟩
    intro x hx
    have hlen : ((sortScenes st.scenes).filter
        (fun u => u.prosodyData.isNone)).length = 0 := by
      simpa using h
    have hf : (sortScenes st.scenes).filter
        (fun u => u.prosodyData.isNone) = [] :=
      List.length_eq_zero.mp hlen
    have h2 := List.filter_eq_nil_iff.mp hf x (mem_sortScenes.mpr hx)
    cases hopt : x.prosodyData with
    | none => rw [hopt] at h2; simp at h2
    | some v => rfl

/-- The scene columns Step 5's image loop does not write. -/
def obsNoImg (s : Scene) :
    ℕ × ℕ × String × String × Option (List ProsodySegment) × Option Path
      × Option ℤ × Option ℤ :=
  (s.sid, s.order, s.narration, s.imagePrompt, s.prosodyData, s.audioPath,
   s.startTimeMs, s.endTimeMs)

/-- The scene columns Step 6's persistence loop does not write. -/
def obsNoAud (s : Scene) :
    ℕ × ℕ × String × String × Option (List ProsodySegment) × Option Path :=
  (s.sid, s.order, s.narration, s.imagePrompt, s.prosodyData, s.imagePath)

/-- Per-scene media invariants holding from row creation on: truthy
narration, canonical media paths, and timing only together with audio. -/
def ScenePaths (slug : String) (sc : Scene) : Prop :=
  truthy sc.narration = true ∧
    (∀ p, sc.imagePath = some p → p = imagePathFor slug sc.order) ∧
    (∀ q, sc.audioPath = some q → q = audioPathFor slug sc.order) ∧
    (timed sc = true → sc.audioPath.isSome = true)

/-- The per-scene state Steps 1–4 leave behind. -/
def SceneReady4 (slug : String) (sc : Scene) : Prop :=
  ScenePaths slug sc ∧ truthy sc.imagePrompt = true ∧
    sc.prosodyData.isSome = true

/-- The scene points at a canonical image file present on disk. -/
def GoodImg (slug : String) (fs : List Path) (sc : Scene) : Prop :=
  ∃ o, sc.imagePath = some (imagePathFor slug o) ∧ imagePathFor slug o ∈ fs

/-- The scene points at a canonical audio file present on disk. -/
def GoodAud (slug : String) (fs : List Path) (sc : Scene) : Prop :=
  ∃ o, sc.audioPath = some (audioPathFor slug o) ∧ audioPathFor slug o ∈ fs

theorem obs_fields {x y : Scene} (h : obs0 x = obs0 y) :
    x.sid = y.sid ∧ x.order = y.order ∧ x.narration = y.narration ∧
      x.imagePath = y.imagePath ∧ x.audioPath = y.audioPath ∧
      x.startTimeMs = y.startTimeMs ∧ x.endTimeMs = y.endTimeMs :=
  ⟨congrArg SceneObs.sid h, congrArg SceneObs.order h,
   congrArg SceneObs.narration h, congrArg SceneObs.imagePath h,
   congrArg SceneObs.audioPath h, congrArg SceneObs.startTimeMs h,
   congrArg SceneObs.endTimeMs h⟩

theorem map_field_of_map_obs {γ δ : Type} (f : Scene → γ) (h : γ → δ)
    (g : Scene → δ) (hfg : ∀ s, h (f s) = g s) {l l' : List Scene}
    (he : l'.map f = l.map f) : l'.map g = l.map g := by
  have h2 := congrArg (List.map h) he
  simp only [List.map_map] at h2
  calc l'.map g = l'.map (h ∘ f) :=
        List.map_congr_left (fun s _ => (hfg s).symm)
    _ = l.map (h ∘ f) := h2
    _ = l.map g := List.map_congr_left (fun s _ => hfg s)

theorem length_of_map_eq {γ : Type} (f : Scene → γ) {l l' : List Scene}
    (he : l'.map f = l.map f) : l'.length = l.length := by
  have h2 := congrArg List.length he
  simpa using h2

theorem scenePaths_of_obs (slug : String) {x y : Scene}
    (h : obs0 x = obs0 y) (hy : ScenePaths slug y) : ScenePaths slug x := by
  obtain ⟨h1, h2, h3, h4, h5, h6, h7⟩ := obs_fields h
  obtain ⟨hy1, hy2, hy3, hy4⟩ := hy
  refine ⟨by rw [h3]; exact hy1, ?_, ?_, ?_⟩
  · intro p hp
    rw [h2]
    exact hy2 p (by rw [← h4]; exact hp)
  · intro q hq
    rw [h2]
    exact hy3 q (by rw [← h5]; exact hq)
  · intro ht
    rw [h5]
    refine hy4 ?_
    rw [timed, ← h6, ← h7]
    exact ht

theorem imagePathFor_ne_video (slug slug2 : String) (o o2 : ℕ) :
    imagePathFor slug o ≠ sceneVideoPathFor slug2 o2 := by
  simp [imagePathFor, sceneVideoPathFor]

theorem audioPathFor_ne_video (slug slug2 : String) (o o2 : ℕ) :
    audioPathFor slug o ≠ sceneVideoPathFor slug2 o2 := by
  simp [audioPathFor, sceneVideoPathFor]

theorem existsSync_mem {fs : List Path} {p : Path}
    (h : existsSync fs p = true) : p ∈ fs := by
  simpa [existsSync] using h

theorem applyWalk_map (walked scenes : List Scene) :
    (applyWalk walked scenes).map obsNoAud = scenes.map obsNoAud := by
  have hx : applyWalk walked scenes
      = walked.foldl (fun l w =>
          match some w with
          | some t => updScene t.sid (fun s =>
              { s with audioPath := w.audioPath,
                       startTimeMs := w.startTimeMs,
                       endTimeMs := w.endTimeMs }) l
          | none => l) scenes := rfl
  rw [hx]
  exact foldl_upd_map_field obsNoAud walked (fun w => some w)
    (fun w s => { s with audioPath := w.audioPath,
                         startTimeMs := w.startTimeMs,
                         endTimeMs := w.endTimeMs })
    (fun _ _ _ => rfl) scenes

theorem applyWalk_length (walked scenes : List Scene) :
    (applyWalk walked scenes).length = scenes.length :=
  length_of_map_eq obsNoAud (applyWalk_map walked scenes)

theorem applyWalk_estab (walked scenes : List Scene) (Q : Scene → Prop)
    (hQ : ∀ w ∈ walked, ∀ s : Scene,
      Q { s with audioPath := w.audioPath, startTimeMs := w.startTimeMs,
                 endTimeMs := w.endTimeMs })
    (hcov : ∀ s ∈ scenes, ∃ w ∈ walked, w.sid = s.sid) :
    ∀ x ∈ applyWalk walked scenes, Q x := by
  intro x hx
  have hx' : x ∈ walked.foldl (fun l w =>
      match some w with
      | some t => updScene t.sid (fun s =>
          { s with audioPath := w.audioPath,
                   startTimeMs := w.startTimeMs,
                   endTimeMs := w.endTimeMs }) l
      | none => l) scenes := hx
  refine foldl_upd_estab walked (fun w => some w)
    (fun w s => { s with audioPath := w.audioPath,
                         startTimeMs := w.startTimeMs,
                         endTimeMs := w.endTimeMs })
    Q (fun w hw s => hQ w hw s) scenes ?_ x hx'
  intro s hs _
  obtain ⟨w, hw, hwid⟩ := hcov s hs
  exact ⟨w, hw, w, rfl, hwid⟩

theorem renderStage_parts (slug : String) (st : PState) :
    (renderStage slug st).1.scenes = st.scenes ∧
      (renderStage slug st).2 = sortScenes st.scenes ∧
      (renderStage slug st).1.project.titleGenerated
        = st.project.titleGenerated ∧
      (renderStage slug st).1.project.characterDescriptions
        = st.project.characterDescriptions ∧
      (renderStage slug st).1.project.contentType
        = st.project.contentType := by
  refine ⟨?_, ?_, ?_, ?_, ?_⟩
  all_goals simp [renderStage, logMessage]

theorem renderStage_fs_mem (slug : String) (st : PState) (p : Path)
    (hp : p ∈ st.fs) (hne : ∀ o : ℕ, p ≠ sceneVideoPathFor slug o) :
    p ∈ (renderStage slug st).1.fs := by
  have hgoal : (renderStage slug st).1.fs
      = ((sortScenes st.scenes).map
          (fun sc => sceneVideoPathFor slug sc.order)).foldl
          (fun f q => f.erase q)
          (st.fs ++ (sortScenes st.scenes).map
              (fun sc => sceneVideoPathFor slug sc.order)
            ++ [finalVideoPathFor slug]) := by
    simp [renderStage, logMessage]
  rw [hgoal]
  refine foldl_erase_mem _ _ p (by simp [hp]) ?_
  intro q hq
  obtain ⟨sc, _, hsc⟩ := List.mem_map.mp hq
  rw [← hsc]
  exact hne sc.order

/-- All resume guards of the pipeline hold: metadata, narrations,
characters, image prompts, prosody and both media filters find nothing to
do.  This is the postcondition a successful run establishes and the
precondition under which a run makes zero provider calls. -/
def Ready (st : PState) : Prop :=
  st.project.status ≠ .PENDING ∧
    truthy st.project.titleGenerated = true ∧
    st.scenes ≠ [] ∧
    (truthy st.project.characterDescriptions = true ∨
      contentTypeOf st.project ≠ "story") ∧
    ∀ sc ∈ st.scenes,
      truthy sc.narration = true ∧
        truthy sc.imagePrompt = true ∧
        sc.prosodyData.isSome = true ∧
        (∃ p, sc.imagePath = some p ∧ p ∈ st.fs) ∧
        (∃ q, sc.audioPath = some q ∧ q ∈ st.fs)

theorem stageMetadata_skip (env : Env) (st : PState)
    (h1 : st.project.status ≠ .PENDING)
    (h2 : truthy st.project.titleGenerated = true) :
    stageMetadata env st = (st, 0) := by
  rw [stageMetadata, if_neg]
  simp [h1, h2]

theorem stageNarrations_skip (env : Env) (st : PState)
    (hne : st.scenes ≠ [])
    (h : ∀ sc ∈ st.scenes, truthy sc.narration = true) :
    stageNarrations env st = (st, 0) := by
  rw [stageNarrations]
  cases hs : sortScenes st.scenes with
  | nil => exact absurd hs (sortScenes_ne_nil hne)
  | cons sc rest =>
    have hmem : sc ∈ st.scenes := mem_sortScenes.mp (by rw [hs]; simp)
    simp [h sc hmem]

theorem stageCharacters_skip (env : Env) (st : PState)
    (h : truthy st.project.characterDescriptions = true ∨
      contentTypeOf st.project ≠ "story") :
    stageCharacters env st = (st, 0) := by
  have hx : ¬((!truthy st.project.characterDescriptions
      && contentTypeOf st.project == "story") = true) := by
    rcases h with h | h
    · simp [h]
    · simp [h]
  rw [stageCharacters, if_neg hx]

theorem stagePrompts_skip (env : Env) (st : PState)
    (h : ∀ sc ∈ st.scenes, truthy sc.imagePrompt = true) :
    stagePrompts env st = (st, 0) := by
  have hmiss : (sortScenes st.scenes).filter
      (fun s => !truthy s.imagePrompt) = [] :=
    List.filter_eq_nil_iff.mpr
      (fun s hs => by simp [h s (mem_sortScenes.mp hs)])
  rw [stagePrompts]
  simp [hmiss]

theorem stageProsody_skip (env : Env) (st : PState)
    (h : ∀ sc ∈ st.scenes, sc.prosodyData.isSome = true) :
    stageProsody env st = (st, 0) := by
  have hmiss : (sortScenes st.scenes).filter
      (fun s => s.prosodyData.isNone) = [] :=
    List.filter_eq_nil_iff.mpr (fun s hs => by
      have h2 := h s (mem_sortScenes.mp hs)
      simp [Option.isNone_iff_eq_none]
      intro h3
      rw [h3] at h2
      simp at h2)
  rw [stageProsody]
  simp [hmiss]

theorem preMedia_ready (env : Env) (st : PState) (h : Ready st) :
    preMedia env st = (st, ⟨0, 0, 0, 0, 0, 0, 0, 0⟩) := by
  obtain ⟨h1, h2, h3, h4, h5⟩ := h
  rw [preMedia]
  simp [stageMetadata_skip env st h1 h2,
    stageNarrations_skip env st h3 (fun sc hsc => (h5 sc hsc).1),
    stageCharacters_skip env st h4,
    stagePrompts_skip env st (fun sc hsc => (h5 sc hsc).2.1),
    stageProsody_skip env st (fun sc hsc => (h5 sc hsc).2.2.1)]

theorem st6Of_ready_scenes (env : Env) (st : PState) (h : Ready st) :
    (st6Of env st).scenes = st.scenes := by
  simp [st6Of, logMessage, preMedia_ready env st h]

theorem needImgsOf_ready (env : Env) (st : PState) (h : Ready st) :
    needImgsOf env st = [] := by
  rw [needImgsOf]
  apply List.filter_eq_nil_iff.mpr
  intro sc hsc
  have hmem : sc ∈ st.scenes := by
    rw [scenesForMediaOf, st6Of_ready_scenes env st h] at hsc
    exact mem_sortScenes.mp hsc
  obtain ⟨p, hp1, hp2⟩ := (h.2.2.2.2 sc hmem).2.2.2.1
  simp [needsImage, hp1, st6Of_fs, existsSync_true hp2]

theorem needAudOf_ready (env : Env) (st : PState) (h : Ready st) :
    needAudOf env st = [] := by
  rw [needAudOf]
  apply List.filter_eq_nil_iff.mpr
  intro sc hsc
  have hmem : sc ∈ st.scenes := by
    rw [scenesForMediaOf, st6Of_ready_scenes env st h] at hsc
    exact mem_sortScenes.mp hsc
  obtain ⟨q, hq1, hq2⟩ := (h.2.2.2.2 sc hmem).2.2.2.2
  simp [needsAudio, hq1, st6Of_fs, existsSync_true hq2]

theorem ipOf_count (env : Env) (s0 : PState) :
    (ipOf env s0).2 = (needImgsOf env s0).length := by
  simp only [ipOf, imagesPart]

theorem maOf_empty (env : Env) (s0 : PState)
    (hna : needAudOf env s0 = []) :
    maOf env s0 = ((ipOf env s0).1, .ok [], 0, 0) := by
  rw [maOf, hna, mediaAudio]
  rfl

theorem generateFullStory_calls (env : Env) (s0 : PState) :
    (generateFullStory env s0).2 = callsOf env s0 := by
  unfold generateFullStory
  split
  · rfl
  · rfl

/-- On a `Ready` state every stage skips, both media filters are empty, no
queue unit is submitted and the run makes zero provider calls. -/
theorem ready_second_run_zero (env : Env) (st : PState) (h : Ready st) :
    zeroCalls (generateFullStory env st).2 := by
  rw [generateFullStory_calls]
  have hpm := preMedia_ready env st h
  have hni := needImgsOf_ready env st h
  have hna := needAudOf_ready env st h
  rw [callsOf, hpm, ipOf_count, hni, maOf_empty env st hna]
  simp [zeroCalls]

theorem stages345_spec (env : Env) (slug : String) (st2 : PState)
    (henvC : truthy env.characters = true)
    (henvB1 : ∀ q r, r ∈ env.imagePromptsBatch q →
      truthy (jsTrim r.2) = true)
    (henvB2 : ∀ q p, p ∈ q → ∃ r ∈ env.imagePromptsBatch q, r.1 = p.1)
    (h1 : st2.scenes ≠ []) (h2 : (st2.scenes.map Scene.order).Nodup)
    (h3 : ∀ sc ∈ st2.scenes, ScenePaths slug sc)
    (h4 : truthy st2.project.titleGenerated = true) :
    truthy (stageProsody env (stagePrompts env
        (stageCharacters env st2).1).1).1.project.titleGenerated = true ∧
      (truthy (stageProsody env (stagePrompts env
          (stageCharacters env st2).1).1).1.project.characterDescriptions
            = true ∨
        contentTypeOf (stageProsody env (stagePrompts env
          (stageCharacters env st2).1).1).1.project ≠ "story") ∧
      (stageProsody env (stagePrompts env
        (stageCharacters env st2).1).1).1.scenes ≠ [] ∧
      ((stageProsody env (stagePrompts env
        (stageCharacters env st2).1).1).1.scenes.map Scene.order).Nodup ∧
      (stageProsody env (stagePrompts env
        (stageCharacters env st2).1).1).1.project.projectSlug
          = st2.project.projectSlug ∧
      (stageProsody env (stagePrompts env
        (stageCharacters env st2).1).1).1.project.pid = st2.project.pid ∧
      ∀ sc ∈ (stageProsody env (stagePrompts env
        (stageCharacters env st2).1).1).1.scenes, SceneReady4 slug sc := by
  obtain ⟨hchS, hchN, hchSl, hchP, hchT, hchC, hchD⟩ :=
    stageCharacters_state env st2 henvC
  have h2' : ((stageCharacters env st2).1.scenes.map Scene.order).Nodup := by
    rw [hchS]; exact h2
  obtain ⟨hpbM, hpbP, hpbN, hpbI⟩ :=
    stagePrompts_spec env (stageCharacters env st2).1 henvB1 henvB2 h2'
  obtain ⟨hprM, hprP, hprN, hprD⟩ :=
    stageProsody_spec env (stagePrompts env (stageCharacters env st2).1).1
  have hlen : (stageProsody env (stagePrompts env
      (stageCharacters env st2).1).1).1.scenes.length
        = st2.scenes.length := by
    rw [length_of_map_eq _ hprM, length_of_map_eq _ hpbM, hchS]
  have hord5 : ((stageProsody env (stagePrompts env
      (stageCharacters env st2).1).1).1.scenes.map Scene.order)
        = st2.scenes.map Scene.order := by
    rw [map_field_of_map_obs _ (fun pr => pr.1.order) Scene.order
        (fun s => rfl) hprM,
      map_field_of_map_obs _ (fun pr => pr.1.order) Scene.order
        (fun s => rfl) hpbM,
      hchS]
  refine ⟨?_, ?_, ?_, ?_, ?_, ?_, ?_⟩
  · rw [hprP, hpbP, hchT]; exact h4
  · rw [hprP, hpbP]; exact hchD
  · intro hnil
    exact h1 (List.length_eq_zero.mp (by rw [← hlen, hnil]; rfl))
  · rw [hord5]; exact h2
  · rw [hprP, hpbP, hchSl]
  · rw [hprP, hpbP, hchP]
  · intro sc hsc
    have hD := hprD sc hsc
    obtain ⟨y, hy, hpair⟩ := map_eq_mem _ hprM sc hsc
    have hobs1 : obs0 sc = obs0 y := congrArg Prod.fst hpair
    have himg1 : sc.imagePrompt = y.imagePrompt := congrArg Prod.snd hpair
    have hI := hpbI y hy
    obtain ⟨z, hz, hpair2⟩ := map_eq_mem _ hpbM y hy
    have hobs2 : obs0 y = obs0 z := congrArg Prod.fst hpair2
    rw [hchS] at hz
    exact ⟨scenePaths_of_obs slug (hobs1.trans hobs2) (h3 z hz),
      by rw [himg1]; exact hI, hD⟩

theorem preMedia_spec (env : Env) (s0 : PState) (henv : EnvOK env)
    (hwf : WFState s0) :
    truthy (preMedia env s0).1.project.titleGenerated = true ∧
      (truthy (preMedia env s0).1.project.characterDescriptions = true ∨
        contentTypeOf (preMedia env s0).1.project ≠ "story") ∧
      (preMedia env s0).1.scenes ≠ [] ∧
      ((preMedia env s0).1.scenes.map Scene.order).Nodup ∧
      (preMedia env s0).1.project.projectSlug = s0.project.projectSlug ∧
      (preMedia env s0).1.project.pid = s0.project.pid ∧
      ∀ sc ∈ (preMedia env s0).1.scenes,
        SceneReady4 (fileSlug s0.project) sc := by
  obtain ⟨henvT, henvN, henvNt, henvNo, henvC, henvB1, henvB2⟩ := henv
  obtain ⟨hwfO, hwfN, hwfA, hwfT, hwfI⟩ := hwf
  obtain ⟨hmS, hmN, hmSl, hmP, hmC, hmCt, hmT⟩ :=
    stageMetadata_state env s0 henvT
  have hmid : (stageNarrations env (stageMetadata env s0).1).1.scenes ≠ [] ∧
      ((stageNarrations env
        (stageMetadata env s0).1).1.scenes.map Scene.order).Nodup ∧
      (∀ sc ∈ (stageNarrations env (stageMetadata env s0).1).1.scenes,
        ScenePaths (fileSlug s0.project) sc) ∧
      truthy (stageNarrations env
        (stageMetadata env s0).1).1.project.titleGenerated = true ∧
      (stageNarrations env (stageMetadata env s0).1).1.project.projectSlug
        = s0.project.projectSlug ∧
      (stageNarrations env (stageMetadata env s0).1).1.project.pid
        = s0.project.pid := by
    rcases stageNarrations_state env (stageMetadata env s0).1
        (by rw [hmS]; exact hwfN) with ⟨heq, hne⟩ | ⟨hnil, heq⟩
    · rw [heq]
      refine ⟨by rw [hmS]; rw [hmS] at hne; exact hne, ?_, ?_, hmT, hmSl, hmP⟩
      · rw [hmS]; exact hwfO
      · intro sc hsc
        rw [hmS] at hsc
        exact ⟨hwfN sc hsc, hwfI sc hsc, hwfA sc hsc, hwfT sc hsc⟩
    · obtain ⟨hcS, hcSl, hcP, hcC, hcCt, hcT⟩ :=
        createScenes_state env (stageMetadata env s0).1
      rw [heq]
      have hsceq : (createScenes env (stageMetadata env s0).1).scenes
          = env.narrations.enum.map (fun p =>
              mkScene ((stageMetadata env s0).1.nextId + p.1) p.2.1 p.2.2) := by
        rw [hcS, hnil, List.nil_append]
      have hmemnarr : ∀ sc ∈ (createScenes env
          (stageMetadata env s0).1).scenes,
          ∃ p ∈ env.narrations, sc.narration = p.2 ∧
            sc.imagePath = none ∧ sc.audioPath = none ∧
            sc.startTimeMs = none := by
        intro sc hsc
        rw [hsceq] at hsc
        obtain ⟨p, hp, hpe⟩ := List.mem_map.mp hsc
        have hp2 : p.2 ∈ env.narrations := by
          have := List.mem_map_of_mem Prod.snd hp
          rwa [List.enum_map_snd] at this
        exact ⟨p.2, hp2, by rw [← hpe]; rfl, by rw [← hpe]; rfl,
          by rw [← hpe]; rfl, by rw [← hpe]; rfl⟩
      refine ⟨?_, ?_, ?_, by rw [hcT]; exact hmT,
        by rw [hcSl]; exact hmSl, by rw [hcP]; exact hmP⟩
      · rw [hsceq]
        intro hnil2
        have := congrArg List.length hnil2
        simp at this
        exact henvN this
      · rw [hsceq]
        have : (env.narrations.enum.map (fun p =>
            mkScene ((stageMetadata env s0).1.nextId + p.1)
              p.2.1 p.2.2)).map Scene.order
            = env.narrations.map Prod.fst := by
          simp only [List.map_map]
          calc List.map (Scene.order ∘ fun p =>
                mkScene ((stageMetadata env s0).1.nextId + p.1) p.2.1 p.2.2)
                env.narrations.enum
              = List.map (Prod.fst ∘ Prod.snd) env.narrations.enum :=
                List.map_congr_left (fun p _ => rfl)
            _ = List.map Prod.fst (List.map Prod.snd env.narrations.enum) :=
                (List.map_map _ _ _).symm
            _ = env.narrations.map Prod.fst := by rw [List.enum_map_snd]
        rw [this]
        exact henvNo
      · intro sc hsc
        obtain ⟨p, hp, hn, hip, hap, hst⟩ := hmemnarr sc hsc
        refine ⟨by rw [hn]; exact henvNt p hp, ?_, ?_, ?_⟩
        · intro q hq; rw [hip] at hq; exact absurd hq (by simp)
        · intro q hq; rw [hap] at hq; exact absurd hq (by simp)
        · intro ht
          rw [timed, hst] at ht
          simp at ht
  obtain ⟨g1, g2, g3, g4, g5, g6⟩ := hmid
  have hfin := stages345_spec env (fileSlug s0.project)
    (stageNarrations env (stageMetadata env s0).1).1
    henvC henvB1 henvB2 g1 g2 g3 g4
  obtain ⟨f1, f2, f3, f4, f5, f6, f7⟩ := hfin
  have hpm : (preMedia env s0).1 = (stageProsody env (stagePrompts env
      (stageCharacters env
        (stageNarrations env (stageMetadata env s0).1).1).1).1).1 := by
    simp only [preMedia]
  rw [hpm]
  exact ⟨f1, f2, f3, f4, f5.trans g5, f6.trans g6, f7⟩

theorem st6Of_spec (env : Env) (s0 : PState) (henv : EnvOK env)
    (hwf : WFState s0) :
    truthy (st6Of env s0).project.titleGenerated = true ∧
      (truthy (st6Of env s0).project.characterDescriptions = true ∨
        contentTypeOf (st6Of env s0).project ≠ "story") ∧
      (st6Of env s0).scenes ≠ [] ∧
      ((st6Of env s0).scenes.map Scene.order).Nodup ∧
      fileSlug (st6Of env s0).project = fileSlug s0.project ∧
      ∀ sc ∈ (st6Of env s0).scenes, SceneReady4 (fileSlug s0.project) sc := by
  obtain ⟨p1, p2, p3, p4, p5, p6, p7⟩ := preMedia_spec env s0 henv hwf
  have hsc : (st6Of env s0).scenes = (preMedia env s0).1.scenes := by
    simp [st6Of, logMessage]
  have ht : (st6Of env s0).project.titleGenerated
      = (preMedia env s0).1.project.titleGenerated := by
    simp [st6Of, logMessage]
  have hcd : (st6Of env s0).project.characterDescriptions
      = (preMedia env s0).1.project.characterDescriptions := by
    simp [st6Of, logMessage]
  have hct : (st6Of env s0).project.contentType
      = (preMedia env s0).1.project.contentType := by
    simp [st6Of, logMessage]
  have hsl : (st6Of env s0).project.projectSlug
      = (preMedia env s0).1.project.projectSlug := by
    simp [st6Of, logMessage]
  have hpd : (st6Of env s0).project.pid
      = (preMedia env s0).1.project.pid := by
    simp [st6Of, logMessage]
  refine ⟨by rw [ht]; exact p1, ?_, by rw [hsc]; exact p3,
    by rw [hsc]; exact p4, ?_, by rw [hsc]; exact p7⟩
  · have hcteq : contentTypeOf (st6Of env s0).project
        = contentTypeOf (preMedia env s0).1.project := by
      simp only [contentTypeOf, hct]
    rcases p2 with p2 | p2
    · exact Or.inl (by rw [hcd]; exact p2)
    · exact Or.inr (by rw [hcteq]; exact p2)
  · rw [fileSlug, fileSlug, hsl, hpd, p5, p6]

theorem ipOf_spec (env : Env) (s0 : PState)
    (hcanI : ∀ sc ∈ (st6Of env s0).scenes, ∀ p, sc.imagePath = some p →
      p = imagePathFor (fileSlug (st6Of env s0).project) sc.order) :
    (ipOf env s0).1.scenes.map obsNoImg
        = (st6Of env s0).scenes.map obsNoImg ∧
      (ipOf env s0).1.project = (st6Of env s0).project ∧
      ∀ x ∈ (ipOf env s0).1.scenes,
        GoodImg (fileSlug (st6Of env s0).project) (ipOf env s0).1.fs x := by
  have hfs := ipOf_fs env s0
  have hfold : (ipOf env s0).1.scenes
      = (needImgsOf env s0).foldl (fun l sc =>
          match some sc with
          | some t => updScene t.sid (fun s =>
              { s with imagePath := some (imagePathFor
                  (fileSlug (st6Of env s0).project) sc.order) }) l
          | none => l) (st6Of env s0).scenes := by
    rw [ipOf, imagesPart]
    split
    · simp [logMessage]
    · simp
  have hproj : (ipOf env s0).1.project = (st6Of env s0).project := by
    rw [ipOf, imagesPart]
    split
    · simp [logMessage]
    · simp
  refine ⟨?_, hproj, ?_⟩
  · rw [hfold]
    exact foldl_upd_map_field obsNoImg (needImgsOf env s0)
      (fun sc => some sc)
      (fun sc s => { s with imagePath := some (imagePathFor
          (fileSlug (st6Of env s0).project) sc.order) })
      (fun _ _ _ => rfl) (st6Of env s0).scenes
  · intro x hx
    rw [hfold] at hx
    refine foldl_upd_estab (needImgsOf env s0) (fun sc => some sc)
      (fun sc s => { s with imagePath := some (imagePathFor
          (fileSlug (st6Of env s0).project) sc.order) })
      (GoodImg (fileSlug (st6Of env s0).project) (ipOf env s0).1.fs)
      ?_ (st6Of env s0).scenes ?_ x hx
    · intro sc hsc s
      refine ⟨sc.order, rfl, ?_⟩
      rw [hfs]
      refine List.mem_append.mpr (Or.inr ?_)
      exact List.mem_map.mpr ⟨sc, hsc, rfl⟩
    · intro s hs hq
      by_cases hni : needsImage (st6Of env s0).fs s = true
      · have hsm : s ∈ needImgsOf env s0 := by
          rw [needImgsOf]
          exact List.mem_filter.mpr ⟨by
            rw [scenesForMediaOf]; exact mem_sortScenes.mpr hs, hni⟩
        exact ⟨s, hsm, s, rfl, rfl⟩
      · exfalso
        cases hp : s.imagePath with
        | none =>
          rw [needsImage, hp] at hni
          exact hni rfl
        | some p =>
          apply hq
          have hex : existsSync (st6Of env s0).fs p = true := by
            rw [needsImage, hp] at hni
            simpa using hni
          have hpm := existsSync_mem hex
          have hpc := hcanI s hs p hp
          refine ⟨s.order, by rw [hp, hpc], ?_⟩
          rw [hfs]
          refine List.mem_append.mpr (Or.inl ?_)
          rw [← hpc, ← st6Of_fs env s0]
          exact hpm

theorem maOf_ok_spec (env : Env) (s0 : PState) (results : List AudioResult)
    (hma : (maOf env s0).2.1 = .ok results) :
    (maOf env s0).1.scenes = (ipOf env s0).1.scenes ∧
      (maOf env s0).1.fs = (ipOf env s0).1.fs ++ (needAudOf env s0).map
        (fun sc => audioPathFor (fileSlug (st6Of env s0).project) sc.order) ∧
      (maOf env s0).1.project.titleGenerated
        = (ipOf env s0).1.project.titleGenerated ∧
      (maOf env s0).1.project.characterDescriptions
        = (ipOf env s0).1.project.characterDescriptions ∧
      (maOf env s0).1.project.contentType
        = (ipOf env s0).1.project.contentType ∧
      List.Forall₂ (fun (sc : Scene) (r : AudioResult) =>
        r.sceneId = sc.sid ∧ r.audioPath
          = audioPathFor (fileSlug (st6Of env s0).project) sc.order)
        (needAudOf env s0) results := by
  by_cases he : (needAudOf env s0).isEmpty = true
  · have hnil : needAudOf env s0 = [] := List.isEmpty_iff.mp he
    have hmm := maOf_empty env s0 hnil
    rw [hmm] at hma ⊢
    simp only [Except.ok.injEq] at hma
    refine ⟨rfl, by rw [hnil]; simp, rfl, rfl, rfl, ?_⟩
    rw [hnil, ← hma]
    exact List.Forall₂.nil
  · have hne : (needAudOf env s0).isEmpty = false := by simpa using he
    obtain ⟨hp1, hp2, hp3⟩ := maOf_parts env s0 hne
    rw [hp1] at hma
    obtain ⟨hb1, hb2⟩ := audioBatch_ok_spec env
      (fileSlug (st6Of env s0).project) (needAudOf env s0) results hma
    refine ⟨hp3, by rw [hp2, hb1], ?_, ?_, ?_, hb2⟩
    all_goals
      rw [maOf, mediaAudio, if_neg (by simp [hne])]
      simp [logMessage]

theorem walked_good (env : Env) (s0 : PState) (results : List AudioResult)
    (hfa : List.Forall₂ (fun (sc : Scene) (r : AudioResult) =>
      r.sceneId = sc.sid ∧ r.audioPath
        = audioPathFor (fileSlug (st6Of env s0).project) sc.order)
      (needAudOf env s0) results)
    (hsub : ∀ p : Path, p ∈ (st6Of env s0).fs → p ∈ (maOf env s0).1.fs)
    (hadds : ∀ sc ∈ needAudOf env s0,
      audioPathFor (fileSlug (st6Of env s0).project) sc.order
        ∈ (maOf env s0).1.fs)
    (hA : ∀ sc ∈ (st6Of env s0).scenes, ∀ q, sc.audioPath = some q →
      q = audioPathFor (fileSlug (st6Of env s0).project) sc.order)
    (hT : ∀ sc ∈ (st6Of env s0).scenes, timed sc = true →
      sc.audioPath.isSome = true) :
    ∀ w ∈ (wtOf env s0 results).1,
      GoodAud (fileSlug (st6Of env s0).project) (maOf env s0).1.fs w := by
  intro w hw
  rcases walkTiming_out_mem results (scenesForMediaOf env s0) 0 true [] w hw
    with ⟨hmem, hcond⟩ | ⟨sc, hsc, r, hfind, hap⟩
  · have hmem6 : w ∈ (st6Of env s0).scenes := by
      rw [scenesForMediaOf] at hmem
      exact mem_sortScenes.mp hmem
    by_cases hna : needsAudio (st6Of env s0).fs w = true
    · have hwna : w ∈ needAudOf env s0 := by
        rw [needAudOf]
        exact List.mem_filter.mpr ⟨hmem, hna⟩
      rcases hcond with htimed | hfnone
      · have hsome := hT w hmem6 htimed
        obtain ⟨q, hq⟩ := Option.isSome_iff_exists.mp hsome
        have hqc := hA w hmem6 q hq
        exact ⟨w.order, by rw [hq, hqc], hadds w hwna⟩
      · obtain ⟨r, hr, hrw⟩ := forall₂_mem_left hfa w hwna
        have hnone := List.find?_eq_none.mp hfnone r hr
        exact absurd (by simp [hrw.1]) hnone
    · cases hq : w.audioPath with
      | none =>
        exfalso
        rw [needsAudio, hq] at hna
        exact hna rfl
      | some q =>
        have hex : existsSync (st6Of env s0).fs q = true := by
          rw [needsAudio, hq] at hna
          simpa using hna
        have hqc := hA w hmem6 q hq
        refine ⟨w.order, by rw [hq, hqc], ?_⟩
        rw [← hqc]
        exact hsub q (existsSync_mem hex)
  · have hr : r ∈ results := List.mem_of_find?_eq_some hfind
    obtain ⟨sc', hsc', hrc⟩ := forall₂_mem_right hfa r hr
    exact ⟨sc'.order, by rw [hap, hrc.2], hadds sc' hsc'⟩

theorem successState_parts (env : Env) (s0 : PState)
    (results : List AudioResult) :
    (successState env s0 results).scenes = (st10Of env s0 results).scenes ∧
      (successState env s0 results).project.status = .COMPLETED ∧
      (successState env s0 results).project.titleGenerated
        = (maOf env s0).1.project.titleGenerated ∧
      (successState env s0 results).project.characterDescriptions
        = (maOf env s0).1.project.characterDescriptions ∧
      (successState env s0 results).project.contentType
        = (maOf env s0).1.project.contentType ∧
      (successState env s0 results).fs
        = (renderStage (fileSlug (st6Of env s0).project)
            (st10Of env s0 results)).1.fs
          ++ [srtPathFor (fileSlug (st6Of env s0).project)] := by
  have hr := renderStage_parts (fileSlug (st6Of env s0).project)
    (st10Of env s0 results)
  refine ⟨?_, ?_, ?_, ?_, ?_, ?_⟩
  · simp only [successState, logMessage]
    exact hr.1
  · simp [successState, logMessage]
  · simp only [successState, logMessage]
    rw [hr.2.2.1]
    simp only [st10Of]
  · simp only [successState, logMessage]
    rw [hr.2.2.2.1]
    simp only [st10Of]
  · simp only [successState, logMessage]
    rw [hr.2.2.2.2]
    simp only [st10Of]
  · simp only [successState, logMessage]

theorem success_ready (env : Env) (s0 : PState) (results : List AudioResult)
    (henv : EnvOK env) (hwf : WFState s0)
    (hma : (maOf env s0).2.1 = .ok results) :
    Ready (successState env s0 results) := by
  obtain ⟨q1, q2, q3, q4, q5, q6⟩ := st6Of_spec env s0 henv hwf
  have hA6 : ∀ sc ∈ (st6Of env s0).scenes, ∀ q, sc.audioPath = some q →
      q = audioPathFor (fileSlug (st6Of env s0).project) sc.order := by
    intro sc hsc q hq
    rw [q5]
    exact (q6 sc hsc).1.2.2.1 q hq
  have hI6 : ∀ sc ∈ (st6Of env s0).scenes, ∀ p, sc.imagePath = some p →
      p = imagePathFor (fileSlug (st6Of env s0).project) sc.order := by
    intro sc hsc p hp
    rw [q5]
    exact (q6 sc hsc).1.2.1 p hp
  have hT6 : ∀ sc ∈ (st6Of env s0).scenes, timed sc = true →
      sc.audioPath.isSome = true :=
    fun sc hsc ht => (q6 sc hsc).1.2.2.2 ht
  obtain ⟨hip1, hip2, hip3⟩ := ipOf_spec env s0 hI6
  obtain ⟨hmaS, hmaF, hmaT, hmaC, hmaCt, hfa⟩ :=
    maOf_ok_spec env s0 results hma
  have hsub1 : ∀ p : Path, p ∈ (st6Of env s0).fs →
      p ∈ (ipOf env s0).1.fs := by
    intro p hp
    rw [ipOf_fs env s0]
    refine List.mem_append.mpr (Or.inl ?_)
    rw [st6Of_fs env s0] at hp
    exact hp
  have hsub2 : ∀ p : Path, p ∈ (ipOf env s0).1.fs →
      p ∈ (maOf env s0).1.fs := by
    intro p hp
    rw [hmaF]
    exact List.mem_append.mpr (Or.inl hp)
  have hadds : ∀ sc ∈ needAudOf env s0,
      audioPathFor (fileSlug (st6Of env s0).project) sc.order
        ∈ (maOf env s0).1.fs := by
    intro sc hsc
    rw [hmaF]
    exact List.mem_append.mpr (Or.inr (List.mem_map.mpr ⟨sc, hsc, rfl⟩))
  have hWG := walked_good env s0 results hfa
    (fun p hp => hsub2 p (hsub1 p hp)) hadds hA6 hT6
  have hst10 : (st10Of env s0 results).scenes
      = applyWalk (wtOf env s0 results).1 (maOf env s0).1.scenes := by
    simp only [st10Of]
  have hsid : (maOf env s0).1.scenes.map Scene.sid
      = (st6Of env s0).scenes.map Scene.sid := by
    rw [hmaS]
    exact map_field_of_map_obs obsNoImg (fun t => t.1) Scene.sid
      (fun s => rfl) hip1
  have hcov : ∀ s ∈ (maOf env s0).1.scenes,
      ∃ w ∈ (wtOf env s0 results).1, w.sid = s.sid := by
    intro s hs
    have hsm : s.sid ∈ (st6Of env s0).scenes.map Scene.sid := by
      rw [← hsid]
      exact List.mem_map_of_mem Scene.sid hs
    obtain ⟨a, ha, hae⟩ := List.mem_map.mp hsm
    have ham : a ∈ scenesForMediaOf env s0 := by
      rw [scenesForMediaOf]
      exact mem_sortScenes.mpr ha
    obtain ⟨w, hw, hwrel⟩ := forall₂_mem_left
      (walkTiming_sid results (scenesForMediaOf env s0) 0 true []) a ham
    exact ⟨w, hw, by rw [hwrel.1, hae]⟩
  have hGA : ∀ x ∈ (st10Of env s0 results).scenes,
      GoodAud (fileSlug (st6Of env s0).project) (maOf env s0).1.fs x := by
    rw [hst10]
    refine applyWalk_estab _ _ _ ?_ hcov
    intro w hw s
    obtain ⟨o, ho1, ho2⟩ := hWG w hw
    exact ⟨o, ho1, ho2⟩
  have hobs10 : (st10Of env s0 results).scenes.map obsNoAud
      = (maOf env s0).1.scenes.map obsNoAud := by
    rw [hst10]
    exact applyWalk_map _ _
  have hprops_ip : ∀ y ∈ (ipOf env s0).1.scenes,
      truthy y.narration = true ∧ truthy y.imagePrompt = true ∧
        y.prosodyData.isSome = true := by
    intro y hy
    obtain ⟨z, hz, hze⟩ := map_eq_mem obsNoImg hip1 y hy
    refine ⟨?_, ?_, ?_⟩
    · rw [show y.narration = z.narration from
        congrArg (fun t => t.2.2.1) hze]
      exact (q6 z hz).1.1
    · rw [show y.imagePrompt = z.imagePrompt from
        congrArg (fun t => t.2.2.2.1) hze]
      exact (q6 z hz).2.1
    · rw [show y.prosodyData = z.prosodyData from
        congrArg (fun t => t.2.2.2.2.1) hze]
      exact (q6 z hz).2.2
  have hprops10 : ∀ x ∈ (st10Of env s0 results).scenes,
      truthy x.narration = true ∧ truthy x.imagePrompt = true ∧
        x.prosodyData.isSome = true ∧
        GoodImg (fileSlug (st6Of env s0).project) (ipOf env s0).1.fs x := by
    intro x hx
    obtain ⟨y, hy, hye⟩ := map_eq_mem obsNoAud hobs10 x hx
    rw [hmaS] at hy
    obtain ⟨hn, hi, hp⟩ := hprops_ip y hy
    refine ⟨?_, ?_, ?_, ?_⟩
    · rw [show x.narration = y.narration from
        congrArg (fun t => t.2.2.1) hye]
      exact hn
    · rw [show x.imagePrompt = y.imagePrompt from
        congrArg (fun t => t.2.2.2.1) hye]
      exact hi
    · rw [show x.prosodyData = y.prosodyData from
        congrArg (fun t => t.2.2.2.2.1) hye]
      exact hp
    · obtain ⟨o, ho1, ho2⟩ := hip3 y hy
      exact ⟨o, by rw [show x.imagePath = y.imagePath from
        congrArg (fun t => t.2.2.2.2.2) hye]; exact ho1, ho2⟩
  obtain ⟨e1, e2, e3, e4, e5, e6⟩ := successState_parts env s0 results
  refine ⟨?_, ?_, ?_, ?_, ?_⟩
  · rw [e2]
    decide
  · rw [e3, hmaT, hip2]
    exact q1
  · have hlen : (successState env s0 results).scenes.length
        = (st6Of env s0).scenes.length := by
      rw [e1, hst10, applyWalk_length, hmaS,
        length_of_map_eq obsNoImg hip1]
    intro hnil
    exact q3 (List.length_eq_zero.mp (by rw [← hlen, hnil]; rfl))
  · have hcd : (successState env s0 results).project.characterDescriptions
        = (st6Of env s0).project.characterDescriptions := by
      rw [e4, hmaC, hip2]
    have hcteq : contentTypeOf (successState env s0 results).project
        = contentTypeOf (st6Of env s0).project := by
      simp only [contentTypeOf, e5, hmaCt, hip2]
    rcases q2 with q2 | q2
    · exact Or.inl (by rw [hcd]; exact q2)
    · exact Or.inr (by rw [hcteq]; exact q2)
  · intro sc hsc
    rw [e1] at hsc
    obtain ⟨hn, hi, hp, hgi⟩ := hprops10 sc hsc
    obtain ⟨o2, ho21, ho22⟩ := hGA sc hsc
    obtain ⟨o1, ho11, ho12⟩ := hgi
    have hst10fs : (st10Of env s0 results).fs = (maOf env s0).1.fs := by
      simp only [st10Of]
    refine ⟨hn, hi, hp, ?_, ?_⟩
    · refine ⟨imagePathFor (fileSlug (st6Of env s0).project) o1, ho11, ?_⟩
      rw [e6]
      refine List.mem_append.mpr (Or.inl ?_)
      refine renderStage_fs_mem _ _ _ ?_
        (fun o => imagePathFor_ne_video _ _ _ _)
      rw [hst10fs]
      exact hsub2 _ ho12
    · refine ⟨audioPathFor (fileSlug (st6Of env s0).project) o2, ho21, ?_⟩
      rw [e6]
      refine List.mem_append.mpr (Or.inl ?_)
      refine renderStage_fs_mem _ _ _ ?_
        (fun o => audioPathFor_ne_video _ _ _ _)
      rw [hst10fs]
      exact ho22

/-- C1: idempotent resumption.  Under the oracle assumptions `EnvOK` and a
well-formed stored state `WFState`, a run of `generateFullStory` that ends
`COMPLETED` leaves a state on which a second invocation with no
external-world change makes zero provider calls — every stage skips and
both media filters come back empty, so no image, speech or batch work is
submitted.  Moreover each stage's work set is the missing subset only:
the metadata call happens exactly when the status is `PENDING` or
`titleGenerated` is unset, the image-generation calls number exactly the
scenes whose image file is absent (`needImgsOf`), and a queue unit is
submitted exactly when some scene's audio file is absent (`needAudOf`). -/
theorem c1_idempotent_resumption (env : Env) (s0 : PState)
    (henv : EnvOK env) (hwf : WFState s0)
    (hsucc : (generateFullStory env s0).1.project.status = .COMPLETED) :
    zeroCalls (generateFullStory env (generateFullStory env s0).1).2 ∧
      (generateFullStory env s0).2.meta
        = (if (s0.project.status == .PENDING
            || !truthy s0.project.titleGenerated) = true then 1 else 0) ∧
      (generateFullStory env s0).2.images = (needImgsOf env s0).length ∧
      (generateFullStory env s0).2.enq
        = (if needAudOf env s0 = [] then 0 else 1) := by
  refine ⟨?_, ?_, ?_, ?_⟩
  · cases hma : (maOf env s0).2.1 with
    | error oe =>
      exfalso
      rw [generateFullStory_error_eq env s0 oe hma] at hsucc
      simp [errorState_status] at hsucc
    | ok results =>
      have h1 := generateFullStory_ok_eq env s0 results hma
      have hr : Ready (generateFullStory env s0).1 := by
        rw [h1]
        exact success_ready env s0 results henv hwf hma
      exact ready_second_run_zero env (generateFullStory env s0).1 hr
  · rw [generateFullStory_calls]
    have hm : (callsOf env s0).meta = (stageMetadata env s0).2 := by
      simp only [callsOf, preMedia]
    rw [hm, stageMetadata]
    split
    · rfl
    · rfl
  · rw [generateFullStory_calls]
    have him : (callsOf env s0).images = (ipOf env s0).2 := by
      simp only [callsOf]
    rw [him, ipOf_count]
  · rw [generateFullStory_calls]
    have hq : (callsOf env s0).enq = (maOf env s0).2.2.2 := by
      simp only [callsOf]
    rw [hq]
    by_cases hna : needAudOf env s0 = []
    · rw [if_pos hna, maOf_empty env s0 hna]
    · rw [if_neg hna]
      have hne : (needAudOf env s0).isEmpty = false := by
        simpa [List.isEmpty_iff] using hna
      rw [maOf, mediaAudio, if_neg (by simp [hne])]

def env1 : Env :=
  { metaTitle := "t", narrations := [(1, "Hi")], characters := "c",
    imagePromptsBatch := fun q => q.map (fun p => (p.1, "P")),
    animationsFor := fun _ => ("in", "show", "out"),
    tts := fun _ _ => .ok { durationMs := 1000, wordBoundaries := [] } }

def proj1 : Project :=
  { pid := "p1", projectSlug := "s", status := .PENDING,
    titleGenerated := "", characterDescriptions := "", contentType := "",
    topic := "", videoPath := none, srtPath := none }

def s1 : PState :=
  { project := proj1, scenes := [], fs := [], logs := [], srt := none,
    nextId := 0 }

theorem env1_ok : EnvOK env1 := by
  refine ⟨by decide, by decide, by decide, by decide, by decide, ?_, ?_⟩
  · intro q r hr
    obtain ⟨p, hp, hpr⟩ := List.mem_map.mp hr
    rw [← hpr]
    exact (by decide : truthy (jsTrim "P") = true)
  · intro q p hp
    exact ⟨(p.1, "P"), List.mem_map.mpr ⟨p, hp, rfl⟩, rfl⟩

theorem s1_wf : WFState s1 := by
  refine ⟨?_, ?_, ?_, ?_, ?_⟩ <;> simp [s1]

theorem s1_completed :
    (generateFullStory env1 s1).1.project.status = .COMPLETED := by
  decide

theorem c1_idempotent_resumption_witness :
    zeroCalls (generateFullStory env1 (generateFullStory env1 s1).1).2 ∧
      (generateFullStory env1 s1).2.meta
        = (if (s1.project.status == .PENDING
            || !truthy s1.project.titleGenerated) = true then 1 else 0) ∧
      (generateFullStory env1 s1).2.images = (needImgsOf env1 s1).length ∧
      (generateFullStory env1 s1).2.enq
        = (if needAudOf env1 s1 = [] then 0 else 1) :=
  c1_idempotent_resumption env1 s1 env1_ok s1_wf s1_completed

end VidStory
